import Mathlib

/-!
# ktsan: the memory-block lifecycle manager (mm/ktsan/memblock.c)

A shallow embedding of `kt_memblock_addr`, `kt_memblock_ensure_created`,
`kt_memblock_add_sync`, `kt_memblock_remove_sync`, `kt_memblock_alloc` and
`kt_memblock_free`, and of the hash table test `kt_test_hash_table`
(mm/ktsan/tests_noinst.c), run sequentially on an explicit detector context;
and of the `CONFIG_KTSAN` branches of the `*_and_test` and `*_add_negative`
atomics of arch/x86/include/asm/atomic.h and atomic64_64.h.

* Memory is explicit: an object of a table is a slot with an address (`ptr`), the
  table header (`tab.key`, `tab.lock`) and a body.
* A `struct list_head` anchor is `none` while it was never initialised and
  `some l` once it is a list whose nodes, from `head->next` on, are `l`.
* A call that does not return is a `Fault`: a `BUG_ON` that fired, a spin on a
  lock that is held, or a NULL dereference.
* Calls that leave memblock.c (`kt_sync_free`, `kt_cache_free`,
  `kt_access_range`) are written to a log, each with the memory it was made in.
* The object table and the slot allocator (tab.c, cache.c) and the kernel's
  reciprocal division are not among the sources; they are modelled and marked so.
-/

namespace Ktsan

/-! ## Memory, lists and locks -/

/-- An address-sized unsigned integer. -/
abbrev uptr_t := Nat

/-- The ways a call fails to return. -/
inductive Fault where
  /-- A `BUG_ON(cond)` whose condition held. -/
  | BUG
  /-- The call waits on a spinlock that is held; nobody else runs, so it waits forever. -/
  | spin
  /-- The call follows a NULL `next` pointer of a list head that was never initialised. -/
  | oops
deriving DecidableEq, Repr

/-- The header `kt_tab_obj_t` every table object starts with: its key and its spinlock. -/
structure kt_tab_obj_t where
  key : uptr_t
  lock : Bool
deriving DecidableEq, Repr

/-- A `struct list_head` anchor. -/
abbrev list_head (α : Type) := Option (List α)

/-- The macro `INIT_LIST_HEAD(head)`: the head points to itself, the list is empty. -/
def INIT_LIST_HEAD {α : Type} : list_head α := some []

/-- The call `list_add(new, head)` of the kernel's linux/list.h (not among the
sources; `list_add_tail` is the call that links at the end): `new` is linked right
after `head`, that is in front of the nodes already there. A record has a single
embedded `struct list_head`, so this is what the call does to a node that is not
linked in any list; on a node that is already linked the kernel leaves a chain that
is no longer a list (the node points to itself, or the other list is cut), which a
`List` cannot show. Statements about calls of `list_add` therefore assume that the
record is not linked (`not_linked`). -/
def list_add {α : Type} (new : α) (head : list_head α) : Except Fault (list_head α) :=
  match head with
  | none => .error .oops
  | some l => .ok (some (new :: l))

/-- A synchronisation record `kt_tab_sync_t` as memblock.c sees it: the record's
own address and its table header. Two records are the same object when their
addresses are equal. -/
structure kt_tab_sync_t where
  ptr : Nat
  tab : kt_tab_obj_t
deriving DecidableEq, Repr

/-- The call `list_del_init(entry)` on a list of synchronisation records: the node of the
record at address `entry.ptr` is taken out, the other nodes keep their order. -/
def list_del_init (entry : kt_tab_sync_t) (l : List kt_tab_sync_t) : List kt_tab_sync_t :=
  l.eraseP (fun e => decide (e.ptr = entry.ptr))

/-- An object stored in a table: the slot address, the header and the body. -/
structure kt_obj (α : Type) where
  ptr : Nat
  tab : kt_tab_obj_t
  body : α
deriving DecidableEq, Repr

/-- The body of a `kt_tab_memblock_t` after its header. -/
structure memblock_body where
  sync_list : list_head kt_tab_sync_t
  lock_list : list_head Nat
deriving DecidableEq, Repr

/-- A freshly allocated slot is zeroed: both list heads are NULL/NULL. -/
instance : Inhabited memblock_body := ⟨⟨none, none⟩⟩

/-- The record `kt_tab_memblock_t`. -/
abbrev kt_tab_memblock_t := kt_obj memblock_body

/-- The record `kt_tab_test_t` of the test table: a header and nothing else. -/
abbrev kt_tab_test_t := kt_obj Unit

/-- The call `kt_spin_unlock(&obj->tab.lock)`. -/
def kt_spin_unlock {α : Type} (obj : kt_obj α) : kt_obj α :=
  { obj with tab := { obj.tab with lock := false } }

/-- The call `kt_spin_is_locked(&obj->tab.lock)`. -/
def kt_spin_is_locked {α : Type} (obj : kt_obj α) : Bool := obj.tab.lock

/-- The macro `BUG_ON(cond)`: the run stops when `cond` holds. -/
def BUG_ON (cond : Bool) : Except Fault Unit :=
  if cond then .error .BUG else .ok ()

/-! ## The slot allocator and the object table (spec 4.1, 4.2) -/

/-- Modelled from the spec: the slot allocator `kt_cache_t` (its code is not among
the sources). Spec 4.1: a pool of fixed-size slots; here the addresses of the
slots that are free. -/
structure kt_cache_t where
  free : List Nat
deriving DecidableEq, Repr

/-- Modelled from the spec: `kt_cache_alloc` (not among the sources). Spec 4.1:
"`allocate()` returns a zeroed, fixed-size slot ... or fails with `OutOfMemory`". -/
def kt_cache_alloc (cache : kt_cache_t) : Option (Nat × kt_cache_t) :=
  match cache.free with
  | [] => none
  | p :: rest => some (p, { free := rest })

/-- Modelled from the spec: `kt_cache_free` (not among the sources). Spec 4.1:
"`free(slot)` returns it to the pool". -/
def kt_cache_free (cache : kt_cache_t) (obj : Nat) : kt_cache_t :=
  { free := obj :: cache.free }

/-- Modelled from the spec: the table `kt_tab_t` (its code is not among the
sources): the objects reachable through the index, and the cache the objects
come from. -/
structure kt_tab_t (α : Type) where
  objs : List (kt_obj α)
  obj_cache : kt_cache_t
deriving DecidableEq, Repr

/-- The index probe: the first object stored under `key`. -/
def kt_tab_t.find {α : Type} (tab : kt_tab_t α) (key : uptr_t) : Option (kt_obj α) :=
  tab.objs.find? (fun o => decide (o.tab.key = key))

/-- A store through the pointer `obj.ptr`: the slot at that address now holds `obj`. -/
def kt_tab_t.write {α : Type} (tab : kt_tab_t α) (obj : kt_obj α) : kt_tab_t α :=
  { tab with objs := tab.objs.map (fun o => if o.ptr = obj.ptr then obj else o) }

/-- The object found under `key` is unlinked from the index. -/
def kt_tab_t.unlink {α : Type} (tab : kt_tab_t α) (key : uptr_t) : kt_tab_t α :=
  { tab with objs := tab.objs.eraseP (fun o => decide (o.tab.key = key)) }

/-- What `kt_tab_access` hands back: the object pointer (`none` is NULL) with the
object as it is in memory on return, the value stored to `*created`, and the table. -/
structure kt_tab_access_ret (α : Type) where
  obj : Option (kt_obj α)
  created : Bool
  tab : kt_tab_t α
deriving DecidableEq, Repr

/-- Modelled from the spec: `kt_tab_access(tab, key, created, destroy)` (tab.c is not
among the sources). The argument `created` says whether the pointer `created` is
non-NULL. Spec 4.2: with `destroy = false` and no entry for `key`, an entry is
created when creation was requested (a slot is allocated, inserted, locked,
`created = true`), otherwise NULL is returned; an entry that exists is locked,
waiting until it is available, and returned with `created = false`; with
`destroy = true` the call is a lookup that also removes the entry from the index
before returning it locked. A failed allocation returns NULL (the caller's
`BUG_ON(memblock == NULL)`, "Ran out of memory"). -/
def kt_tab_access {α : Type} [Inhabited α] (tab : kt_tab_t α) (key : uptr_t)
    (created : Bool) (destroy : Bool) : Except Fault (kt_tab_access_ret α) :=
  match tab.find key with
  | some o =>
    if o.tab.lock then .error .spin
    else
      let obj : kt_obj α := { o with tab := { o.tab with lock := true } }
      if destroy then .ok ⟨some obj, false, tab.unlink key⟩
      else .ok ⟨some obj, false, tab.write obj⟩
  | none =>
    if created && !destroy then
      match kt_cache_alloc tab.obj_cache with
      | none => .ok ⟨none, false, tab⟩
      | some (p, cache) =>
        let obj : kt_obj α := { ptr := p, tab := { key := key, lock := true }, body := default }
        .ok ⟨some obj, true, { objs := obj :: tab.objs, obj_cache := cache }⟩
    else .ok ⟨none, false, tab⟩

/-! ## The detector context: counters and the log of outgoing calls -/

/-- The counters of memblock.c. -/
inductive kt_stat_e where
  | kt_stat_memblock_objects
  | kt_stat_memblock_alloc
  | kt_stat_memblock_free
deriving DecidableEq, Repr

/-- The values of the counters. -/
structure kt_stat_t where
  memblock_objects : Int
  memblock_alloc : Int
  memblock_free : Int
deriving DecidableEq, Repr

/-- The counter `what` moves by `d`. -/
def kt_stat_add (what : kt_stat_e) (d : Int) (stat : kt_stat_t) : kt_stat_t :=
  match what with
  | .kt_stat_memblock_objects => { stat with memblock_objects := stat.memblock_objects + d }
  | .kt_stat_memblock_alloc => { stat with memblock_alloc := stat.memblock_alloc + d }
  | .kt_stat_memblock_free => { stat with memblock_free := stat.memblock_free + d }

/-- A call that leaves memblock.c. -/
inductive Call where
  | kt_access_range (thr pc : Nat) (addr : uptr_t) (size : Nat) (write : Bool)
  | kt_access_range_imitate (thr pc : Nat) (addr : uptr_t) (size : Nat) (write : Bool)
  | kt_sync_free (thr : Nat) (key : uptr_t)
  | kt_cache_free (obj : Nat)
deriving DecidableEq, Repr

/-- One logged call and the memory it was made in: the memory-block table, the
counters, and the block record the caller works on (when it holds one), all as
they are at the moment of the call. -/
structure Moment where
  call : Call
  memblock_tab : kt_tab_t memblock_body
  stat : kt_stat_t
  memblock : Option kt_tab_memblock_t
deriving DecidableEq, Repr

/-- The part of `kt_ctx` memblock.c works on, and the log of the calls made so far
(oldest first). -/
structure kt_ctx_t where
  memblock_tab : kt_tab_t memblock_body
  stat : kt_stat_t
  log : List Moment
deriving DecidableEq, Repr

/-- The macro `kt_stat_inc(what)`. -/
def kt_stat_inc (what : kt_stat_e) (ctx : kt_ctx_t) : kt_ctx_t :=
  { ctx with stat := kt_stat_add what 1 ctx.stat }

/-- The macro `kt_stat_dec(what)`. -/
def kt_stat_dec (what : kt_stat_e) (ctx : kt_ctx_t) : kt_ctx_t :=
  { ctx with stat := kt_stat_add what (-1) ctx.stat }

/-- The call `c` is made now, by a caller working on `memblock`. -/
def kt_ctx_t.called (ctx : kt_ctx_t) (c : Call) (memblock : Option kt_tab_memblock_t) :
    kt_ctx_t :=
  { ctx with log := ctx.log ++ [⟨c, ctx.memblock_tab, ctx.stat, memblock⟩] }

/-- The context `ktsan_init` leaves: an empty table over the slots `slots`, all
counters zero, nothing called yet. -/
def kt_ctx_init (slots : List Nat) : kt_ctx_t :=
  { memblock_tab := { objs := [], obj_cache := { free := slots } },
    stat := { memblock_objects := 0, memblock_alloc := 0, memblock_free := 0 },
    log := [] }

/-! ## mm/ktsan/memblock.c -/

/-- Modelled from the spec: `fls` (a kernel bit operation, not among the sources):
the position of the highest set bit, counted from 1, and 0 for 0. -/
def fls (x : Nat) : Nat := Nat.size x

/-- Modelled from the spec: `struct reciprocal_value` of linux/reciprocal_div.h (not
among the sources), the precomputed reciprocal behind the "index arithmetic" of
spec 4.2: a 32-bit multiplier and two shift counts. -/
structure reciprocal_value where
  m : Nat
  sh1 : Nat
  sh2 : Nat
deriving DecidableEq, Repr

/-- Modelled from the spec: `reciprocal_value(d)` of lib/reciprocal_div.c (not among
the sources), which the slab allocator stores in `cache->reciprocal_buffer_size`
for `d = cache->size`. With `l = fls(d - 1)`: `m = (u32)(((1ULL << 32) *
((1ULL << l) - d)) / d + 1)`, `sh1 = min(l, 1)`, `sh2 = max(l - 1, 0)`. -/
def reciprocal_value_of (d : Nat) : reciprocal_value :=
  let l := fls ((d + 2 ^ 32 - 1) % 2 ^ 32)
  let m := ((2 ^ 32) * ((2 ^ l + 2 ^ 64 - d) % 2 ^ 64)) % 2 ^ 64
  let m := m / d
  let m := (m + 1) % 2 ^ 64
  { m := m % 2 ^ 32, sh1 := min l 1, sh2 := max (l - 1) 0 }

/-- Modelled from the spec: `reciprocal_divide(a, R)` of linux/reciprocal_div.h (not
among the sources), the division of the "index arithmetic" of spec 4.2, all in
`u32`: `t = (u32)(((u64)a * R.m) >> 32); return (t + ((a - t) >> R.sh1)) >> R.sh2;`. -/
def reciprocal_divide (a : Nat) (R : reciprocal_value) : Nat :=
  let t := ((a * R.m) / 2 ^ 32) % 2 ^ 32
  ((t + ((a + 2 ^ 32 - t) % 2 ^ 32) / 2 ^ R.sh1) % 2 ^ 32) / 2 ^ R.sh2

/-- The fields of `struct kmem_cache` that `kt_memblock_addr` reads: `size`
(an `unsigned int`) and `reciprocal_buffer_size`. -/
structure kmem_cache where
  size : Nat
  reciprocal_buffer_size : reciprocal_value
deriving DecidableEq, Repr

/-- What `kt_memblock_addr` reads of the head page of an address: `PageSlab(page)`,
`page->s_mem`, `page->slab_cache` and `page_address(page)`. -/
structure page where
  slab : Bool
  s_mem : Nat
  slab_cache : kmem_cache
  address : Nat
deriving DecidableEq, Repr

/-- The function `kt_memblock_addr` of memblock.c, lines 11-35. The memory map is
the argument `virt_to_head_page`: `none` where `virt_addr_valid(addr)` is false,
otherwise the head page of `addr`. Addresses (`uptr_t`, pointers) are natural
numbers below `2 ^ 64`; `offset` and `idx` are `u32`, `cache->size * idx` is an
`unsigned int` product, the sum is a 64-bit pointer. -/
def kt_memblock_addr (virt_to_head_page : Nat → Option page) (addr : Nat) :
    Except Fault Nat :=
  match virt_to_head_page addr with
  | none => .ok 0
  | some page =>
    if page.slab then
      let cache := page.slab_cache
      if addr < page.s_mem then .error .BUG
      else
        let offset := (addr - page.s_mem) % 2 ^ 32
        let idx := reciprocal_divide offset cache.reciprocal_buffer_size
        let obj_addr := (page.s_mem + (cache.size * idx) % 2 ^ 32) % 2 ^ 64
        .ok obj_addr
    else .ok page.address

/-- The function `kt_memblock_ensure_created` of memblock.c, lines 37-54. The
block is returned locked, together with the context. -/
def kt_memblock_ensure_created (_thr : Nat) (addr : uptr_t) (ctx : kt_ctx_t) :
    Except Fault (kt_tab_memblock_t × kt_ctx_t) :=
  match kt_tab_access ctx.memblock_tab addr true false with
  | .error f => .error f
  | .ok r =>
    match r.obj with
    | none => .error .BUG
    | some memblock =>
      let ctx := { ctx with memblock_tab := r.tab }
      if r.created then
        let memblock : kt_tab_memblock_t :=
          { memblock with body := { sync_list := INIT_LIST_HEAD, lock_list := INIT_LIST_HEAD } }
        let ctx := { ctx with memblock_tab := ctx.memblock_tab.write memblock }
        let ctx := kt_stat_inc .kt_stat_memblock_objects ctx
        let ctx := kt_stat_inc .kt_stat_memblock_alloc ctx
        .ok (memblock, ctx)
      else .ok (memblock, ctx)

/-- The function `kt_memblock_add_sync` of memblock.c, lines 56-63. -/
def kt_memblock_add_sync (thr : Nat) (addr : uptr_t) (sync : kt_tab_sync_t)
    (ctx : kt_ctx_t) : Except Fault kt_ctx_t :=
  match kt_memblock_ensure_created thr addr ctx with
  | .error f => .error f
  | .ok (memblock, ctx) =>
    match list_add sync memblock.body.sync_list with
    | .error f => .error f
    | .ok l =>
      let memblock : kt_tab_memblock_t := { memblock with body := { memblock.body with sync_list := l } }
      let memblock := kt_spin_unlock memblock
      .ok { ctx with memblock_tab := ctx.memblock_tab.write memblock }

/-- The `list_for_each_safe` loop of `kt_memblock_remove_sync`: the nodes are
visited from `head->next` on; the first whose record is `sync` (the same address)
is taken out with `list_del_init` and the loop is left. The result is the list
afterwards and the flag `deleted`. -/
def kt_memblock_remove_sync_scan (sync : kt_tab_sync_t) (l : List kt_tab_sync_t) :
    List kt_tab_sync_t × Bool :=
  match l.find? (fun entry => decide (entry.ptr = sync.ptr)) with
  | some entry => (list_del_init entry l, true)
  | none => (l, false)

/-- The function `kt_memblock_remove_sync` of memblock.c, lines 65-84. -/
def kt_memblock_remove_sync (_thr : Nat) (addr : uptr_t) (sync : kt_tab_sync_t)
    (ctx : kt_ctx_t) : Except Fault kt_ctx_t :=
  match kt_tab_access ctx.memblock_tab addr false false with
  | .error f => .error f
  | .ok r =>
    match r.obj with
    | none => .error .BUG
    | some memblock =>
      let ctx := { ctx with memblock_tab := r.tab }
      match memblock.body.sync_list with
      | none => .error .oops
      | some l =>
        let (l, deleted) := kt_memblock_remove_sync_scan sync l
        let memblock : kt_tab_memblock_t :=
          { memblock with body := { memblock.body with sync_list := some l } }
        let ctx := { ctx with memblock_tab := ctx.memblock_tab.write memblock }
        if !deleted then .error .BUG
        else
          let memblock := kt_spin_unlock memblock
          .ok { ctx with memblock_tab := ctx.memblock_tab.write memblock }

/-- Modelled from the spec: the macro `round_up(x, y)` of linux/kernel.h (not among
the sources), the rounding of spec 4.3 ("Size is rounded up to the detector's
granularity"). For `y` a power of two the kernel computes
`((((x) - 1) | ((y) - 1)) + 1)` in the type of `x`, here `size_t`, 64 bits wide. -/
def round_up (x y : Nat) : Nat :=
  ((((x + 2 ^ 64 - 1) % 2 ^ 64) ||| ((y + 2 ^ 64 - 1) % 2 ^ 64)) + 1) % 2 ^ 64

/-- The function `kt_memblock_alloc` of memblock.c, lines 86-95. The constant
`KT_GRAIN` (mm/ktsan/ktsan.h, not among the sources) is the first argument. -/
def kt_memblock_alloc (KT_GRAIN : Nat) (thr pc : Nat) (addr : uptr_t) (size : Nat)
    (write_to_shadow : Bool) (ctx : kt_ctx_t) : kt_ctx_t :=
  let size := round_up size KT_GRAIN
  if write_to_shadow then ctx.called (.kt_access_range_imitate thr pc addr size false) none
  else ctx

/-- The `list_for_each_safe` loop of `kt_memblock_free`. The cursor walks `todo`,
the chain of nodes as saved in `entry`/`tmp`; each node visited is taken out of
the block's list with `list_del_init`, then `kt_sync_free(thr, sync->tab.key)` is
called. The block is no longer in the index, so it is carried along. -/
def kt_memblock_free_loop (thr : Nat) :
    List kt_tab_sync_t → kt_tab_memblock_t × List kt_tab_sync_t × kt_ctx_t →
    kt_tab_memblock_t × List kt_tab_sync_t × kt_ctx_t
  | [], st => st
  | sync :: todo, (memblock, l, ctx) =>
    let l := list_del_init sync l
    let memblock : kt_tab_memblock_t :=
      { memblock with body := { memblock.body with sync_list := some l } }
    let ctx := ctx.called (.kt_sync_free thr sync.tab.key) (some memblock)
    kt_memblock_free_loop thr todo (memblock, l, ctx)

/-- The function `kt_memblock_free` of memblock.c, lines 97-123. -/
def kt_memblock_free (thr pc : Nat) (addr : uptr_t) (size : Nat) (write_to_shadow : Bool)
    (ctx : kt_ctx_t) : Except Fault kt_ctx_t :=
  let ctx := if write_to_shadow then ctx.called (.kt_access_range thr pc addr size false) none
    else ctx
  match kt_tab_access ctx.memblock_tab addr false true with
  | .error f => .error f
  | .ok r =>
    match r.obj with
    | none => .ok { ctx with memblock_tab := r.tab }
    | some memblock =>
      let ctx := { ctx with memblock_tab := r.tab }
      match memblock.body.sync_list with
      | none => .error .oops
      | some l =>
        let (memblock, _, ctx) := kt_memblock_free_loop thr l (memblock, l, ctx)
        let memblock := kt_spin_unlock memblock
        let ctx := ctx.called (.kt_cache_free memblock.ptr) (some memblock)
        let ctx := { ctx with memblock_tab :=
          { ctx.memblock_tab with obj_cache := kt_cache_free ctx.memblock_tab.obj_cache memblock.ptr } }
        let ctx := kt_stat_dec .kt_stat_memblock_objects ctx
        let ctx := kt_stat_inc .kt_stat_memblock_free ctx
        .ok ctx

/-! ## arch/x86/include/asm/atomic.h and atomic64_64.h

Counters are bit patterns: a natural number below `2 ^ 32` (`atomic_t`) or `2 ^ 64`
(`atomic64_t`). Arguments of type `int` and `s64` are integers. Conversions to an
unsigned type reduce modulo `2 ^ w`; signed additions wrap (the kernel is built
with `-fno-strict-overflow`). -/

/-- The conversion of an integer to the unsigned type of `w` bits. -/
def to_unsigned (w : Nat) (x : Int) : Nat := (x % 2 ^ w).toNat

/-- The value of a `w`-bit pattern read as a signed (two's complement) integer. -/
def to_signed (w : Nat) (u : Nat) : Int :=
  if u % 2 ^ w < 2 ^ (w - 1) then ((u % 2 ^ w : Nat) : Int) else ((u % 2 ^ w : Nat) : Int) - 2 ^ w

/-- The type `atomic_t`: `struct { int counter; }`, the counter as its 32 bits. -/
structure atomic_t where
  counter : Nat
deriving DecidableEq, Repr

/-- The type `atomic64_t`: `struct { s64 counter; }`, the counter as its 64 bits. -/
structure atomic64_t where
  counter : Nat
deriving DecidableEq, Repr

/-- Modelled from the spec: `ktsan_atomic32_fetch_add` (declared in
include/linux/ktsan.h, line 111; its body is not among the sources): it returns
the old counter and stores old + value modulo `2 ^ 32`. -/
def ktsan_atomic32_fetch_add (v : atomic_t) (value : Nat) : Nat × atomic_t :=
  (v.counter, ⟨(v.counter + value) % 2 ^ 32⟩)

/-- Modelled from the spec: `ktsan_atomic64_fetch_add` (declared in
include/linux/ktsan.h, line 112; its body is not among the sources): it returns
the old counter and stores old + value modulo `2 ^ 64`. -/
def ktsan_atomic64_fetch_add (v : atomic64_t) (value : Nat) : Nat × atomic64_t :=
  (v.counter, ⟨(v.counter + value) % 2 ^ 64⟩)

/-- The function `arch_atomic_sub_and_test` of atomic.h, lines 100-108, with
`CONFIG_KTSAN`: `(ktsan_atomic32_fetch_add(v, -i, ...) - i) == 0`, the subtraction
in `u32`. The result is the returned flag and the counter afterwards. -/
def arch_atomic_sub_and_test (i : Int) (v : atomic_t) : Bool × atomic_t :=
  let r := ktsan_atomic32_fetch_add v (to_unsigned 32 (-i))
  (decide ((r.1 + 2 ^ 32 - to_unsigned 32 i) % 2 ^ 32 = 0), r.2)

/-- The function `arch_atomic_dec_and_test` of atomic.h, lines 153-161, with
`CONFIG_KTSAN`: `(ktsan_atomic32_fetch_add(v, -1, ...) - 1) == 0`. -/
def arch_atomic_dec_and_test (v : atomic_t) : Bool × atomic_t :=
  let r := ktsan_atomic32_fetch_add v (to_unsigned 32 (-1))
  (decide ((r.1 + 2 ^ 32 - 1) % 2 ^ 32 = 0), r.2)

/-- The function `arch_atomic_inc_and_test` of atomic.h, lines 172-180, with
`CONFIG_KTSAN`: `(ktsan_atomic32_fetch_add(v, 1, ...) + 1) == 0`. -/
def arch_atomic_inc_and_test (v : atomic_t) : Bool × atomic_t :=
  let r := ktsan_atomic32_fetch_add v (to_unsigned 32 1)
  (decide ((r.1 + 1) % 2 ^ 32 = 0), r.2)

/-- The function `arch_atomic_add_negative` of atomic.h, lines 192-200, with
`CONFIG_KTSAN`: `((int)ktsan_atomic32_fetch_add(v, i, ...) + i) < 0`, the addition
in `int`. -/
def arch_atomic_add_negative (i : Int) (v : atomic_t) : Bool × atomic_t :=
  let r := ktsan_atomic32_fetch_add v (to_unsigned 32 i)
  (decide (to_signed 32 (to_unsigned 32 (to_signed 32 r.1 + i)) < 0), r.2)

/-- The function `arch_atomic64_sub_and_test` of atomic64_64.h, lines 91-99, with
`CONFIG_KTSAN`: `(ktsan_atomic64_fetch_add(v, -i, ...) - i) == 0`, in `u64`. -/
def arch_atomic64_sub_and_test (i : Int) (v : atomic64_t) : Bool × atomic64_t :=
  let r := ktsan_atomic64_fetch_add v (to_unsigned 64 (-i))
  (decide ((r.1 + 2 ^ 64 - to_unsigned 64 i) % 2 ^ 64 = 0), r.2)

/-- The function `arch_atomic64_dec_and_test` of atomic64_64.h, lines 146-154, with
`CONFIG_KTSAN`: `(ktsan_atomic64_fetch_add(v, -1, ...) - 1) == 0`. -/
def arch_atomic64_dec_and_test (v : atomic64_t) : Bool × atomic64_t :=
  let r := ktsan_atomic64_fetch_add v (to_unsigned 64 (-1))
  (decide ((r.1 + 2 ^ 64 - 1) % 2 ^ 64 = 0), r.2)

/-- The function `arch_atomic64_inc_and_test` of atomic64_64.h, lines 165-173, with
`CONFIG_KTSAN`: `(ktsan_atomic64_fetch_add(v, 1, ...) + 1) == 0`. -/
def arch_atomic64_inc_and_test (v : atomic64_t) : Bool × atomic64_t :=
  let r := ktsan_atomic64_fetch_add v (to_unsigned 64 1)
  (decide ((r.1 + 1) % 2 ^ 64 = 0), r.2)

/-- The function `arch_atomic64_add_negative` of atomic64_64.h, lines 185-193, with
`CONFIG_KTSAN`: `((long)ktsan_atomic64_fetch_add(v, i, ...) + i) < 0`, the addition
in a signed 64-bit type. -/
def arch_atomic64_add_negative (i : Int) (v : atomic64_t) : Bool × atomic64_t :=
  let r := ktsan_atomic64_fetch_add v (to_unsigned 64 i)
  (decide (to_signed 64 (to_unsigned 64 (to_signed 64 r.1 + i)) < 0), r.2)

/-- The instruction path (`#ifndef CONFIG_KTSAN`) of the `*_sub_and_test` and
`*_dec_and_test` functions on `w` bits: `lock sub i, counter`, the flag `e` (the
value stored is zero). As the comments of the functions say: "Atomically subtracts
@i from @v and returns true if the result is zero". The result is the flag and the
value stored. -/
def lock_sub_e (w : Nat) (i : Int) (counter : Nat) : Bool × Nat :=
  let stored := (counter + 2 ^ w - to_unsigned w i) % 2 ^ w
  (decide (stored = 0), stored)

/-- The instruction path of the `*_inc_and_test` functions on `w` bits:
`lock inc counter`, the flag `e`. -/
def lock_inc_e (w : Nat) (counter : Nat) : Bool × Nat :=
  let stored := (counter + 1) % 2 ^ w
  (decide (stored = 0), stored)

/-- The instruction path of the `*_add_negative` functions on `w` bits:
`lock add i, counter`, the flag `s` (the top bit of the value stored is set). -/
def lock_add_s (w : Nat) (i : Int) (counter : Nat) : Bool × Nat :=
  let stored := (counter + to_unsigned w i) % 2 ^ w
  (decide (2 ^ (w - 1) ≤ stored), stored)

/-! ## mm/ktsan/tests_noinst.c -/

/-- A dereference `obj->...` of a pointer returned by `kt_tab_access`. -/
def deref {α : Type} (obj : Option (kt_obj α)) : Except Fault (kt_obj α) :=
  match obj with
  | none => .error .oops
  | some o => .ok o

/-- The address held in a pointer returned by `kt_tab_access` (`none` is NULL). -/
def ptr_of {α : Type} (obj : Option (kt_obj α)) : Option Nat := obj.map (fun o => o.ptr)

/-- The function `kt_test_hash_table` of tests_noinst.c, lines 11-107, run on the test
table; the result is the table at the end of the test. -/
def kt_test_hash_table (test_tab : kt_tab_t Unit) : Except Fault (kt_tab_t Unit) := do
  let r ← kt_tab_access test_tab 10 false false
  BUG_ON (ptr_of r.obj != none)
  -- Creating.
  let r ← kt_tab_access r.tab 7 true false
  let obj := ptr_of r.obj
  BUG_ON (obj == none)
  BUG_ON (r.created != true)
  let o ← deref r.obj
  BUG_ON (!kt_spin_is_locked o)
  let tab := r.tab.write (kt_spin_unlock o)
  let r ← kt_tab_access tab 7 true false
  let obj1 := ptr_of r.obj
  BUG_ON (obj1 != obj)
  BUG_ON (r.created != false)
  let o ← deref r.obj
  BUG_ON (!kt_spin_is_locked o)
  let tab := r.tab.write (kt_spin_unlock o)
  let r ← kt_tab_access tab (7 + 13) true false
  let obj2 := ptr_of r.obj
  BUG_ON (obj2 == none)
  BUG_ON (obj2 == obj1)
  BUG_ON (r.created != true)
  let o ← deref r.obj
  BUG_ON (!kt_spin_is_locked o)
  let tab := r.tab.write (kt_spin_unlock o)
  let r ← kt_tab_access tab (7 + 13) false false
  let obj3 := ptr_of r.obj
  BUG_ON (obj3 != obj2)
  let o ← deref r.obj
  BUG_ON (!kt_spin_is_locked o)
  let tab := r.tab.write (kt_spin_unlock o)
  let r ← kt_tab_access tab 3 true false
  let obj3 := ptr_of r.obj
  BUG_ON (obj3 == none)
  BUG_ON (obj3 == obj1 || obj3 == obj2)
  BUG_ON (r.created != true)
  let o ← deref r.obj
  BUG_ON (!kt_spin_is_locked o)
  let tab := r.tab.write (kt_spin_unlock o)
  -- Accessing.
  let r ← kt_tab_access tab 7 false false
  let obj := ptr_of r.obj
  BUG_ON (obj == none)
  BUG_ON (obj != obj1)
  let o ← deref r.obj
  BUG_ON (!kt_spin_is_locked o)
  let tab := r.tab.write (kt_spin_unlock o)
  let r ← kt_tab_access tab (7 + 13) true false
  let obj := ptr_of r.obj
  BUG_ON (obj == none)
  BUG_ON (obj != obj2)
  BUG_ON (r.created != false)
  let o ← deref r.obj
  BUG_ON (!kt_spin_is_locked o)
  let tab := r.tab.write (kt_spin_unlock o)
  let r ← kt_tab_access tab 3 false false
  let obj := ptr_of r.obj
  BUG_ON (obj == none)
  BUG_ON (obj != obj3)
  let o ← deref r.obj
  BUG_ON (!kt_spin_is_locked o)
  let tab := r.tab.write (kt_spin_unlock o)
  let r ← kt_tab_access tab 4 false false
  BUG_ON (ptr_of r.obj != none)
  -- Destroying.
  let r ← kt_tab_access r.tab 3 false true
  let obj := ptr_of r.obj
  BUG_ON (obj == none)
  BUG_ON (obj != obj3)
  let o ← deref r.obj
  BUG_ON (!kt_spin_is_locked o)
  let o := kt_spin_unlock o
  let tab := { r.tab with obj_cache := kt_cache_free r.tab.obj_cache o.ptr }
  let r ← kt_tab_access tab (7 + 13) false true
  let obj := ptr_of r.obj
  BUG_ON (obj == none)
  BUG_ON (obj != obj2)
  let o ← deref r.obj
  BUG_ON (!kt_spin_is_locked o)
  let o := kt_spin_unlock o
  let tab := { r.tab with obj_cache := kt_cache_free r.tab.obj_cache o.ptr }
  let r ← kt_tab_access tab 7 false true
  let obj := ptr_of r.obj
  BUG_ON (obj == none)
  BUG_ON (obj != obj1)
  let o ← deref r.obj
  BUG_ON (!kt_spin_is_locked o)
  let o := kt_spin_unlock o
  let tab := { r.tab with obj_cache := kt_cache_free r.tab.obj_cache o.ptr }
  pure tab

/-! ## Vocabulary of the statements -/

/-- Whether a logged call is a `kt_sync_free`. -/
def Call.is_sync_free : Call → Bool
  | .kt_sync_free _ _ => true
  | _ => false

/-- Whether a logged call is a `kt_cache_free`. -/
def Call.is_cache_free : Call → Bool
  | .kt_cache_free _ => true
  | _ => false

/-- The `kt_sync_free` calls of a log, in order. -/
def sync_free_moments (log : List Moment) : List Moment :=
  log.filter (fun m => m.call.is_sync_free)

/-- A table is well formed when no two indexed objects share a slot or a key, and
no free slot is indexed or listed twice. -/
def kt_tab_t.wf {α : Type} (tab : kt_tab_t α) : Prop :=
  (tab.objs.map (fun o => o.ptr)).Nodup ∧ (tab.objs.map (fun o => o.tab.key)).Nodup ∧
  tab.obj_cache.free.Nodup ∧ ∀ p ∈ tab.obj_cache.free, p ∉ tab.objs.map (fun o => o.ptr)

/-- Well-formedness can be checked by running through the index and the cache. -/
instance kt_tab_t.wf_decidable {α : Type} (tab : kt_tab_t α) : Decidable tab.wf := by
  unfold kt_tab_t.wf
  infer_instance

/-- Between calls nobody holds the block under `addr` and its list is initialised. -/
def quiet (ctx : kt_ctx_t) (addr : uptr_t) : Prop :=
  ∀ b, ctx.memblock_tab.find addr = some b → b.tab.lock = false ∧ ∃ l, b.body.sync_list = some l

/-- The records linked in the `sync_list` of the block under `addr` (none when
there is no such block). -/
def linked (ctx : kt_ctx_t) (addr : uptr_t) : List kt_tab_sync_t :=
  match ctx.memblock_tab.find addr with
  | some b => b.body.sync_list.getD []
  | none => []

/-- The records linked in the `sync_list` of any indexed block, block after block. -/
def all_linked (ctx : kt_ctx_t) : List kt_tab_sync_t :=
  (ctx.memblock_tab.objs.map (fun o => o.body.sync_list.getD [])).flatten

/-- The record `s` is not linked: no node of any block's `sync_list` is at its
address. This is the state in which `list_add` may be called on its node. -/
def not_linked (ctx : kt_ctx_t) (s : kt_tab_sync_t) : Prop :=
  ∀ e ∈ all_linked ctx, e.ptr ≠ s.ptr

/-- Whether a record is linked can be checked by running through the lists. -/
instance not_linked_decidable (ctx : kt_ctx_t) (s : kt_tab_sync_t) :
    Decidable (not_linked ctx s) := by
  unfold not_linked
  infer_instance

/-- Every record is linked at most once: no two nodes of the blocks' lists are at
the same address. A record has a single `list` node, so this holds of every
memory in which the lists are intact. -/
def linked_once (ctx : kt_ctx_t) : Prop :=
  ((all_linked ctx).map (fun e => e.ptr)).Nodup

/-- Whether every record is linked at most once can be checked by running through
the lists. -/
instance linked_once_decidable (ctx : kt_ctx_t) : Decidable (linked_once ctx) := by
  unfold linked_once
  infer_instance

/-- A run of `kt_memblock_add_sync(thr, addr, s)` calls, one for each record of
`syncs`, in order. -/
def kt_memblock_add_syncs (thr : Nat) (addr : uptr_t) :
    List kt_tab_sync_t → kt_ctx_t → Except Fault kt_ctx_t
  | [], ctx => .ok ctx
  | s :: rest, ctx =>
    match kt_memblock_add_sync thr addr s ctx with
    | .error f => .error f
    | .ok ctx => kt_memblock_add_syncs thr addr rest ctx

/-- The moments the drain loop logs for a block at `ptr` with header `hdr`. -/
def drain_moments (thr : Nat) (tab : kt_tab_t memblock_body) (stat : kt_stat_t)
    (ptr : Nat) (hdr : kt_tab_obj_t) (lock_list : list_head Nat) :
    List kt_tab_sync_t → List Moment
  | [] => []
  | sync :: rest =>
    ⟨.kt_sync_free thr sync.tab.key, tab, stat, some ⟨ptr, hdr, ⟨some rest, lock_list⟩⟩⟩ ::
      drain_moments thr tab stat ptr hdr lock_list rest

/-- The shadow call `kt_memblock_free` logs before it touches the table. -/
def free_shadow_moments (thr pc : Nat) (addr : uptr_t) (size : Nat) (write_to_shadow : Bool)
    (ctx : kt_ctx_t) : List Moment :=
  if write_to_shadow then
    [⟨.kt_access_range thr pc addr size false, ctx.memblock_tab, ctx.stat, none⟩]
  else []

/-- One call of the four entry points of memblock.c, with its arguments. -/
inductive memblock_call where
  | alloc (thr pc : Nat) (addr : uptr_t) (size : Nat) (write_to_shadow : Bool)
  | add_sync (thr : Nat) (addr : uptr_t) (sync : kt_tab_sync_t)
  | remove_sync (thr : Nat) (addr : uptr_t) (sync : kt_tab_sync_t)
  | free (thr pc : Nat) (addr : uptr_t) (size : Nat) (write_to_shadow : Bool)
deriving DecidableEq, Repr

/-- The call is made in the context `ctx`. -/
def memblock_call.run (KT_GRAIN : Nat) (c : memblock_call) (ctx : kt_ctx_t) :
    Except Fault kt_ctx_t :=
  match c with
  | .alloc thr pc addr size w => .ok (kt_memblock_alloc KT_GRAIN thr pc addr size w ctx)
  | .add_sync thr addr sync => kt_memblock_add_sync thr addr sync ctx
  | .remove_sync thr addr sync => kt_memblock_remove_sync thr addr sync ctx
  | .free thr pc addr size w => kt_memblock_free thr pc addr size w ctx

/-- A sequence of calls, made one after the other; the run stops at the first call
that fails. -/
def run_calls (KT_GRAIN : Nat) : List memblock_call → kt_ctx_t → Except Fault kt_ctx_t
  | [], ctx => .ok ctx
  | c :: rest, ctx =>
    match c.run KT_GRAIN ctx with
    | .error f => .error f
    | .ok ctx => run_calls KT_GRAIN rest ctx

/-- The counters agree with each other and with the table: the live-object counter is
the difference of the creation and free counters and the number of indexed entries. -/
def counters_agree (ctx : kt_ctx_t) : Prop :=
  ctx.stat.memblock_objects = ctx.stat.memblock_alloc - ctx.stat.memblock_free ∧
  ctx.stat.memblock_objects = (ctx.memblock_tab.objs.length : Int)

/-! ## Concrete contexts -/

/-- A synchronisation record at address 501, keyed 4112. -/
def ex_sync1 : kt_tab_sync_t := ⟨501, ⟨4112, false⟩⟩

/-- A synchronisation record at address 502, keyed 4128. -/
def ex_sync2 : kt_tab_sync_t := ⟨502, ⟨4128, false⟩⟩

/-- A synchronisation record at address 503, keyed 4144. -/
def ex_sync3 : kt_tab_sync_t := ⟨503, ⟨4144, false⟩⟩

/-- A block in slot 1 under key 4096 with two records linked. -/
def ex_block : kt_tab_memblock_t := ⟨1, ⟨4096, false⟩, ⟨some [ex_sync2, ex_sync1], some []⟩⟩

/-- A second block in slot 2 under key 8192 with nothing linked. -/
def ex_block2 : kt_tab_memblock_t := ⟨2, ⟨8192, false⟩, ⟨some [], some []⟩⟩

/-- A context with two tracked blocks and two free slots. -/
def ex_ctx : kt_ctx_t :=
  { memblock_tab := { objs := [ex_block2, ex_block], obj_cache := { free := [3, 4] } },
    stat := { memblock_objects := 2, memblock_alloc := 2, memblock_free := 0 },
    log := [] }

/-- The context `ex_ctx` after `kt_memblock_add_sync(7, 4096, ex_sync3)`. -/
def ex_ctx1 : kt_ctx_t :=
  { memblock_tab :=
      { objs := [ex_block2, ⟨1, ⟨4096, false⟩, ⟨some [ex_sync3, ex_sync2, ex_sync1], some []⟩⟩],
        obj_cache := { free := [3, 4] } },
    stat := { memblock_objects := 2, memblock_alloc := 2, memblock_free := 0 },
    log := [] }

/-- The test table after key 7 was created in slot 1 and unlocked. -/
def ex_test_tab : kt_tab_t Unit :=
  { objs := [⟨1, ⟨7, false⟩, ()⟩], obj_cache := { free := [2, 3] } }

/-- The test table with the keys 3, 20 and 7 in the slots 3, 2 and 1. -/
def ex_test_tab3 : kt_tab_t Unit :=
  { objs := [⟨3, ⟨3, false⟩, ()⟩, ⟨2, ⟨20, false⟩, ()⟩, ⟨1, ⟨7, false⟩, ()⟩],
    obj_cache := { free := [4] } }

/-- A slab cache of 192-byte objects. -/
def ex_cache : kmem_cache := { size := 192, reciprocal_buffer_size := reciprocal_value_of 192 }

/-- A slab page at 4096 whose objects start at 4160. -/
def ex_page : page := { slab := true, s_mem := 4160, slab_cache := ex_cache, address := 4096 }

/-- A memory map in which the addresses from 4096 up to 8191 lie on `ex_page`. -/
def ex_mm (addr : Nat) : Option page :=
  if 4096 ≤ addr ∧ addr < 8192 then some ex_page else none

/-- The initial context over the slots 1, 2, 3 after `kt_memblock_add_sync(7, 4352, ex_sync1)`. -/
def ex_ctx_k1 : kt_ctx_t :=
  { memblock_tab :=
      { objs := [⟨1, ⟨4352, false⟩, ⟨some [ex_sync1], some []⟩⟩],
        obj_cache := { free := [2, 3] } },
    stat := { memblock_objects := 1, memblock_alloc := 1, memblock_free := 0 },
    log := [] }

/-- The context `ex_ctx_k1` after `kt_memblock_add_sync(7, 4352, ex_sync2)`. -/
def ex_ctx_k2 : kt_ctx_t :=
  { memblock_tab :=
      { objs := [⟨1, ⟨4352, false⟩, ⟨some [ex_sync2, ex_sync1], some []⟩⟩],
        obj_cache := { free := [2, 3] } },
    stat := { memblock_objects := 1, memblock_alloc := 1, memblock_free := 0 },
    log := [] }

/-- The initial context over the slots 1, 2, 3 after `kt_memblock_add_sync(7, 4360, ex_sync1)`
and `kt_memblock_add_sync(7, 4368, ex_sync2)`: two block records. -/
def ex_ctx_ab : kt_ctx_t :=
  { memblock_tab :=
      { objs := [⟨2, ⟨4368, false⟩, ⟨some [ex_sync2], some []⟩⟩,
          ⟨1, ⟨4360, false⟩, ⟨some [ex_sync1], some []⟩⟩],
        obj_cache := { free := [3] } },
    stat := { memblock_objects := 2, memblock_alloc := 2, memblock_free := 0 },
    log := [] }

/-- A sequence of calls on the addresses 4096 and 8192. -/
def ex_calls : List memblock_call :=
  [.alloc 7 0 4096 60 true, .add_sync 7 4096 ex_sync1, .add_sync 7 8192 ex_sync3,
    .add_sync 7 4096 ex_sync2, .remove_sync 7 4096 ex_sync1, .free 7 0 4096 60 true,
    .free 7 0 12288 8 false]

/-- The context the calls `ex_calls` leave, started from the slots 1, 2, 3. -/
def ex_ctx_calls : kt_ctx_t :=
  match run_calls 8 ex_calls (kt_ctx_init [1, 2, 3]) with
  | .ok ctx => ctx
  | .error _ => kt_ctx_init []

/-! # Theorems -/

theorem list_del_init_head (sync : kt_tab_sync_t) (rest : List kt_tab_sync_t) :
    list_del_init sync (sync :: rest) = rest := by
  simp [list_del_init, List.eraseP_cons]

theorem kt_memblock_free_loop_eq (thr : Nat) (todo : List kt_tab_sync_t) :
    ∀ (ptr : Nat) (hdr : kt_tab_obj_t) (sl : list_head kt_tab_sync_t) (ll : list_head Nat)
      (ctx : kt_ctx_t), sl = some todo →
      kt_memblock_free_loop thr todo (⟨ptr, hdr, ⟨sl, ll⟩⟩, todo, ctx) =
        (⟨ptr, hdr, ⟨some [], ll⟩⟩, [],
          { ctx with log := ctx.log ++
              drain_moments thr ctx.memblock_tab ctx.stat ptr hdr ll todo }) := by
  induction todo with
  | nil =>
    intro ptr hdr sl ll ctx h
    subst h
    simp [kt_memblock_free_loop, drain_moments]
  | cons sync rest ih =>
    intro ptr hdr sl ll ctx _
    simp only [kt_memblock_free_loop, list_del_init_head]
    rw [ih ptr hdr (some rest) ll _ rfl]
    simp [kt_ctx_t.called, drain_moments, List.append_assoc]

theorem kt_tab_access_destroy_found {α : Type} [Inhabited α] (tab : kt_tab_t α) (key : uptr_t)
    (created : Bool) (o : kt_obj α) (hfind : tab.find key = some o)
    (hlock : o.tab.lock = false) :
    kt_tab_access tab key created true =
      .ok ⟨some ⟨o.ptr, ⟨o.tab.key, true⟩, o.body⟩, false, tab.unlink key⟩ := by
  simp [kt_tab_access, hfind, hlock]

theorem kt_memblock_free_tracked (thr pc : Nat) (addr : uptr_t) (size : Nat) (w : Bool)
    (ctx : kt_ctx_t) (b : kt_tab_memblock_t) (L : List kt_tab_sync_t)
    (hfind : ctx.memblock_tab.find addr = some b) (hlock : b.tab.lock = false)
    (hlist : b.body.sync_list = some L) :
    kt_memblock_free thr pc addr size w ctx = .ok
      { memblock_tab :=
          { objs := (ctx.memblock_tab.unlink addr).objs,
            obj_cache := kt_cache_free ctx.memblock_tab.obj_cache b.ptr },
        stat := kt_stat_add .kt_stat_memblock_free 1
          (kt_stat_add .kt_stat_memblock_objects (-1) ctx.stat),
        log := ctx.log ++ (free_shadow_moments thr pc addr size w ctx ++
          (drain_moments thr (ctx.memblock_tab.unlink addr) ctx.stat b.ptr ⟨b.tab.key, true⟩
            b.body.lock_list L ++
          [⟨.kt_cache_free b.ptr, ctx.memblock_tab.unlink addr, ctx.stat,
            some ⟨b.ptr, ⟨b.tab.key, false⟩, ⟨some [], b.body.lock_list⟩⟩⟩])) } := by
  have hacc : ∀ c : kt_ctx_t, c.memblock_tab = ctx.memblock_tab →
      kt_tab_access c.memblock_tab addr false true =
        .ok ⟨some ⟨b.ptr, ⟨b.tab.key, true⟩, b.body⟩, false, ctx.memblock_tab.unlink addr⟩ := by
    intro c hc
    rw [hc]
    exact kt_tab_access_destroy_found _ _ _ _ hfind hlock
  obtain ⟨bp, bh, ⟨bs, bl⟩⟩ := b
  simp only at hlist hlock
  subst hlist
  cases w
  · simp only [kt_memblock_free, Bool.false_eq_true, if_false]
    rw [hacc ctx rfl]
    simp only [kt_memblock_free_loop_eq thr L bp ⟨bh.key, true⟩ (some L) bl _ rfl]
    simp [kt_ctx_t.called, kt_stat_inc, kt_stat_dec, kt_spin_unlock, kt_tab_t.unlink,
      free_shadow_moments, List.append_assoc]
  · simp only [kt_memblock_free, if_true]
    rw [hacc (ctx.called (Call.kt_access_range thr pc addr size false) none) rfl]
    simp only [kt_memblock_free_loop_eq thr L bp ⟨bh.key, true⟩ (some L) bl _ rfl]
    simp [kt_ctx_t.called, kt_stat_inc, kt_stat_dec, kt_spin_unlock, kt_tab_t.unlink,
      free_shadow_moments, List.append_assoc]

/-! ## Facts about the index -/

theorem find_mem {α : Type} (tab : kt_tab_t α) (key : uptr_t) (o : kt_obj α)
    (h : tab.find key = some o) : o ∈ tab.objs ∧ o.tab.key = key := by
  unfold kt_tab_t.find at h
  exact ⟨List.mem_of_find?_eq_some h, by simpa using List.find?_some h⟩

theorem find_none_iff {α : Type} (tab : kt_tab_t α) (key : uptr_t) :
    tab.find key = none ↔ ∀ o ∈ tab.objs, o.tab.key ≠ key := by
  unfold kt_tab_t.find
  simp [List.find?_eq_none]

theorem unlink_find_same {α : Type} (tab : kt_tab_t α) (key : uptr_t)
    (hk : (tab.objs.map (fun o => o.tab.key)).Nodup) : (tab.unlink key).find key = none := by
  obtain ⟨objs, cache⟩ := tab
  simp only [kt_tab_t.unlink, kt_tab_t.find] at *
  induction objs with
  | nil => simp
  | cons x xs ih =>
    simp only [List.map_cons, List.nodup_cons] at hk
    by_cases hx : x.tab.key = key
    · simp only [List.eraseP_cons, hx, decide_True, cond_true]
      rw [List.find?_eq_none]
      intro o ho
      have : o.tab.key ≠ x.tab.key := by
        intro heq
        exact hk.1 (List.mem_map.mpr ⟨o, ho, heq⟩)
      simpa [hx] using this
    · simp [List.eraseP_cons, hx, List.find?_cons, ih hk.2]

theorem unlink_find_other {α : Type} (tab : kt_tab_t α) (key k : uptr_t) (hne : k ≠ key) :
    (tab.unlink key).find k = tab.find k := by
  obtain ⟨objs, cache⟩ := tab
  simp only [kt_tab_t.unlink, kt_tab_t.find]
  induction objs with
  | nil => simp
  | cons x xs ih =>
    by_cases hx : x.tab.key = key
    · have hxk : ¬ x.tab.key = k := fun h => hne (h.symm.trans hx)
      simp only [List.eraseP_cons, hx, decide_True, cond_true, List.find?_cons]
      rw [hx] at hxk
      simp [hxk]
    · by_cases hxk : x.tab.key = k
      · subst hxk
        simp only [List.eraseP_cons, hx, decide_False, cond_false, List.find?_cons,
          decide_True]
      · simp only [List.eraseP_cons, hx, decide_False, cond_false, List.find?_cons, hxk, ih]

theorem unlink_ptr_gone {α : Type} (tab : kt_tab_t α) (key : uptr_t) (b : kt_obj α)
    (hp : (tab.objs.map (fun o => o.ptr)).Nodup) (hfind : tab.find key = some b) :
    ∀ o ∈ (tab.unlink key).objs, o.ptr ≠ b.ptr := by
  obtain ⟨objs, cache⟩ := tab
  simp only [kt_tab_t.unlink, kt_tab_t.find] at *
  induction objs with
  | nil => simp at hfind
  | cons x xs ih =>
    simp only [List.map_cons, List.nodup_cons] at hp
    by_cases hx : x.tab.key = key
    · simp only [List.find?_cons, hx, decide_True, Option.some.injEq] at hfind
      subst hfind
      simp only [List.eraseP_cons, hx, decide_True, cond_true]
      intro o ho heq
      exact hp.1 (List.mem_map.mpr ⟨o, ho, heq⟩)
    · simp only [List.find?_cons, hx, decide_False] at hfind
      simp only [List.eraseP_cons, hx, decide_False, cond_false, List.mem_cons]
      intro o ho
      rcases ho with rfl | ho
      · intro heq
        have hb := List.mem_of_find?_eq_some hfind
        exact hp.1 (List.mem_map.mpr ⟨b, hb, heq.symm⟩)
      · exact ih hp.2 hfind o ho

/-! ## Facts about the log of `kt_memblock_free` -/

theorem sync_free_moments_append (a b : List Moment) :
    sync_free_moments (a ++ b) = sync_free_moments a ++ sync_free_moments b := by
  simp [sync_free_moments]

theorem sync_free_moments_shadow (thr pc : Nat) (addr : uptr_t) (size : Nat) (w : Bool)
    (ctx : kt_ctx_t) : sync_free_moments (free_shadow_moments thr pc addr size w ctx) = [] := by
  cases w <;> simp [sync_free_moments, free_shadow_moments, Call.is_sync_free]

theorem sync_free_moments_drain (thr : Nat) (tab : kt_tab_t memblock_body) (stat : kt_stat_t)
    (ptr : Nat) (hdr : kt_tab_obj_t) (ll : list_head Nat) (L : List kt_tab_sync_t) :
    sync_free_moments (drain_moments thr tab stat ptr hdr ll L) =
      drain_moments thr tab stat ptr hdr ll L := by
  induction L with
  | nil => simp [sync_free_moments, drain_moments]
  | cons s rest ih =>
    unfold sync_free_moments at ih ⊢
    rw [drain_moments, List.filter_cons_of_pos (by rfl), ih]

theorem drain_moments_length (thr : Nat) (tab : kt_tab_t memblock_body) (stat : kt_stat_t)
    (ptr : Nat) (hdr : kt_tab_obj_t) (ll : list_head Nat) (L : List kt_tab_sync_t) :
    (drain_moments thr tab stat ptr hdr ll L).length = L.length := by
  induction L with
  | nil => rfl
  | cons s rest ih => simp [drain_moments, ih]

theorem drain_moments_no_cache_free (thr : Nat) (tab : kt_tab_t memblock_body)
    (stat : kt_stat_t) (ptr : Nat) (hdr : kt_tab_obj_t) (ll : list_head Nat)
    (L : List kt_tab_sync_t) :
    ∀ x ∈ drain_moments thr tab stat ptr hdr ll L,
      x.call.is_cache_free = false ∧ x.stat = stat ∧ x.memblock_tab = tab := by
  induction L with
  | nil => simp [drain_moments]
  | cons s rest ih =>
    intro x hx
    simp only [drain_moments, List.mem_cons] at hx
    rcases hx with rfl | hx
    · simp [Call.is_cache_free]
    · exact ih x hx

theorem drain_moments_forall₂ (thr : Nat) (tab : kt_tab_t memblock_body) (stat : kt_stat_t)
    (ptr : Nat) (hdr : kt_tab_obj_t) (ll : list_head Nat) (L : List kt_tab_sync_t)
    (hd : (L.map (fun s => s.ptr)).Nodup) :
    List.Forall₂
      (fun (s : kt_tab_sync_t) (m : Moment) => m.call = Call.kt_sync_free thr s.tab.key ∧
        ∃ blk l, m.memblock = some blk ∧ blk.ptr = ptr ∧ blk.body.sync_list = some l ∧
          ∀ e ∈ l, e.ptr ≠ s.ptr)
      L (drain_moments thr tab stat ptr hdr ll L) := by
  induction L with
  | nil => simp [drain_moments]
  | cons s rest ih =>
    simp only [List.map_cons, List.nodup_cons] at hd
    simp only [drain_moments]
    refine List.Forall₂.cons ⟨rfl, _, rest, rfl, rfl, rfl, ?_⟩ (ih hd.2)
    intro e he heq
    exact hd.1 (List.mem_map.mpr ⟨e, he, heq⟩)

/-! ## C1 -/

/-- C1: on a block tracked under `addr` whose `sync_list` holds the pairwise
distinct records `L`, `kt_memblock_free` returns, and the `kt_sync_free` calls it
makes correspond one to one, in list order, to the records of `L`: the call for
`s` carries the key `s.tab.key` (so there are exactly `L.length` calls and no call
with another key), and at the moment of that call `s` is no longer linked in the
block's `sync_list`. -/
theorem kt_memblock_free_sync_free_each_once (thr pc : Nat) (addr : uptr_t) (size : Nat)
    (w : Bool) (ctx : kt_ctx_t) (b : kt_tab_memblock_t) (L : List kt_tab_sync_t)
    (hfind : ctx.memblock_tab.find addr = some b) (hlock : b.tab.lock = false)
    (hlist : b.body.sync_list = some L) (hdistinct : (L.map (fun s => s.ptr)).Nodup) :
    ∃ ctx' new, kt_memblock_free thr pc addr size w ctx = .ok ctx' ∧
      ctx'.log = ctx.log ++ new ∧
      (sync_free_moments new).length = L.length ∧
      List.Forall₂
        (fun (s : kt_tab_sync_t) (m : Moment) => m.call = Call.kt_sync_free thr s.tab.key ∧
          ∃ blk l, m.memblock = some blk ∧ blk.ptr = b.ptr ∧ blk.body.sync_list = some l ∧
            ∀ e ∈ l, e.ptr ≠ s.ptr)
        L (sync_free_moments new) := by
  refine ⟨_, _, kt_memblock_free_tracked thr pc addr size w ctx b L hfind hlock hlist, rfl, ?_⟩
  have hsf : sync_free_moments (free_shadow_moments thr pc addr size w ctx ++
      (drain_moments thr (ctx.memblock_tab.unlink addr) ctx.stat b.ptr ⟨b.tab.key, true⟩
        b.body.lock_list L ++
      [⟨.kt_cache_free b.ptr, ctx.memblock_tab.unlink addr, ctx.stat,
        some ⟨b.ptr, ⟨b.tab.key, false⟩, ⟨some [], b.body.lock_list⟩⟩⟩])) =
      drain_moments thr (ctx.memblock_tab.unlink addr) ctx.stat b.ptr ⟨b.tab.key, true⟩
        b.body.lock_list L := by
    rw [sync_free_moments_append, sync_free_moments_append, sync_free_moments_shadow,
      sync_free_moments_drain]
    simp [sync_free_moments, Call.is_sync_free]
  rw [hsf]
  have hall := drain_moments_forall₂ thr (ctx.memblock_tab.unlink addr) ctx.stat b.ptr
    ⟨b.tab.key, true⟩ b.body.lock_list L hdistinct
  exact ⟨hall.length_eq.symm, hall⟩

/-- C1 at the concrete context: freeing the block under 4096 calls `kt_sync_free`
for the records 502 and 501, once each. -/
theorem kt_memblock_free_sync_free_each_once_witness :
    ∃ ctx' new, kt_memblock_free 7 0 4096 64 true ex_ctx = .ok ctx' ∧
      ctx'.log = ex_ctx.log ++ new ∧
      (sync_free_moments new).length = [ex_sync2, ex_sync1].length ∧
      List.Forall₂
        (fun (s : kt_tab_sync_t) (m : Moment) => m.call = Call.kt_sync_free 7 s.tab.key ∧
          ∃ blk l, m.memblock = some blk ∧ blk.ptr = ex_block.ptr ∧
            blk.body.sync_list = some l ∧ ∀ e ∈ l, e.ptr ≠ s.ptr)
        [ex_sync2, ex_sync1] (sync_free_moments new) :=
  kt_memblock_free_sync_free_each_once 7 0 4096 64 true ex_ctx ex_block [ex_sync2, ex_sync1]
    (by decide) (by decide) (by decide) (by decide)

/-! ## C2 -/

/-- C2: on a block tracked under `addr` in a well-formed table, whatever the length
of its `sync_list`, `kt_memblock_free` returns and its log ends with the one
`kt_cache_free` call, for the block's slot. At the moment of that call the block
is out of the index (no entry under `addr`, no indexed object in its slot), its
`sync_list` is empty and its lock is released; every `kt_sync_free` call came
before; `kt_stat_memblock_objects` still has its old value and is one less on
return. -/
theorem kt_memblock_free_releases_after_drain (thr pc : Nat) (addr : uptr_t) (size : Nat)
    (w : Bool) (ctx : kt_ctx_t) (b : kt_tab_memblock_t) (L : List kt_tab_sync_t)
    (hwf : ctx.memblock_tab.wf)
    (hfind : ctx.memblock_tab.find addr = some b) (hlock : b.tab.lock = false)
    (hlist : b.body.sync_list = some L) :
    ∃ ctx' pre m blk, kt_memblock_free thr pc addr size w ctx = .ok ctx' ∧
      ctx'.log = ctx.log ++ (pre ++ [m]) ∧
      (∀ x ∈ pre, x.call.is_cache_free = false) ∧
      (sync_free_moments pre).length = L.length ∧
      m.call = Call.kt_cache_free b.ptr ∧
      m.memblock = some blk ∧ blk.ptr = b.ptr ∧ blk.body.sync_list = some [] ∧
      blk.tab.lock = false ∧
      m.memblock_tab.find addr = none ∧ (∀ o ∈ m.memblock_tab.objs, o.ptr ≠ b.ptr) ∧
      b.ptr ∉ m.memblock_tab.obj_cache.free ∧
      m.stat.memblock_objects = ctx.stat.memblock_objects ∧
      ctx'.stat.memblock_objects = ctx.stat.memblock_objects - 1 ∧
      ctx'.memblock_tab.obj_cache.free = b.ptr :: ctx.memblock_tab.obj_cache.free := by
  obtain ⟨hp, hk, _, hdisj⟩ := hwf
  refine ⟨_, free_shadow_moments thr pc addr size w ctx ++
      drain_moments thr (ctx.memblock_tab.unlink addr) ctx.stat b.ptr ⟨b.tab.key, true⟩
        b.body.lock_list L,
    ⟨.kt_cache_free b.ptr, ctx.memblock_tab.unlink addr, ctx.stat,
      some ⟨b.ptr, ⟨b.tab.key, false⟩, ⟨some [], b.body.lock_list⟩⟩⟩,
    ⟨b.ptr, ⟨b.tab.key, false⟩, ⟨some [], b.body.lock_list⟩⟩,
    kt_memblock_free_tracked thr pc addr size w ctx b L hfind hlock hlist, ?_, ?_, ?_, rfl,
    rfl, rfl, rfl, rfl, unlink_find_same _ _ hk, unlink_ptr_gone _ _ _ hp hfind, ?_, rfl, ?_,
    rfl⟩
  · simp [List.append_assoc]
  · intro x hx
    rcases List.mem_append.mp hx with hx | hx
    · cases w
      · simp [free_shadow_moments] at hx
      · simp only [free_shadow_moments, if_true, List.mem_singleton] at hx
        subst hx
        rfl
    · exact (drain_moments_no_cache_free _ _ _ _ _ _ _ x hx).1
  · rw [sync_free_moments_append, sync_free_moments_shadow, sync_free_moments_drain]
    simp [drain_moments_length]
  · intro hmem
    exact hdisj _ hmem (List.mem_map.mpr ⟨b, (find_mem _ _ _ hfind).1, rfl⟩)
  · simp [kt_stat_add]
    ring

theorem ex_ctx_wf : ex_ctx.memblock_tab.wf := by
  unfold kt_tab_t.wf
  decide

/-- C2 at the concrete context: freeing the block under 4096 (two records linked)
hands slot 1 to `kt_cache_free` last, with an empty list and out of the index. -/
theorem kt_memblock_free_releases_after_drain_witness :
    ∃ ctx' pre m blk, kt_memblock_free 7 0 4096 64 false ex_ctx = .ok ctx' ∧
      ctx'.log = ex_ctx.log ++ (pre ++ [m]) ∧
      (∀ x ∈ pre, x.call.is_cache_free = false) ∧
      (sync_free_moments pre).length = [ex_sync2, ex_sync1].length ∧
      m.call = Call.kt_cache_free ex_block.ptr ∧
      m.memblock = some blk ∧ blk.ptr = ex_block.ptr ∧ blk.body.sync_list = some [] ∧
      blk.tab.lock = false ∧
      m.memblock_tab.find 4096 = none ∧ (∀ o ∈ m.memblock_tab.objs, o.ptr ≠ ex_block.ptr) ∧
      ex_block.ptr ∉ m.memblock_tab.obj_cache.free ∧
      m.stat.memblock_objects = ex_ctx.stat.memblock_objects ∧
      ctx'.stat.memblock_objects = ex_ctx.stat.memblock_objects - 1 ∧
      ctx'.memblock_tab.obj_cache.free = ex_block.ptr :: ex_ctx.memblock_tab.obj_cache.free :=
  kt_memblock_free_releases_after_drain 7 0 4096 64 false ex_ctx ex_block [ex_sync2, ex_sync1]
    ex_ctx_wf (by decide) (by decide) (by decide)

/-! ## C3 -/

/-- C3: when the table holds no entry under `addr`, `kt_memblock_free` returns
normally; the table (index and slot cache) and all counters are as before, and the
log grew by nothing but the shadow call `kt_access_range` made when
`write_to_shadow` is set: neither `kt_sync_free` nor `kt_cache_free` is called. -/
theorem kt_memblock_free_untracked (thr pc : Nat) (addr : uptr_t) (size : Nat) (w : Bool)
    (ctx : kt_ctx_t) (habsent : ctx.memblock_tab.find addr = none) :
    ∃ ctx', kt_memblock_free thr pc addr size w ctx = .ok ctx' ∧
      ctx'.memblock_tab = ctx.memblock_tab ∧ ctx'.stat = ctx.stat ∧
      ctx'.log = ctx.log ++ free_shadow_moments thr pc addr size w ctx ∧
      (∀ m ∈ free_shadow_moments thr pc addr size w ctx,
        m.call.is_sync_free = false ∧ m.call.is_cache_free = false) := by
  have hacc : kt_tab_access ctx.memblock_tab addr false true =
      .ok ⟨none, false, ctx.memblock_tab⟩ := by
    simp [kt_tab_access, habsent]
  cases w
  · refine ⟨ctx, ?_, rfl, rfl, ?_, ?_⟩
    · simp only [kt_memblock_free, Bool.false_eq_true, if_false, hacc]
    · simp [free_shadow_moments]
    · simp [free_shadow_moments]
  · refine ⟨ctx.called (.kt_access_range thr pc addr size false) none, ?_, rfl, rfl, ?_, ?_⟩
    · simp only [kt_memblock_free, if_true]
      have h2 : kt_tab_access
          (ctx.called (.kt_access_range thr pc addr size false) none).memblock_tab addr false
          true = .ok ⟨none, false, ctx.memblock_tab⟩ := hacc
      rw [h2]
      rfl
    · simp [free_shadow_moments, kt_ctx_t.called]
    · simp [free_shadow_moments, Call.is_sync_free, Call.is_cache_free]

/-- C3 at the concrete context: nothing is tracked under 12288. -/
theorem kt_memblock_free_untracked_witness :
    ex_ctx.memblock_tab.find 12288 = none ∧
    ∃ ctx', kt_memblock_free 7 0 12288 64 true ex_ctx = .ok ctx' ∧
      ctx'.memblock_tab = ex_ctx.memblock_tab ∧ ctx'.stat = ex_ctx.stat ∧
      ctx'.log = ex_ctx.log ++ free_shadow_moments 7 0 12288 64 true ex_ctx ∧
      (∀ m ∈ free_shadow_moments 7 0 12288 64 true ex_ctx,
        m.call.is_sync_free = false ∧ m.call.is_cache_free = false) :=
  ⟨by decide, kt_memblock_free_untracked 7 0 12288 64 true ex_ctx (by decide)⟩

/-! ## Stores through a block pointer -/

theorem write_write {α : Type} (tab : kt_tab_t α) (o1 o2 : kt_obj α) (h : o1.ptr = o2.ptr) :
    (tab.write o1).write o2 = tab.write o2 := by
  obtain ⟨objs, cache⟩ := tab
  simp only [kt_tab_t.write, List.map_map, kt_tab_t.mk.injEq, and_true]
  apply List.map_congr_left
  intro o _
  by_cases ho : o.ptr = o2.ptr
  · simp [Function.comp, ho, h]
  · simp [Function.comp, ho, h]

theorem write_find_same {α : Type} (tab : kt_tab_t α) (key : uptr_t) (b o : kt_obj α)
    (hfind : tab.find key = some b) (hp : o.ptr = b.ptr) (hk : o.tab.key = key) :
    (tab.write o).find key = some o := by
  obtain ⟨objs, cache⟩ := tab
  simp only [kt_tab_t.write, kt_tab_t.find] at *
  induction objs with
  | nil => simp at hfind
  | cons x xs ih =>
    by_cases hx : x.tab.key = key
    · simp only [List.find?_cons, hx, decide_True, Option.some.injEq] at hfind
      subst hfind
      simp [List.find?_cons, hp, hk]
    · simp only [List.find?_cons, hx, decide_False] at hfind
      by_cases hxp : x.ptr = o.ptr
      · simp [List.find?_cons, hxp, hk]
      · simp [List.find?_cons, hxp, hx, ih hfind]

theorem write_ptrs {α : Type} (tab : kt_tab_t α) (o : kt_obj α) :
    (tab.write o).objs.map (fun x => x.ptr) = tab.objs.map (fun x => x.ptr) := by
  obtain ⟨objs, cache⟩ := tab
  simp only [kt_tab_t.write, List.map_map]
  apply List.map_congr_left
  intro x _
  by_cases hx : x.ptr = o.ptr
  · simp [Function.comp, hx]
  · simp [Function.comp, hx]

theorem write_keys {α : Type} (tab : kt_tab_t α) (key : uptr_t) (b o : kt_obj α)
    (hnd : (tab.objs.map (fun x => x.ptr)).Nodup)
    (hfind : tab.find key = some b) (hp : o.ptr = b.ptr) (hk : o.tab.key = key) :
    (tab.write o).objs.map (fun x => x.tab.key) = tab.objs.map (fun x => x.tab.key) := by
  obtain ⟨hb, hbk⟩ := find_mem tab key b hfind
  obtain ⟨objs, cache⟩ := tab
  simp only [kt_tab_t.write, List.map_map]
  apply List.map_congr_left
  intro x hxm
  by_cases hx : x.ptr = o.ptr
  · have hxb : x = b :=
      List.inj_on_of_nodup_map hnd hxm hb (hx.trans hp)
    subst hxb
    simp [Function.comp, hx, hk, hbk]
  · simp [Function.comp, hx]

theorem write_find_other {α : Type} (tab : kt_tab_t α) (key k : uptr_t) (b o : kt_obj α)
    (hnd : (tab.objs.map (fun x => x.ptr)).Nodup)
    (hfind : tab.find key = some b) (hp : o.ptr = b.ptr) (hk : o.tab.key = key)
    (hne : k ≠ key) : (tab.write o).find k = tab.find k := by
  obtain ⟨hb, hbk⟩ := find_mem tab key b hfind
  obtain ⟨objs, cache⟩ := tab
  simp only [kt_tab_t.write, kt_tab_t.find] at *
  clear hfind
  induction objs with
  | nil => simp
  | cons x xs ih =>
    simp only [List.map_cons, List.nodup_cons] at hnd
    by_cases hx : x.ptr = o.ptr
    · have hxb : x = b := by
        rcases List.mem_cons.mp hb with h | h
        · exact h.symm
        · exact absurd (List.mem_map.mpr ⟨b, h, (hx.trans hp).symm⟩) hnd.1
      subst hxb
      have h1 : ¬ o.tab.key = k := fun h => hne (h.symm.trans hk)
      have h2 : ¬ x.tab.key = k := fun h => hne (h.symm.trans hbk)
      have hrest : List.map (fun a => if a.ptr = o.ptr then o else a) xs = xs := by
        conv_rhs => rw [← List.map_id xs]
        apply List.map_congr_left
        intro a ha
        have : ¬ a.ptr = o.ptr := fun h =>
          hnd.1 (List.mem_map.mpr ⟨a, ha, h.trans hx.symm⟩)
        simp [this]
      simp [List.find?_cons, hx, h1, h2, hrest]
    · have hb2 : b ∈ xs := by
        rcases List.mem_cons.mp hb with h | h
        · exact absurd (h ▸ hp.symm) hx
        · exact h
      by_cases hxk : x.tab.key = k
      · simp [List.find?_cons, hx, hxk]
      · simp [List.find?_cons, hx, hxk, ih hnd.2 hb2]

theorem kt_tab_access_found {α : Type} [Inhabited α] (tab : kt_tab_t α) (key : uptr_t)
    (created : Bool) (o : kt_obj α) (hfind : tab.find key = some o)
    (hlock : o.tab.lock = false) :
    kt_tab_access tab key created false =
      .ok ⟨some ⟨o.ptr, ⟨o.tab.key, true⟩, o.body⟩, false,
        tab.write ⟨o.ptr, ⟨o.tab.key, true⟩, o.body⟩⟩ := by
  simp [kt_tab_access, hfind, hlock]

theorem kt_tab_access_locked {α : Type} [Inhabited α] (tab : kt_tab_t α) (key : uptr_t)
    (created destroy : Bool) (o : kt_obj α) (hfind : tab.find key = some o)
    (hlock : o.tab.lock = true) :
    kt_tab_access tab key created destroy = .error .spin := by
  simp [kt_tab_access, hfind, hlock]

theorem kt_tab_access_lookup_absent {α : Type} [Inhabited α] (tab : kt_tab_t α) (key : uptr_t)
    (destroy : Bool) (habsent : tab.find key = none) :
    kt_tab_access tab key false destroy = .ok ⟨none, false, tab⟩ := by
  simp [kt_tab_access, habsent]

/-! ## C4 -/

theorem kt_memblock_remove_sync_found (thr : Nat) (addr : uptr_t) (sync : kt_tab_sync_t)
    (ctx : kt_ctx_t) (b : kt_tab_memblock_t) (l : List kt_tab_sync_t)
    (hfind : ctx.memblock_tab.find addr = some b) (hlock : b.tab.lock = false)
    (hlist : b.body.sync_list = some l) :
    kt_memblock_remove_sync thr addr sync ctx =
      match l.find? (fun entry => decide (entry.ptr = sync.ptr)) with
      | none => .error .BUG
      | some entry => .ok { ctx with memblock_tab := (ctx.memblock_tab.write
          ⟨b.ptr, ⟨b.tab.key, false⟩, ⟨some (list_del_init entry l), b.body.lock_list⟩⟩) } := by
  obtain ⟨bp, bh, ⟨bs, bl⟩⟩ := b
  simp only at hlist hlock
  subst hlist
  simp only [kt_memblock_remove_sync, kt_tab_access_found _ _ _ _ hfind hlock,
    kt_memblock_remove_sync_scan]
  cases hf : l.find? (fun entry => decide (entry.ptr = sync.ptr)) with
  | none => simp
  | some entry => simp [kt_spin_unlock, write_write]

theorem list_del_init_split (sync entry : kt_tab_sync_t) (l : List kt_tab_sync_t)
    (hf : l.find? (fun e => decide (e.ptr = sync.ptr)) = some entry) :
    ∃ l1 e l2, l = l1 ++ e :: l2 ∧ e.ptr = sync.ptr ∧ (∀ x ∈ l1, x.ptr ≠ sync.ptr) ∧
      list_del_init entry l = l1 ++ l2 := by
  have hmem := List.mem_of_find?_eq_some hf
  have hptr : entry.ptr = sync.ptr := by simpa using List.find?_some hf
  obtain ⟨e, l1, l2, h1, h2, h3, h4⟩ :=
    List.exists_of_eraseP (p := fun e => decide (e.ptr = sync.ptr)) hmem (by simpa using hptr)
  refine ⟨l1, e, l2, h3, by simpa using h2, ?_, ?_⟩
  · intro x hx
    simpa using h1 x hx
  · unfold list_del_init
    rw [hptr]
    exact h4

/-- C4: for a block under `addr` that nobody holds locked and whose list was
initialised (if there is a block at all), `kt_memblock_remove_sync` ends in `BUG`
exactly when no block exists under `addr` or no node of its `sync_list` is the
record `sync` (compared by address). Otherwise it returns: the list is the old one
with the node of `sync` taken out, the nodes before and after it unchanged and in
the same order; the index holds the same slots as before and no slot was
allocated; counters and log are untouched; the block's lock is released. -/
theorem kt_memblock_remove_sync_bug_iff (thr : Nat) (addr : uptr_t) (sync : kt_tab_sync_t)
    (ctx : kt_ctx_t)
    (hq : ∀ b, ctx.memblock_tab.find addr = some b →
      b.tab.lock = false ∧ ∃ l, b.body.sync_list = some l) :
    (kt_memblock_remove_sync thr addr sync ctx = .error .BUG ↔
      (ctx.memblock_tab.find addr = none ∨
        ∃ b l, ctx.memblock_tab.find addr = some b ∧ b.body.sync_list = some l ∧
          ∀ e ∈ l, e.ptr ≠ sync.ptr)) ∧
    (∀ b l, ctx.memblock_tab.find addr = some b → b.body.sync_list = some l →
      (∃ e ∈ l, e.ptr = sync.ptr) →
      ∃ ctx' l1 e l2, kt_memblock_remove_sync thr addr sync ctx = .ok ctx' ∧
        l = l1 ++ e :: l2 ∧ e.ptr = sync.ptr ∧ (∀ x ∈ l1, x.ptr ≠ sync.ptr) ∧
        ctx'.memblock_tab.find addr =
          some ⟨b.ptr, ⟨addr, false⟩, ⟨some (l1 ++ l2), b.body.lock_list⟩⟩ ∧
        ctx'.memblock_tab.objs.map (fun o => o.ptr) =
          ctx.memblock_tab.objs.map (fun o => o.ptr) ∧
        ctx'.memblock_tab.obj_cache = ctx.memblock_tab.obj_cache ∧
        ctx'.stat = ctx.stat ∧ ctx'.log = ctx.log) := by
  constructor
  · cases hfind : ctx.memblock_tab.find addr with
    | none =>
      simp [kt_memblock_remove_sync, kt_tab_access_lookup_absent _ _ _ hfind]
    | some b =>
      obtain ⟨hlock, l, hlist⟩ := hq b hfind
      rw [kt_memblock_remove_sync_found thr addr sync ctx b l hfind hlock hlist]
      cases hf : l.find? (fun entry => decide (entry.ptr = sync.ptr)) with
      | none =>
        simp only [true_iff]
        right
        refine ⟨b, l, rfl, hlist, ?_⟩
        intro e he
        simpa using List.find?_eq_none.mp hf e he
      | some entry =>
        simp only [false_iff, reduceCtorEq, not_or, not_exists, not_and, not_forall,
          not_false_eq_true, true_and]
        intro b2 l2 hb2 hl2
        simp only [Option.some.injEq] at hb2
        subst hb2
        rw [hlist] at hl2
        simp only [Option.some.injEq] at hl2
        subst hl2
        exact ⟨entry, List.mem_of_find?_eq_some hf,
          by simpa using List.find?_some hf⟩
  · intro b l hfind hlist hex
    obtain ⟨hlock, _⟩ := hq b hfind
    rw [kt_memblock_remove_sync_found thr addr sync ctx b l hfind hlock hlist]
    cases hf : l.find? (fun entry => decide (entry.ptr = sync.ptr)) with
    | none =>
      obtain ⟨e, he, hp⟩ := hex
      have := List.find?_eq_none.mp hf e he
      simp [hp] at this
    | some entry =>
      obtain ⟨l1, e, l2, h1, h2, h3, h4⟩ := list_del_init_split sync entry l hf
      refine ⟨_, l1, e, l2, rfl, h1, h2, h3, ?_, write_ptrs _ _, rfl, rfl, rfl⟩
      simp only [h4]
      have hk := (find_mem _ _ _ hfind).2
      rw [hk]
      exact write_find_same ctx.memblock_tab addr b
        ⟨b.ptr, ⟨addr, false⟩, ⟨some (l1 ++ l2), b.body.lock_list⟩⟩ hfind rfl rfl

theorem ex_ctx_find : ex_ctx.memblock_tab.find 4096 = some ex_block := by decide

theorem ex_ctx_quiet (b : kt_tab_memblock_t) (hb : ex_ctx.memblock_tab.find 4096 = some b) :
    b.tab.lock = false ∧ ∃ l, b.body.sync_list = some l := by
  rw [ex_ctx_find] at hb
  cases hb
  exact ⟨rfl, _, rfl⟩

/-- C4 at the concrete context: the record 501 is linked in the block under 4096,
so removing it does not end in `BUG` and leaves the record 502 alone. -/
theorem kt_memblock_remove_sync_bug_iff_witness :
    (kt_memblock_remove_sync 7 4096 ex_sync1 ex_ctx = .error .BUG ↔
      (ex_ctx.memblock_tab.find 4096 = none ∨
        ∃ b l, ex_ctx.memblock_tab.find 4096 = some b ∧ b.body.sync_list = some l ∧
          ∀ e ∈ l, e.ptr ≠ ex_sync1.ptr)) ∧
    (∀ b l, ex_ctx.memblock_tab.find 4096 = some b → b.body.sync_list = some l →
      (∃ e ∈ l, e.ptr = ex_sync1.ptr) →
      ∃ ctx' l1 e l2, kt_memblock_remove_sync 7 4096 ex_sync1 ex_ctx = .ok ctx' ∧
        l = l1 ++ e :: l2 ∧ e.ptr = ex_sync1.ptr ∧ (∀ x ∈ l1, x.ptr ≠ ex_sync1.ptr) ∧
        ctx'.memblock_tab.find 4096 =
          some ⟨b.ptr, ⟨4096, false⟩, ⟨some (l1 ++ l2), b.body.lock_list⟩⟩ ∧
        ctx'.memblock_tab.objs.map (fun o => o.ptr) =
          ex_ctx.memblock_tab.objs.map (fun o => o.ptr) ∧
        ctx'.memblock_tab.obj_cache = ex_ctx.memblock_tab.obj_cache ∧
        ctx'.stat = ex_ctx.stat ∧ ctx'.log = ex_ctx.log) :=
  kt_memblock_remove_sync_bug_iff 7 4096 ex_sync1 ex_ctx ex_ctx_quiet

/-! ## `kt_memblock_ensure_created` and `kt_memblock_add_sync`, case by case -/

theorem kt_memblock_ensure_created_found (thr : Nat) (addr : uptr_t) (ctx : kt_ctx_t)
    (b : kt_tab_memblock_t) (hfind : ctx.memblock_tab.find addr = some b)
    (hlock : b.tab.lock = false) :
    kt_memblock_ensure_created thr addr ctx =
      .ok (⟨b.ptr, ⟨b.tab.key, true⟩, b.body⟩,
        { ctx with memblock_tab := ctx.memblock_tab.write ⟨b.ptr, ⟨b.tab.key, true⟩, b.body⟩ }) := by
  simp [kt_memblock_ensure_created, kt_tab_access_found _ _ _ _ hfind hlock]

theorem kt_memblock_ensure_created_fresh (thr : Nat) (addr : uptr_t) (ctx : kt_ctx_t)
    (p : Nat) (rest : List Nat) (habsent : ctx.memblock_tab.find addr = none)
    (hslot : ctx.memblock_tab.obj_cache.free = p :: rest) :
    kt_memblock_ensure_created thr addr ctx =
      .ok (⟨p, ⟨addr, true⟩, ⟨some [], some []⟩⟩,
        { memblock_tab := kt_tab_t.write
            { objs := ⟨p, ⟨addr, true⟩, default⟩ :: ctx.memblock_tab.objs,
              obj_cache := { free := rest } }
            ⟨p, ⟨addr, true⟩, ⟨some [], some []⟩⟩,
          stat := kt_stat_add .kt_stat_memblock_alloc 1
            (kt_stat_add .kt_stat_memblock_objects 1 ctx.stat),
          log := ctx.log }) := by
  simp [kt_memblock_ensure_created, kt_tab_access, habsent, kt_cache_alloc, hslot,
    INIT_LIST_HEAD, kt_stat_inc]

theorem kt_memblock_ensure_created_oom (thr : Nat) (addr : uptr_t) (ctx : kt_ctx_t)
    (habsent : ctx.memblock_tab.find addr = none)
    (hslot : ctx.memblock_tab.obj_cache.free = []) :
    kt_memblock_ensure_created thr addr ctx = .error .BUG := by
  simp [kt_memblock_ensure_created, kt_tab_access, habsent, kt_cache_alloc, hslot]

theorem fresh_write_find (objs : List kt_tab_memblock_t) (cache : kt_cache_t) (p : Nat)
    (addr : uptr_t) (o1 o2 : kt_tab_memblock_t) (h1 : o1.ptr = p) (h2 : o2.ptr = p)
    (hk : o2.tab.key = addr) :
    (kt_tab_t.write { objs := o1 :: objs, obj_cache := cache } o2).find addr = some o2 := by
  simp [kt_tab_t.write, kt_tab_t.find, h1, h2, hk]

theorem kt_memblock_add_sync_found (thr : Nat) (addr : uptr_t) (sync : kt_tab_sync_t)
    (ctx : kt_ctx_t) (b : kt_tab_memblock_t) (l : List kt_tab_sync_t)
    (hfind : ctx.memblock_tab.find addr = some b) (hlock : b.tab.lock = false)
    (hlist : b.body.sync_list = some l) :
    kt_memblock_add_sync thr addr sync ctx =
      .ok { ctx with memblock_tab := (ctx.memblock_tab.write
        ⟨b.ptr, ⟨b.tab.key, false⟩, ⟨some (sync :: l), b.body.lock_list⟩⟩) } := by
  simp [kt_memblock_add_sync, kt_memblock_ensure_created_found thr addr ctx b hfind hlock,
    hlist, list_add, kt_spin_unlock, write_write]

theorem kt_memblock_add_sync_fresh (thr : Nat) (addr : uptr_t) (sync : kt_tab_sync_t)
    (ctx : kt_ctx_t) (p : Nat) (rest : List Nat)
    (habsent : ctx.memblock_tab.find addr = none)
    (hslot : ctx.memblock_tab.obj_cache.free = p :: rest) :
    kt_memblock_add_sync thr addr sync ctx =
      .ok { memblock_tab := kt_tab_t.write
              { objs := ⟨p, ⟨addr, true⟩, default⟩ :: ctx.memblock_tab.objs,
                obj_cache := { free := rest } }
              ⟨p, ⟨addr, false⟩, ⟨some [sync], some []⟩⟩,
            stat := kt_stat_add .kt_stat_memblock_alloc 1
              (kt_stat_add .kt_stat_memblock_objects 1 ctx.stat),
            log := ctx.log } := by
  simp [kt_memblock_add_sync, kt_memblock_ensure_created_fresh thr addr ctx p rest habsent hslot,
    list_add, kt_spin_unlock, write_write]

/-! ## C5 -/

/-- C5: (1) when the table has no block under `addr` and a slot can be allocated,
`kt_memblock_ensure_created(addr)`, the unlock of the block it returns, and then
`kt_memblock_add_sync(thr, addr, s)` all return, and the block under `addr` then
has the `sync_list` `[s]`, in which `s` occurs once. (2) On an unlocked block under
`addr` whose list `l` has no node of `s`, `kt_memblock_add_sync` returns and the
block's list is `s` followed by `l`: `s` occurs exactly once, and every other record
occurs as often as it did in `l`. -/
theorem kt_memblock_add_sync_links_once (thr : Nat) (addr : uptr_t) (s : kt_tab_sync_t)
    (ctx : kt_ctx_t) :
    (∀ p rest, ctx.memblock_tab.find addr = none →
      ctx.memblock_tab.obj_cache.free = p :: rest →
      ∃ mb ctx1 ctx2 blk, kt_memblock_ensure_created thr addr ctx = .ok (mb, ctx1) ∧
        kt_memblock_add_sync thr addr s
          { ctx1 with memblock_tab := ctx1.memblock_tab.write (kt_spin_unlock mb) } = .ok ctx2 ∧
        ctx2.memblock_tab.find addr = some blk ∧ blk.ptr = mb.ptr ∧
        blk.body.sync_list = some [s] ∧
        List.countP (fun e => decide (e.ptr = s.ptr)) [s] = 1) ∧
    (∀ b l, ctx.memblock_tab.find addr = some b → b.tab.lock = false →
      b.body.sync_list = some l → (∀ e ∈ l, e.ptr ≠ s.ptr) →
      ∃ ctx' blk, kt_memblock_add_sync thr addr s ctx = .ok ctx' ∧
        ctx'.memblock_tab.find addr = some blk ∧ blk.ptr = b.ptr ∧
        blk.body.sync_list = some (s :: l) ∧
        List.countP (fun e => decide (e.ptr = s.ptr)) (s :: l) = 1 ∧
        (∀ e, e.ptr ≠ s.ptr → List.count e (s :: l) = List.count e l) ∧
        ((l.map (fun e => e.ptr)).Nodup → ((s :: l).map (fun e => e.ptr)).Nodup)) := by
  constructor
  · intro p rest habsent hslot
    have hfind1 : (kt_tab_t.write
        (kt_tab_t.write
          { objs := ⟨p, ⟨addr, true⟩, default⟩ :: ctx.memblock_tab.objs,
            obj_cache := { free := rest } }
          (⟨p, ⟨addr, true⟩, ⟨some [], some []⟩⟩ : kt_tab_memblock_t))
        (kt_spin_unlock ⟨p, ⟨addr, true⟩, ⟨some [], some []⟩⟩)).find addr =
        some ⟨p, ⟨addr, false⟩, ⟨some [], some []⟩⟩ := by
      rw [write_write _ _ _ (show (⟨p, ⟨addr, true⟩, ⟨some [], some []⟩⟩ : kt_tab_memblock_t).ptr =
        (kt_spin_unlock (⟨p, ⟨addr, true⟩, ⟨some [], some []⟩⟩ : kt_tab_memblock_t)).ptr from rfl)]
      exact fresh_write_find _ _ p addr _ _ rfl rfl rfl
    refine ⟨_, _, _, ⟨p, ⟨addr, false⟩, ⟨some [s], some []⟩⟩,
      kt_memblock_ensure_created_fresh thr addr ctx p rest habsent hslot,
      kt_memblock_add_sync_found thr addr s _ _ [] hfind1 rfl rfl, ?_, rfl, rfl, by simp⟩
    exact write_find_same _ addr _ _ hfind1 rfl rfl
  · intro b l hfind hlock hlist hnot
    have hk := (find_mem _ _ _ hfind).2
    refine ⟨_, ⟨b.ptr, ⟨b.tab.key, false⟩, ⟨some (s :: l), b.body.lock_list⟩⟩,
      kt_memblock_add_sync_found thr addr s ctx b l hfind hlock hlist,
      write_find_same _ addr b _ hfind rfl hk, rfl, rfl, ?_, ?_, ?_⟩
    · rw [List.countP_cons_of_pos _ _ (by simp), List.countP_eq_zero.mpr]
      intro e he
      simpa using hnot e he
    · intro e he
      have : ¬ (s = e) := by
        rintro rfl
        exact he rfl
      simp [List.count_cons, this]
    · intro hnd
      simp only [List.map_cons, List.nodup_cons]
      refine ⟨?_, hnd⟩
      intro hmem
      obtain ⟨e, he, hep⟩ := List.mem_map.mp hmem
      exact hnot e he hep

/-- C5 at concrete contexts: from `kt_ctx_init` with the slots 1 and 2 the record 501
ends up alone in the block under 4096; in `ex_ctx` a record at address 503 is put in
front of the two records linked in the block under 4096. -/
theorem kt_memblock_add_sync_links_once_witness :
    (∃ mb ctx1 ctx2 blk,
      kt_memblock_ensure_created 7 4096 (kt_ctx_init [1, 2]) = .ok (mb, ctx1) ∧
        kt_memblock_add_sync 7 4096 ex_sync1
          { ctx1 with memblock_tab := ctx1.memblock_tab.write (kt_spin_unlock mb) } = .ok ctx2 ∧
        ctx2.memblock_tab.find 4096 = some blk ∧ blk.ptr = mb.ptr ∧
        blk.body.sync_list = some [ex_sync1] ∧
        List.countP (fun e => decide (e.ptr = ex_sync1.ptr)) [ex_sync1] = 1) ∧
    (∃ ctx' blk, kt_memblock_add_sync 7 4096 ⟨503, ⟨4144, false⟩⟩ ex_ctx = .ok ctx' ∧
        ctx'.memblock_tab.find 4096 = some blk ∧ blk.ptr = ex_block.ptr ∧
        blk.body.sync_list = some (⟨503, ⟨4144, false⟩⟩ :: [ex_sync2, ex_sync1]) ∧
        List.countP (fun e => decide (e.ptr = 503)) (⟨503, ⟨4144, false⟩⟩ :: [ex_sync2, ex_sync1])
          = 1 ∧
        (∀ e : kt_tab_sync_t, e.ptr ≠ 503 →
          List.count e (⟨503, ⟨4144, false⟩⟩ :: [ex_sync2, ex_sync1]) =
            List.count e [ex_sync2, ex_sync1]) ∧
        (([ex_sync2, ex_sync1].map (fun e => e.ptr)).Nodup →
          (((⟨503, ⟨4144, false⟩⟩ : kt_tab_sync_t) :: [ex_sync2, ex_sync1]).map
            (fun e => e.ptr)).Nodup)) :=
  ⟨(kt_memblock_add_sync_links_once 7 4096 ex_sync1 (kt_ctx_init [1, 2])).1 1 [2]
      (by decide) (by decide),
    (kt_memblock_add_sync_links_once 7 4096 ⟨503, ⟨4144, false⟩⟩ ex_ctx).2 ex_block
      [ex_sync2, ex_sync1] (by decide) (by decide) (by decide) (by decide)⟩

/-! ## C6 -/

/-- C6: `kt_memblock_ensure_created(thr, addr)`. (1) Whenever it returns, the block
it returns is locked, has the key `addr` and is the entry the table holds under
`addr` (it is not NULL). (2) With no entry under `addr` and a slot `p` to allocate,
it returns the new entry in slot `p` with `sync_list` and `lock_list` both empty,
and `kt_stat_memblock_objects` is one more than before. (3) With an unlocked entry
`b` under `addr`, it returns `b`, now locked, with both lists as they were, and
the counters are unchanged. (4) Whenever `kt_tab_access` hands back NULL, as it does
when no slot is left, the call ends in `BUG`. -/
theorem kt_memblock_ensure_created_contract (thr : Nat) (addr : uptr_t) (ctx : kt_ctx_t) :
    (∀ mb ctx', kt_memblock_ensure_created thr addr ctx = .ok (mb, ctx') →
      kt_spin_is_locked mb = true ∧ mb.tab.key = addr ∧
        ctx'.memblock_tab.find addr = some mb) ∧
    (∀ p rest, ctx.memblock_tab.find addr = none →
      ctx.memblock_tab.obj_cache.free = p :: rest →
      ∃ mb ctx', kt_memblock_ensure_created thr addr ctx = .ok (mb, ctx') ∧
        mb.ptr = p ∧ mb.body.sync_list = some [] ∧ mb.body.lock_list = some [] ∧
        ctx'.stat.memblock_objects = ctx.stat.memblock_objects + 1 ∧
        ctx'.memblock_tab.objs.length = ctx.memblock_tab.objs.length + 1) ∧
    (∀ b, ctx.memblock_tab.find addr = some b → b.tab.lock = false →
      ∃ mb ctx', kt_memblock_ensure_created thr addr ctx = .ok (mb, ctx') ∧
        mb.ptr = b.ptr ∧ mb.body.sync_list = b.body.sync_list ∧
        mb.body.lock_list = b.body.lock_list ∧ ctx'.stat = ctx.stat ∧
        ctx'.memblock_tab.objs.length = ctx.memblock_tab.objs.length) ∧
    ((∀ r, kt_tab_access ctx.memblock_tab addr true false = .ok r → r.obj = none →
        kt_memblock_ensure_created thr addr ctx = .error .BUG) ∧
      (ctx.memblock_tab.find addr = none → ctx.memblock_tab.obj_cache.free = [] →
        kt_memblock_ensure_created thr addr ctx = .error .BUG)) := by
  refine ⟨?_, ?_, ?_, ?_, ?_⟩
  · intro mb ctx' hret
    cases hfind : ctx.memblock_tab.find addr with
    | none =>
      cases hslot : ctx.memblock_tab.obj_cache.free with
      | nil =>
        rw [kt_memblock_ensure_created_oom thr addr ctx hfind hslot] at hret
        cases hret
      | cons p rest =>
        rw [kt_memblock_ensure_created_fresh thr addr ctx p rest hfind hslot] at hret
        simp only [Except.ok.injEq, Prod.mk.injEq] at hret
        obtain ⟨rfl, rfl⟩ := hret
        exact ⟨rfl, rfl, fresh_write_find _ _ p addr _ _ rfl rfl rfl⟩
    | some b =>
      cases hlock : b.tab.lock with
      | true =>
        simp [kt_memblock_ensure_created, kt_tab_access_locked _ _ _ _ _ hfind hlock] at hret
      | false =>
        rw [kt_memblock_ensure_created_found thr addr ctx b hfind hlock] at hret
        simp only [Except.ok.injEq, Prod.mk.injEq] at hret
        obtain ⟨rfl, rfl⟩ := hret
        have hk := (find_mem _ _ _ hfind).2
        exact ⟨rfl, hk, write_find_same _ addr b _ hfind rfl hk⟩
  · intro p rest habsent hslot
    refine ⟨_, _, kt_memblock_ensure_created_fresh thr addr ctx p rest habsent hslot,
      rfl, rfl, rfl, ?_, ?_⟩
    · simp [kt_stat_add]
    · simp [kt_tab_t.write]
  · intro b hfind hlock
    refine ⟨_, _, kt_memblock_ensure_created_found thr addr ctx b hfind hlock,
      rfl, rfl, rfl, rfl, ?_⟩
    simp [kt_tab_t.write]
  · intro r hr hnull
    simp [kt_memblock_ensure_created, hr, hnull]
  · exact kt_memblock_ensure_created_oom thr addr ctx

/-- C6 at concrete contexts: a first creation under 4096 from the slots 1 and 2, a
second access to the block under 4096 of `ex_ctx`, and a creation with no slot
left. -/
theorem kt_memblock_ensure_created_contract_witness :
    (∃ mb ctx', kt_memblock_ensure_created 7 4096 (kt_ctx_init [1, 2]) = .ok (mb, ctx') ∧
        mb.ptr = 1 ∧ mb.body.sync_list = some [] ∧ mb.body.lock_list = some [] ∧
        ctx'.stat.memblock_objects = (kt_ctx_init [1, 2]).stat.memblock_objects + 1 ∧
        ctx'.memblock_tab.objs.length = (kt_ctx_init [1, 2]).memblock_tab.objs.length + 1) ∧
    (∃ mb ctx', kt_memblock_ensure_created 7 4096 ex_ctx = .ok (mb, ctx') ∧
        mb.ptr = ex_block.ptr ∧ mb.body.sync_list = ex_block.body.sync_list ∧
        mb.body.lock_list = ex_block.body.lock_list ∧ ctx'.stat = ex_ctx.stat ∧
        ctx'.memblock_tab.objs.length = ex_ctx.memblock_tab.objs.length) ∧
    kt_memblock_ensure_created 7 4096 (kt_ctx_init []) = .error .BUG :=
  ⟨(kt_memblock_ensure_created_contract 7 4096 (kt_ctx_init [1, 2])).2.1 1 [2]
      (by decide) (by decide),
    (kt_memblock_ensure_created_contract 7 4096 ex_ctx).2.2.1 ex_block (by decide) (by decide),
    (kt_memblock_ensure_created_contract 7 4096 (kt_ctx_init [])).2.2.2.2
      (by decide) (by decide)⟩

/-! ## C7 -/

theorem kt_memblock_add_sync_step (thr : Nat) (addr : uptr_t) (s : kt_tab_sync_t)
    (ctx ctx' : kt_ctx_t) (hwf : ctx.memblock_tab.wf) (hq : quiet ctx addr)
    (hrun : kt_memblock_add_sync thr addr s ctx = .ok ctx') :
    ctx'.memblock_tab.wf ∧ quiet ctx' addr ∧ (∃ b, ctx'.memblock_tab.find addr = some b) ∧
      linked ctx' addr = s :: linked ctx addr := by
  obtain ⟨hp, hk, hf, hdisj⟩ := hwf
  cases hfind : ctx.memblock_tab.find addr with
  | none =>
    cases hslot : ctx.memblock_tab.obj_cache.free with
    | nil =>
      simp [kt_memblock_add_sync, kt_memblock_ensure_created_oom thr addr ctx hfind hslot]
        at hrun
    | cons p rest =>
      rw [kt_memblock_add_sync_fresh thr addr s ctx p rest hfind hslot] at hrun
      simp only [Except.ok.injEq] at hrun
      subst hrun
      rw [hslot] at hf hdisj
      have hpfresh : p ∉ ctx.memblock_tab.objs.map (fun o => o.ptr) :=
        hdisj p (List.mem_cons_self _ _)
      have hkfresh : addr ∉ ctx.memblock_tab.objs.map (fun o => o.tab.key) := by
        intro hmem
        obtain ⟨o, ho, hok⟩ := List.mem_map.mp hmem
        exact (find_none_iff _ _).mp hfind o ho hok
      have hfind0 : (kt_tab_t.mk
          ((⟨p, ⟨addr, true⟩, default⟩ : kt_tab_memblock_t) :: ctx.memblock_tab.objs)
          ⟨rest⟩).find addr = some ⟨p, ⟨addr, true⟩, default⟩ := by
        simp [kt_tab_t.find]
      have hp0 : ((kt_tab_t.mk
          ((⟨p, ⟨addr, true⟩, default⟩ : kt_tab_memblock_t) :: ctx.memblock_tab.objs)
          ⟨rest⟩).objs.map (fun o => o.ptr)).Nodup := by
        simpa using ⟨by simpa using hpfresh, hp⟩
      have hfind1 := fresh_write_find ctx.memblock_tab.objs ⟨rest⟩ p addr
        ⟨p, ⟨addr, true⟩, default⟩ ⟨p, ⟨addr, false⟩, ⟨some [s], some []⟩⟩ rfl rfl rfl
      refine ⟨⟨?_, ?_, ?_, ?_⟩, ?_, ⟨_, hfind1⟩, ?_⟩
      · rw [write_ptrs]
        exact hp0
      · have hkeys := write_keys _ addr _ ⟨p, ⟨addr, false⟩, ⟨some [s], some []⟩⟩ hp0 hfind0
          rfl rfl
        simp only [hkeys]
        simpa using ⟨by simpa using hkfresh, hk⟩
      · exact (List.nodup_cons.mp hf).2
      · intro q hq2
        rw [write_ptrs]
        simp only [List.map_cons, List.mem_cons, not_or]
        refine ⟨?_, hdisj q (List.mem_cons_of_mem _ hq2)⟩
        rintro rfl
        exact (List.nodup_cons.mp hf).1 hq2
      · intro b hb
        rw [hfind1] at hb
        cases hb
        exact ⟨rfl, _, rfl⟩
      · simp [linked, hfind1, hfind]
  | some b =>
    obtain ⟨hlock, l, hlist⟩ := hq b hfind
    rw [kt_memblock_add_sync_found thr addr s ctx b l hfind hlock hlist] at hrun
    simp only [Except.ok.injEq] at hrun
    subst hrun
    have hbk := (find_mem _ _ _ hfind).2
    have hfind1 := write_find_same ctx.memblock_tab addr b
      ⟨b.ptr, ⟨b.tab.key, false⟩, ⟨some (s :: l), b.body.lock_list⟩⟩ hfind rfl hbk
    refine ⟨⟨?_, ?_, hf, ?_⟩, ?_, ⟨_, hfind1⟩, ?_⟩
    · rw [write_ptrs]
      exact hp
    · have hkeys := write_keys _ addr b
        ⟨b.ptr, ⟨b.tab.key, false⟩, ⟨some (s :: l), b.body.lock_list⟩⟩ hp hfind rfl hbk
      simp only [hkeys]
      exact hk
    · intro q hq2
      rw [write_ptrs]
      exact hdisj q hq2
    · intro b2 hb2
      rw [hfind1] at hb2
      cases hb2
      exact ⟨rfl, _, rfl⟩
    · simp [linked, hfind1, hfind, hlist]

theorem kt_memblock_add_syncs_run (thr : Nat) (addr : uptr_t) (syncs : List kt_tab_sync_t) :
    ∀ (ctx ctx' : kt_ctx_t), ctx.memblock_tab.wf → quiet ctx addr →
      kt_memblock_add_syncs thr addr syncs ctx = .ok ctx' →
      ctx'.memblock_tab.wf ∧ quiet ctx' addr ∧
        (syncs ≠ [] → ∃ b, ctx'.memblock_tab.find addr = some b) ∧
        linked ctx' addr = syncs.reverse ++ linked ctx addr := by
  induction syncs with
  | nil =>
    intro ctx ctx' hwf hq hrun
    simp only [kt_memblock_add_syncs, Except.ok.injEq] at hrun
    subst hrun
    exact ⟨hwf, hq, by simp, by simp⟩
  | cons s rest ih =>
    intro ctx ctx' hwf hq hrun
    simp only [kt_memblock_add_syncs] at hrun
    cases h1 : kt_memblock_add_sync thr addr s ctx with
    | error f => simp [h1] at hrun
    | ok c1 =>
      simp only [h1] at hrun
      obtain ⟨hwf1, hq1, hex1, hl1⟩ := kt_memblock_add_sync_step thr addr s ctx c1 hwf hq h1
      obtain ⟨hwf2, hq2, hex2, hl2⟩ := ih c1 ctx' hwf1 hq1 hrun
      refine ⟨hwf2, hq2, fun _ => ?_, ?_⟩
      · cases rest with
        | nil =>
          simp only [kt_memblock_add_syncs, Except.ok.injEq] at hrun
          subst hrun
          exact hex1
        | cons r rs => exact hex2 (by simp)
      · rw [hl2, hl1]
        simp

theorem write_fresh_objs {α : Type} (objs : List (kt_obj α)) (o : kt_obj α)
    (h : o.ptr ∉ objs.map (fun x => x.ptr)) :
    objs.map (fun x => if x.ptr = o.ptr then o else x) = objs := by
  induction objs with
  | nil => rfl
  | cons x xs ih =>
    simp only [List.map_cons, List.mem_cons, not_or] at h
    simp [Ne.symm h.1, ih h.2]

theorem flatten_write_perm (objs : List kt_tab_memblock_t) (b new : kt_tab_memblock_t)
    (s : kt_tab_sync_t) (l : List kt_tab_sync_t)
    (hnd : (objs.map (fun x => x.ptr)).Nodup) (hb : b ∈ objs)
    (hl : b.body.sync_list = some l) (hp : new.ptr = b.ptr)
    (hnew : new.body.sync_list = some (s :: l)) :
    ((objs.map (fun x => if x.ptr = new.ptr then new else x)).map
        (fun o => o.body.sync_list.getD [])).flatten.Perm
      (s :: (objs.map (fun o => o.body.sync_list.getD [])).flatten) := by
  induction objs with
  | nil => simp at hb
  | cons x xs ih =>
    simp only [List.map_cons, List.nodup_cons] at hnd
    by_cases hx : x.ptr = new.ptr
    · have hxb : b = x := by
        rcases List.mem_cons.mp hb with h | h
        · exact h
        · exfalso
          apply hnd.1
          rw [hx, hp]
          exact List.mem_map_of_mem (fun o => o.ptr) h
      subst hxb
      have hfresh : new.ptr ∉ xs.map (fun o => o.ptr) := by
        rw [← hx]
        exact hnd.1
      simp only [List.map_cons, hx, if_true, write_fresh_objs xs new hfresh, List.flatten_cons,
        hnew, hl, Option.getD_some, List.cons_append]
      exact List.Perm.refl _
    · have hbx : b ∈ xs := by
        rcases List.mem_cons.mp hb with h | h
        · subst h
          exact absurd hp.symm hx
        · exact h
      simp only [List.map_cons, hx, if_false, List.flatten_cons]
      exact (List.Perm.append_left _ (ih hnd.2 hbx)).trans List.perm_middle

theorem kt_memblock_add_sync_all_linked (thr : Nat) (addr : uptr_t) (s : kt_tab_sync_t)
    (ctx ctx' : kt_ctx_t) (hwf : ctx.memblock_tab.wf) (hq : quiet ctx addr)
    (hrun : kt_memblock_add_sync thr addr s ctx = .ok ctx') :
    (all_linked ctx').Perm (s :: all_linked ctx) := by
  obtain ⟨hp, _, _, hdisj⟩ := hwf
  cases hfind : ctx.memblock_tab.find addr with
  | none =>
    cases hslot : ctx.memblock_tab.obj_cache.free with
    | nil =>
      simp [kt_memblock_add_sync, kt_memblock_ensure_created_oom thr addr ctx hfind hslot]
        at hrun
    | cons p rest =>
      rw [kt_memblock_add_sync_fresh thr addr s ctx p rest hfind hslot] at hrun
      simp only [Except.ok.injEq] at hrun
      subst hrun
      have hpfresh : p ∉ ctx.memblock_tab.objs.map (fun o => o.ptr) :=
        hdisj p (by rw [hslot]; exact List.mem_cons_self _ _)
      have hobjs := write_fresh_objs ctx.memblock_tab.objs
        (⟨p, ⟨addr, false⟩, ⟨some [s], some []⟩⟩ : kt_tab_memblock_t) hpfresh
      simp only [all_linked, kt_tab_t.write, List.map_cons, if_true, hobjs, List.flatten_cons,
        Option.getD_some, List.singleton_append]
      exact List.Perm.refl _
  | some b =>
    obtain ⟨hlock, l, hlist⟩ := hq b hfind
    rw [kt_memblock_add_sync_found thr addr s ctx b l hfind hlock hlist] at hrun
    simp only [Except.ok.injEq] at hrun
    subst hrun
    exact flatten_write_perm ctx.memblock_tab.objs b
      ⟨b.ptr, ⟨b.tab.key, false⟩, ⟨some (s :: l), b.body.lock_list⟩⟩ s l hp
      (find_mem _ _ _ hfind).1 hlist rfl rfl

theorem kt_memblock_add_sync_linked_once (thr : Nat) (addr : uptr_t) (s : kt_tab_sync_t)
    (ctx ctx' : kt_ctx_t) (hwf : ctx.memblock_tab.wf) (hq : quiet ctx addr)
    (honce : linked_once ctx) (hs : not_linked ctx s)
    (hrun : kt_memblock_add_sync thr addr s ctx = .ok ctx') :
    linked_once ctx' ∧ ∀ t : kt_tab_sync_t, t.ptr ≠ s.ptr → not_linked ctx t →
      not_linked ctx' t := by
  have hperm := kt_memblock_add_sync_all_linked thr addr s ctx ctx' hwf hq hrun
  constructor
  · unfold linked_once
    rw [(hperm.map (fun e => e.ptr)).nodup_iff, List.map_cons, List.nodup_cons]
    refine ⟨?_, honce⟩
    intro hmem
    obtain ⟨e, he, hep⟩ := List.mem_map.mp hmem
    exact hs e he hep
  · intro t hts ht e he
    rcases List.mem_cons.mp (hperm.mem_iff.mp he) with h | h
    · subst h
      exact Ne.symm hts
    · exact ht e h

theorem kt_memblock_add_syncs_linked_once (thr : Nat) (addr : uptr_t)
    (syncs : List kt_tab_sync_t) :
    ∀ (ctx ctx' : kt_ctx_t), ctx.memblock_tab.wf → quiet ctx addr → linked_once ctx →
      (syncs.map (fun s => s.ptr)).Nodup → (∀ s ∈ syncs, not_linked ctx s) →
      kt_memblock_add_syncs thr addr syncs ctx = .ok ctx' → linked_once ctx' := by
  induction syncs with
  | nil =>
    intro ctx ctx' _ _ honce _ _ hrun
    simp only [kt_memblock_add_syncs, Except.ok.injEq] at hrun
    subst hrun
    exact honce
  | cons s rest ih =>
    intro ctx ctx' hwf hq honce hnd hfresh hrun
    simp only [kt_memblock_add_syncs] at hrun
    cases h1 : kt_memblock_add_sync thr addr s ctx with
    | error f => simp [h1] at hrun
    | ok c1 =>
      simp only [h1] at hrun
      obtain ⟨hwf1, hq1, _, _⟩ := kt_memblock_add_sync_step thr addr s ctx c1 hwf hq h1
      obtain ⟨honce1, hkeep⟩ := kt_memblock_add_sync_linked_once thr addr s ctx c1 hwf hq
        honce (hfresh s (List.mem_cons_self _ _)) h1
      simp only [List.map_cons, List.nodup_cons] at hnd
      refine ih c1 ctx' hwf1 hq1 honce1 hnd.2 ?_ hrun
      intro t ht
      refine hkeep t ?_ (hfresh t (List.mem_cons_of_mem _ ht))
      intro hts
      exact hnd.1 (hts ▸ List.mem_map_of_mem (fun s => s.ptr) ht)

theorem kt_memblock_free_absent (thr pc : Nat) (addr : uptr_t) (size : Nat) (w : Bool)
    (ctx : kt_ctx_t) (habsent : ctx.memblock_tab.find addr = none) :
    kt_memblock_free thr pc addr size w ctx =
      .ok { ctx with log := ctx.log ++ free_shadow_moments thr pc addr size w ctx } := by
  have hacc : kt_tab_access ctx.memblock_tab addr false true =
      .ok ⟨none, false, ctx.memblock_tab⟩ := by
    simp [kt_tab_access, habsent]
  cases w
  · simp only [kt_memblock_free, Bool.false_eq_true, if_false, hacc]
    simp [free_shadow_moments]
  · simp only [kt_memblock_free, if_true]
    have h2 : kt_tab_access
        (ctx.called (.kt_access_range thr pc addr size false) none).memblock_tab addr false
        true = .ok ⟨none, false, ctx.memblock_tab⟩ := hacc
    rw [h2]
    simp [free_shadow_moments, kt_ctx_t.called]

theorem kt_tab_access_create {α : Type} [Inhabited α] (tab : kt_tab_t α) (key : uptr_t)
    (p : Nat) (rest : List Nat) (habsent : tab.find key = none)
    (hslot : tab.obj_cache.free = p :: rest) :
    kt_tab_access tab key true false =
      .ok ⟨some ⟨p, ⟨key, true⟩, default⟩, true,
        { objs := ⟨p, ⟨key, true⟩, default⟩ :: tab.objs, obj_cache := { free := rest } }⟩ := by
  simp [kt_tab_access, habsent, kt_cache_alloc, hslot]

theorem linked_of_absent (ctx : kt_ctx_t) (addr : uptr_t)
    (h : ctx.memblock_tab.find addr = none) : linked ctx addr = [] := by
  simp [linked, h]

/-- C7: start from a well-formed table in which nobody holds the block under `addr`
and every record is linked at most once, and let a run of `kt_memblock_add_sync`
calls on `addr` return, made for pairwise distinct records none of which is linked
in any block at the start (so each `list_add` of the run links a node that is not
linked). Every record is then still linked at most once, and every record of the
run is linked under `addr`. `kt_memblock_free(thr, pc, addr, size, w)`
returns and leaves no entry under `addr`. When a slot is free afterwards (there is
one as soon as the run linked a record), `kt_tab_access` reports a creation and
`kt_memblock_ensure_created(thr, addr)` returns a block whose `sync_list` and
`lock_list` are empty, so none of the records linked before the free is in it. -/
theorem kt_memblock_free_then_ensure_created (thr pc : Nat) (addr : uptr_t) (size : Nat)
    (w : Bool) (syncs : List kt_tab_sync_t) (ctx0 ctx1 : kt_ctx_t)
    (hwf : ctx0.memblock_tab.wf) (hq : quiet ctx0 addr) (honce : linked_once ctx0)
    (hdistinct : (syncs.map (fun s => s.ptr)).Nodup)
    (hfresh : ∀ s ∈ syncs, not_linked ctx0 s)
    (hrun : kt_memblock_add_syncs thr addr syncs ctx0 = .ok ctx1) :
    linked_once ctx1 ∧ (∀ s ∈ syncs, s ∈ linked ctx1 addr) ∧
    ∃ ctx2, kt_memblock_free thr pc addr size w ctx1 = .ok ctx2 ∧
      ctx2.memblock_tab.find addr = none ∧ linked ctx2 addr = [] ∧
      (syncs ≠ [] → ctx2.memblock_tab.obj_cache.free ≠ []) ∧
      (ctx2.memblock_tab.obj_cache.free ≠ [] →
        ∃ r mb ctx3, kt_tab_access ctx2.memblock_tab addr true false = .ok r ∧
          r.created = true ∧
          kt_memblock_ensure_created thr addr ctx2 = .ok (mb, ctx3) ∧
          mb.body.sync_list = some [] ∧ mb.body.lock_list = some [] ∧
          ctx3.memblock_tab.find addr = some mb ∧
          (∀ s ∈ syncs, s ∉ linked ctx3 addr) ∧
          ctx3.stat.memblock_alloc = ctx2.stat.memblock_alloc + 1) := by
  obtain ⟨hwf1, hq1, hex, hl⟩ := kt_memblock_add_syncs_run thr addr syncs ctx0 ctx1 hwf hq hrun
  have hcreate : ∀ ctx2 : kt_ctx_t, ctx2.memblock_tab.find addr = none →
      ctx2.memblock_tab.obj_cache.free ≠ [] →
      ∃ r mb ctx3, kt_tab_access ctx2.memblock_tab addr true false = .ok r ∧
        r.created = true ∧
        kt_memblock_ensure_created thr addr ctx2 = .ok (mb, ctx3) ∧
        mb.body.sync_list = some [] ∧ mb.body.lock_list = some [] ∧
        ctx3.memblock_tab.find addr = some mb ∧
        (∀ s ∈ syncs, s ∉ linked ctx3 addr) ∧
        ctx3.stat.memblock_alloc = ctx2.stat.memblock_alloc + 1 := by
    intro ctx2 habsent hne
    cases hslot : ctx2.memblock_tab.obj_cache.free with
    | nil => exact absurd hslot hne
    | cons p rest =>
      have hfind3 := fresh_write_find ctx2.memblock_tab.objs ⟨rest⟩ p addr
        ⟨p, ⟨addr, true⟩, default⟩ ⟨p, ⟨addr, true⟩, ⟨some [], some []⟩⟩ rfl rfl rfl
      refine ⟨_, _, _, kt_tab_access_create _ addr p rest habsent hslot, rfl,
        kt_memblock_ensure_created_fresh thr addr ctx2 p rest habsent hslot, rfl, rfl,
        hfind3, ?_, ?_⟩
      · intro s _
        simp [linked, hfind3]
      · simp [kt_stat_add]
  refine ⟨kt_memblock_add_syncs_linked_once thr addr syncs ctx0 ctx1 hwf hq honce hdistinct
    hfresh hrun, ?_, ?_⟩
  · intro s hs
    rw [hl]
    exact List.mem_append_left _ (List.mem_reverse.mpr hs)
  · cases hfind : ctx1.memblock_tab.find addr with
    | none =>
      refine ⟨_, kt_memblock_free_absent thr pc addr size w ctx1 hfind, hfind,
        linked_of_absent _ _ hfind, ?_, hcreate _ hfind⟩
      intro hne
      obtain ⟨b, hb⟩ := hex hne
      rw [hfind] at hb
      cases hb
    | some b =>
      obtain ⟨hlock, l, hlist⟩ := hq1 b hfind
      have hgone : (ctx1.memblock_tab.unlink addr).find addr = none :=
        unlink_find_same _ _ hwf1.2.1
      have hgone2 : (kt_tab_t.mk (ctx1.memblock_tab.unlink addr).objs
          (kt_cache_free ctx1.memblock_tab.obj_cache b.ptr)).find addr = none := hgone
      refine ⟨_, kt_memblock_free_tracked thr pc addr size w ctx1 b l hfind hlock hlist,
        hgone2, linked_of_absent _ _ hgone2, ?_, hcreate _ hgone2⟩
      intro _
      simp [kt_cache_free]

theorem ex_ctx1_run : kt_memblock_add_syncs 7 4096 [ex_sync3] ex_ctx = .ok ex_ctx1 := by
  rfl

/-- C7 at the concrete context: the record at 503 is not linked in `ex_ctx`; after
its `kt_memblock_add_sync` on the block under 4096 and the free of that block, the
block created next under 4096 has empty lists. -/
theorem kt_memblock_free_then_ensure_created_witness :
    linked_once ex_ctx1 ∧ (∀ s ∈ [ex_sync3], s ∈ linked ex_ctx1 4096) ∧
    ∃ ctx2, kt_memblock_free 7 0 4096 64 true ex_ctx1 = .ok ctx2 ∧
      ctx2.memblock_tab.find 4096 = none ∧ linked ctx2 4096 = [] ∧
      ([ex_sync3] ≠ [] → ctx2.memblock_tab.obj_cache.free ≠ []) ∧
      (ctx2.memblock_tab.obj_cache.free ≠ [] →
        ∃ r mb ctx3, kt_tab_access ctx2.memblock_tab 4096 true false = .ok r ∧
          r.created = true ∧
          kt_memblock_ensure_created 7 4096 ctx2 = .ok (mb, ctx3) ∧
          mb.body.sync_list = some [] ∧ mb.body.lock_list = some [] ∧
          ctx3.memblock_tab.find 4096 = some mb ∧
          (∀ s ∈ [ex_sync3], s ∉ linked ctx3 4096) ∧
          ctx3.stat.memblock_alloc = ctx2.stat.memblock_alloc + 1) :=
  kt_memblock_free_then_ensure_created 7 0 4096 64 true [ex_sync3] ex_ctx ex_ctx1
    ex_ctx_wf ex_ctx_quiet (by decide) (by decide) (by decide) ex_ctx1_run

/-! ## C8 -/

theorem find_ptr_ne {α : Type} (tab : kt_tab_t α) (k k2 : uptr_t) (o o2 : kt_obj α)
    (hp : (tab.objs.map (fun x => x.ptr)).Nodup) (hne : k2 ≠ k)
    (h1 : tab.find k = some o) (h2 : tab.find k2 = some o2) : o.ptr ≠ o2.ptr := by
  obtain ⟨hm1, hk1⟩ := find_mem _ _ _ h1
  obtain ⟨hm2, hk2⟩ := find_mem _ _ _ h2
  intro heq
  have : o = o2 := List.inj_on_of_nodup_map hp hm1 hm2 heq
  subst this
  exact hne (hk2.symm.trans hk1)

theorem create_find_other {α : Type} (tab : kt_tab_t α) (cache : kt_cache_t) (k k2 : uptr_t)
    (obj : kt_obj α) (hk : obj.tab.key = k) (hne : k2 ≠ k) :
    (kt_tab_t.mk (obj :: tab.objs) cache).find k2 = tab.find k2 := by
  have : ¬ obj.tab.key = k2 := fun h => hne (h.symm.trans hk)
  simp [kt_tab_t.find, List.find?_cons, this]

/-- C8: `kt_tab_access(tab, k, created, false)` on a well-formed table. (1) With `k`
absent, a non-NULL `created` and a slot to allocate, it returns a non-NULL locked
entry with `created = true`, stored under `k`, whose slot differs from the slot of
every entry already in the table (whatever their keys, colliding or not); the
entries of the other keys stay where they were; and after that entry is unlocked,
a further access to `k` returns the same slot with `created = false`. (2) With `k`
present and unlocked it returns the entry stored under `k`, the same instance, with
`created = false`, and entries of different keys are different instances. (3) With
a NULL `created` and `k` absent it returns NULL and the table is unchanged. -/
theorem kt_tab_access_contract {α : Type} [Inhabited α] (tab : kt_tab_t α) (k : uptr_t)
    (hwf : tab.wf) :
    (∀ p rest, tab.find k = none → tab.obj_cache.free = p :: rest →
      ∃ obj tab1, kt_tab_access tab k true false = .ok ⟨some obj, true, tab1⟩ ∧
        obj.tab.key = k ∧ kt_spin_is_locked obj = true ∧
        (∀ o ∈ tab.objs, o.ptr ≠ obj.ptr) ∧
        tab1.find k = some obj ∧ (∀ k2, k2 ≠ k → tab1.find k2 = tab.find k2) ∧
        ∀ c, ∃ obj2 tab2,
          kt_tab_access (tab1.write (kt_spin_unlock obj)) k c false =
            .ok ⟨some obj2, false, tab2⟩ ∧ obj2.ptr = obj.ptr) ∧
    (∀ o c, tab.find k = some o → o.tab.lock = false →
      ∃ obj tab1, kt_tab_access tab k c false = .ok ⟨some obj, false, tab1⟩ ∧
        obj.ptr = o.ptr ∧ obj.tab.key = k ∧ kt_spin_is_locked obj = true ∧
        tab1.find k = some obj ∧
        tab1.objs.map (fun x => x.ptr) = tab.objs.map (fun x => x.ptr) ∧
        ∀ k2 o2, k2 ≠ k → tab.find k2 = some o2 → o2.ptr ≠ o.ptr) ∧
    (tab.find k = none → kt_tab_access tab k false false = .ok ⟨none, false, tab⟩) := by
  obtain ⟨hp, hk, hf, hdisj⟩ := hwf
  refine ⟨?_, ?_, ?_⟩
  · intro p rest habsent hslot
    refine ⟨_, _, kt_tab_access_create tab k p rest habsent hslot, rfl, rfl, ?_, ?_, ?_, ?_⟩
    · intro o ho heq
      exact hdisj p (by rw [hslot]; exact List.mem_cons_self _ _)
        (List.mem_map.mpr ⟨o, ho, heq⟩)
    · simp [kt_tab_t.find]
    · intro k2 hne
      exact create_find_other tab _ k k2 _ rfl hne
    · intro c
      have hfind1 : (kt_tab_t.write
          { objs := (⟨p, ⟨k, true⟩, default⟩ : kt_obj α) :: tab.objs, obj_cache := { free := rest } }
          (kt_spin_unlock ⟨p, ⟨k, true⟩, default⟩)).find k =
          some ⟨p, ⟨k, false⟩, default⟩ := by
        simp [kt_tab_t.write, kt_tab_t.find, kt_spin_unlock]
      exact ⟨_, _, kt_tab_access_found _ k c _ hfind1 rfl, rfl⟩
  · intro o c hfind hlock
    have hok := (find_mem _ _ _ hfind).2
    refine ⟨_, _, kt_tab_access_found tab k c o hfind hlock, rfl, hok,
      rfl, write_find_same tab k o _ hfind rfl hok, write_ptrs _ _, ?_⟩
    intro k2 o2 hne h2
    exact (find_ptr_ne tab k k2 o o2 hp hne hfind h2).symm
  · intro habsent
    exact kt_tab_access_lookup_absent tab k false habsent

theorem ex_test_tab_wf : ex_test_tab.wf := by
  unfold kt_tab_t.wf
  decide

/-- C8 at the test table holding key 7: key 20 is created in another slot, key 7 is
found in its own slot, a lookup of key 4 returns NULL. -/
theorem kt_tab_access_contract_witness :
    (∃ obj tab1, kt_tab_access ex_test_tab 20 true false = .ok ⟨some obj, true, tab1⟩ ∧
        obj.tab.key = 20 ∧ kt_spin_is_locked obj = true ∧
        (∀ o ∈ ex_test_tab.objs, o.ptr ≠ obj.ptr) ∧
        tab1.find 20 = some obj ∧ (∀ k2, k2 ≠ 20 → tab1.find k2 = ex_test_tab.find k2) ∧
        ∀ c, ∃ obj2 tab2,
          kt_tab_access (tab1.write (kt_spin_unlock obj)) 20 c false =
            .ok ⟨some obj2, false, tab2⟩ ∧ obj2.ptr = obj.ptr) ∧
    (∃ obj tab1, kt_tab_access ex_test_tab 7 true false = .ok ⟨some obj, false, tab1⟩ ∧
        obj.ptr = 1 ∧ obj.tab.key = 7 ∧ kt_spin_is_locked obj = true ∧
        tab1.find 7 = some obj ∧
        tab1.objs.map (fun x => x.ptr) = ex_test_tab.objs.map (fun x => x.ptr) ∧
        ∀ k2 o2, k2 ≠ 7 → ex_test_tab.find k2 = some o2 → o2.ptr ≠ 1) ∧
    kt_tab_access ex_test_tab 4 false false = .ok ⟨none, false, ex_test_tab⟩ :=
  ⟨(kt_tab_access_contract ex_test_tab 20 ex_test_tab_wf).1 2 [3] (by decide) (by decide),
    (kt_tab_access_contract ex_test_tab 7 ex_test_tab_wf).2.1 ⟨1, ⟨7, false⟩, ()⟩ true
      (by decide) (by decide),
    (kt_tab_access_contract ex_test_tab 4 ex_test_tab_wf).2.2 (by decide)⟩

/-- The hash table test runs to its end, no `BUG_ON` fires, on every empty test table
whose cache has three different free slots; the three slots are free again at the
end. -/
theorem kt_test_hash_table_passes (p1 p2 p3 : Nat) (rest : List Nat)
    (h12 : p1 ≠ p2) (h13 : p1 ≠ p3) (h23 : p2 ≠ p3) :
    kt_test_hash_table { objs := [], obj_cache := { free := p1 :: p2 :: p3 :: rest } } =
      .ok { objs := [], obj_cache := { free := p1 :: p2 :: p3 :: rest } } := by
  have h21 := h12.symm
  have h31 := h13.symm
  have h32 := h23.symm
  simp [kt_test_hash_table, kt_tab_access, kt_tab_t.find, kt_tab_t.write, kt_tab_t.unlink,
    kt_cache_alloc, kt_cache_free, kt_spin_unlock, kt_spin_is_locked, BUG_ON, deref, ptr_of,
    bind, Except.bind, pure, Except.pure, List.find?_cons, List.eraseP_cons,
    h12, h13, h23, h21, h31, h32]

/-! ## C9 -/

theorem access_keeps_absent {α : Type} [Inhabited α] (tab : kt_tab_t α) (k k2 : uptr_t)
    (c d : Bool) (r : kt_tab_access_ret α) (hne : k2 ≠ k) (habsent : tab.find k = none)
    (hacc : kt_tab_access tab k2 c d = .ok r) : r.tab.find k = none := by
  have hall := (find_none_iff tab k).mp habsent
  unfold kt_tab_access at hacc
  cases hfind : tab.find k2 with
  | some o =>
    simp only [hfind] at hacc
    cases hlock : o.tab.lock with
    | true => simp [hlock] at hacc
    | false =>
      simp only [hlock, Bool.false_eq_true, if_false] at hacc
      cases d with
      | true =>
        simp only [if_true, Except.ok.injEq] at hacc
        subst hacc
        rw [unlink_find_other tab k2 k (Ne.symm hne)]
        exact habsent
      | false =>
        simp only [Bool.false_eq_true, if_false, Except.ok.injEq] at hacc
        subst hacc
        rw [find_none_iff]
        intro x hx
        simp only [kt_tab_t.write, List.mem_map] at hx
        obtain ⟨y, hy, hxy⟩ := hx
        by_cases hyp : y.ptr = o.ptr
        · simp only [hyp, if_true] at hxy
          subst hxy
          simp only
          rw [(find_mem _ _ _ hfind).2]
          exact hne
        · simp only [hyp, if_false] at hxy
          subst hxy
          exact hall y hy
  | none =>
    simp only [hfind] at hacc
    cases hcd : (c && !d) with
    | false =>
      simp only [hcd, Bool.false_eq_true, if_false, Except.ok.injEq] at hacc
      subst hacc
      exact habsent
    | true =>
      simp only [hcd, if_true] at hacc
      cases hslot : kt_cache_alloc tab.obj_cache with
      | none =>
        simp only [hslot, Except.ok.injEq] at hacc
        subst hacc
        exact habsent
      | some pc =>
        obtain ⟨p, cache⟩ := pc
        simp only [hslot, Except.ok.injEq] at hacc
        subst hacc
        rw [create_find_other tab cache k2 k _ rfl (Ne.symm hne)]
        exact habsent

/-- C9: on a well-formed table with an unlocked entry `o` under `k`,
`kt_tab_access(tab, k, NULL, true)` returns that entry, the same instance, non-NULL
and locked, and takes it out of the index: no entry is left under `k` and no indexed
entry sits in its slot, while every other key still leads to the very entry it led
to before. From then on a lookup `kt_tab_access(_, k, NULL, false)` returns NULL and
changes nothing, and no access to another key brings `k` back: `k` stays absent
until an access creates it again, which any creating access with a free slot does. -/
theorem kt_tab_access_destroy_contract {α : Type} [Inhabited α] (tab : kt_tab_t α)
    (k : uptr_t) (o : kt_obj α) (hwf : tab.wf) (hfind : tab.find k = some o)
    (hlock : o.tab.lock = false) :
    ∃ obj tab1, kt_tab_access tab k false true = .ok ⟨some obj, false, tab1⟩ ∧
      obj.ptr = o.ptr ∧ obj.tab.key = k ∧ obj.body = o.body ∧ kt_spin_is_locked obj = true ∧
      tab1.find k = none ∧ (∀ x ∈ tab1.objs, x.ptr ≠ o.ptr) ∧
      tab1.objs.length + 1 = tab.objs.length ∧
      (∀ k2, k2 ≠ k → tab1.find k2 = tab.find k2) ∧
      (∀ tab2 : kt_tab_t α, tab2.find k = none →
        kt_tab_access tab2 k false false = .ok ⟨none, false, tab2⟩ ∧
        (∀ k2 c d r, k2 ≠ k → kt_tab_access tab2 k2 c d = .ok r → r.tab.find k = none) ∧
        (∀ p rest, tab2.obj_cache.free = p :: rest →
          ∃ obj2 tab3, kt_tab_access tab2 k true false = .ok ⟨some obj2, true, tab3⟩ ∧
            tab3.find k = some obj2)) := by
  obtain ⟨hp, hk, _, _⟩ := hwf
  have hok := (find_mem _ _ _ hfind).2
  refine ⟨_, _, kt_tab_access_destroy_found tab k false o hfind hlock, rfl, hok, rfl, rfl,
    unlink_find_same tab k hk, unlink_ptr_gone tab k o hp hfind, ?_,
    fun k2 hne => unlink_find_other tab k k2 hne, ?_⟩
  · have hmem := (find_mem _ _ _ hfind).1
    have hlen := List.length_eraseP_of_mem (p := fun x => decide (x.tab.key = k)) hmem
      (by simpa using hok)
    have hpos : 0 < tab.objs.length := List.length_pos_of_mem hmem
    simp only [kt_tab_t.unlink, hlen]
    omega
  · intro tab2 habsent
    refine ⟨kt_tab_access_lookup_absent tab2 k false habsent, ?_, ?_⟩
    · intro k2 c d r hne hacc
      exact access_keeps_absent tab2 k k2 c d r hne habsent hacc
    · intro p rest hslot
      exact ⟨_, _, kt_tab_access_create tab2 k p rest habsent hslot, by simp [kt_tab_t.find]⟩

theorem ex_test_tab3_wf : ex_test_tab3.wf := by
  unfold kt_tab_t.wf
  decide

/-- C9 at the test table holding 3, 20 and 7: destroying key 20 returns slot 2. -/
theorem kt_tab_access_destroy_contract_witness :
    ∃ obj tab1, kt_tab_access ex_test_tab3 20 false true = .ok ⟨some obj, false, tab1⟩ ∧
      obj.ptr = 2 ∧ obj.tab.key = 20 ∧ obj.body = () ∧ kt_spin_is_locked obj = true ∧
      tab1.find 20 = none ∧ (∀ x ∈ tab1.objs, x.ptr ≠ 2) ∧
      tab1.objs.length + 1 = ex_test_tab3.objs.length ∧
      (∀ k2, k2 ≠ 20 → tab1.find k2 = ex_test_tab3.find k2) ∧
      (∀ tab2 : kt_tab_t Unit, tab2.find 20 = none →
        kt_tab_access tab2 20 false false = .ok ⟨none, false, tab2⟩ ∧
        (∀ k2 c d r, k2 ≠ 20 → kt_tab_access tab2 k2 c d = .ok r → r.tab.find 20 = none) ∧
        (∀ p rest, tab2.obj_cache.free = p :: rest →
          ∃ obj2 tab3, kt_tab_access tab2 20 true false = .ok ⟨some obj2, true, tab3⟩ ∧
            tab3.find 20 = some obj2)) :=
  kt_tab_access_destroy_contract ex_test_tab3 20 ⟨2, ⟨20, false⟩, ()⟩ ex_test_tab3_wf
    (by decide) (by decide)

theorem fls_spec (x : Nat) (hx : x < 2 ^ 32) : x < 2 ^ fls x ∧ fls x ≤ 32 ∧ (0 < fls x → 2 ^ (fls x - 1) ≤ x) := by
  refine ⟨Nat.lt_size_self x, Nat.size_le.mpr hx, ?_⟩
  intro h
  have : fls x - 1 < Nat.size x := by unfold fls at h ⊢; omega
  exact Nat.lt_size.mp this

theorem gm_core (a d l : Nat) (ha : a < 2 ^ 32) (hd : 0 < d) (hdl : d ≤ 2 ^ l) :
    a * (2 ^ (32 + l) / d + 1) / 2 ^ (32 + l) = a / d := by
  have hN : 2 ^ (32 + l) = 2 ^ 32 * 2 ^ l := pow_add 2 32 l
  generalize 2 ^ (32 + l) = N at hN ⊢
  have hmd : N / d * d + N % d = N := Nat.div_add_mod' N d
  have hr : N % d < d := Nat.mod_lt _ hd
  have had : a / d * d + a % d = a := Nat.div_add_mod' a d
  have har : a % d < d := Nat.mod_lt _ hd
  have hl : 0 < 2 ^ l := Nat.two_pow_pos l
  have haN : a * d < N := by
    rw [hN]
    calc a * d ≤ a * 2 ^ l := Nat.mul_le_mul_left _ hdl
      _ < 2 ^ 32 * 2 ^ l := Nat.mul_lt_mul_of_pos_right ha hl
  apply Nat.div_eq_of_lt_le
  · -- (a / d) * N ≤ a * M
    have h1 : N ≤ (N / d + 1) * d := by nlinarith
    calc a / d * N ≤ a / d * ((N / d + 1) * d) := Nat.mul_le_mul_left _ h1
      _ = (a / d * d) * (N / d + 1) := by ring
      _ ≤ a * (N / d + 1) := Nat.mul_le_mul_right _ (by omega)
  · -- a * M < (a / d + 1) * N
    have h2 : a * (N / d + 1) * d < (a / d + 1) * N * d := by
      have e1 : a * (N / d + 1) * d = a * (N / d * d) + a * d := by ring
      have e2 : (a / d + 1) * N * d = (a / d * d + d) * N := by ring
      rw [e1, e2]
      have h3 : a * (N / d * d) ≤ a * N := Nat.mul_le_mul_left _ (by omega)
      have h4 : (a + 1) * N ≤ (a / d * d + d) * N := Nat.mul_le_mul_right _ (by omega)
      nlinarith
    exact Nat.lt_of_mul_lt_mul_right h2

theorem two_mul_two_pow_pred (l : Nat) (h : 0 < l) : 2 * 2 ^ (l - 1) = 2 ^ l := by
  obtain ⟨k, rfl⟩ : ∃ k, l = k + 1 := ⟨l - 1, by omega⟩
  rw [Nat.add_sub_cancel, pow_succ, Nat.mul_comm]

theorem reciprocal_value_of_eq (d : Nat) (hd : 0 < d) (hd32 : d < 2 ^ 32) :
    ∃ l m, reciprocal_value_of d = ⟨m, min l 1, l - 1⟩ ∧ d ≤ 2 ^ l ∧ l ≤ 32 ∧
      (l = 0 → d = 1) ∧ m < 2 ^ 32 ∧ 2 ^ 32 + m = 2 ^ (32 + l) / d + 1 := by
  have hx : (d + 2 ^ 32 - 1) % 2 ^ 32 = d - 1 := by omega
  obtain ⟨h1, h2, h3⟩ := fls_spec (d - 1) (by omega)
  generalize hl : fls (d - 1) = l at h1 h2 h3
  have hdl : d ≤ 2 ^ l := by omega
  have hl32 : 2 ^ l ≤ 2 ^ 32 := Nat.pow_le_pow_right (by norm_num) h2
  have h64 : (2:ℕ) ^ 64 = 2 ^ 32 * 2 ^ 32 := by norm_num
  have hsub : (2 ^ l + 2 ^ 64 - d) % 2 ^ 64 = 2 ^ l - d := by omega
  have hhalf : 2 ^ l - d ≤ d - 1 := by
    rcases Nat.eq_zero_or_pos l with h0 | hpos
    · subst h0
      simp
      omega
    · have := h3 hpos
      have hpow := two_mul_two_pow_pred l hpos
      omega
  have hprod : 2 ^ 32 * (2 ^ l - d) < (2 ^ 32 - 1) * d := by
    have : 2 ^ 32 * (2 ^ l - d) ≤ 2 ^ 32 * (d - 1) := Nat.mul_le_mul_left _ hhalf
    have e : 2 ^ 32 * (d - 1) + 2 ^ 32 = 2 ^ 32 * d := by
      have : d - 1 + 1 = d := by omega
      calc 2 ^ 32 * (d - 1) + 2 ^ 32 = 2 ^ 32 * (d - 1 + 1) := by ring
        _ = 2 ^ 32 * d := by rw [this]
    have e2 : (2 ^ 32 - 1) * d + d = 2 ^ 32 * d := by
      have : (2:ℕ) ^ 32 - 1 + 1 = 2 ^ 32 := by norm_num
      calc (2 ^ 32 - 1) * d + d = (2 ^ 32 - 1 + 1) * d := by ring
        _ = 2 ^ 32 * d := by rw [this]
    omega
  have hm0 : 2 ^ 32 * (2 ^ l - d) / d < 2 ^ 32 - 1 :=
    (Nat.div_lt_iff_lt_mul hd).mpr hprod
  have hlt64 : 2 ^ 32 * (2 ^ l - d) < 2 ^ 64 := by
    have : (2 ^ 32 - 1) * d < 2 ^ 32 * 2 ^ 32 :=
      Nat.mul_lt_mul'' (by norm_num) hd32
    omega
  refine ⟨l, 2 ^ 32 * (2 ^ l - d) / d + 1, ?_, hdl, h2, ?_, by omega, ?_⟩
  · unfold reciprocal_value_of
    simp only [hx, hl, hsub]
    rw [Nat.mod_eq_of_lt hlt64, Nat.mod_eq_of_lt (by omega : 2 ^ 32 * (2 ^ l - d) / d + 1 < 2 ^ 64),
      Nat.mod_eq_of_lt (by omega : 2 ^ 32 * (2 ^ l - d) / d + 1 < 2 ^ 32)]
    simp
  · intro h0
    subst h0
    simp at hdl
    omega
  · have hsplit : 2 ^ (32 + l) = 2 ^ 32 * (2 ^ l - d) + 2 ^ 32 * d := by
      have hsum : 2 ^ l - d + d = 2 ^ l := by omega
      rw [pow_add, ← Nat.mul_add, hsum]
    rw [hsplit, Nat.add_mul_div_right _ _ hd]
    omega

theorem reciprocal_divide_exact (a d : Nat) (ha : a < 2 ^ 32) (hd : 0 < d)
    (hd32 : d < 2 ^ 32) : reciprocal_divide a (reciprocal_value_of d) = a / d := by
  obtain ⟨l, m, hR, hdl, hl32, hl0, hm, hM⟩ := reciprocal_value_of_eq d hd hd32
  rw [hR]
  unfold reciprocal_divide
  simp only
  have hpos : (0:ℕ) < 2 ^ 32 := by norm_num
  have ht : a * m / 2 ^ 32 ≤ a := by
    apply Nat.div_le_of_le_mul
    calc a * m ≤ a * 2 ^ 32 := Nat.mul_le_mul_left _ hm.le
      _ = 2 ^ 32 * a := Nat.mul_comm _ _
  generalize htdef : a * m / 2 ^ 32 = t at ht
  have htm : t % 2 ^ 32 = t := Nat.mod_eq_of_lt (by omega)
  have hsub : (a + 2 ^ 32 - t) % 2 ^ 32 = a - t := by omega
  rw [htm, hsub]
  have hdivle : (a - t) / 2 ^ min l 1 ≤ a - t := Nat.div_le_self _ _
  rw [Nat.mod_eq_of_lt (by omega : t + (a - t) / 2 ^ min l 1 < 2 ^ 32)]
  rcases Nat.eq_zero_or_pos l with h0 | hlpos
  · have hd1 := hl0 h0
    subst h0
    subst hd1
    simp
    omega
  · have hmin : min l 1 = 1 := by omega
    rw [hmin]
    have hhalf : t + (a - t) / 2 ^ 1 = (a + t) / 2 := by omega
    rw [hhalf, Nat.div_div_eq_div_mul]
    rw [two_mul_two_pow_pred l hlpos]
    have hat : a + t = a * (2 ^ 32 + m) / 2 ^ 32 := by
      rw [← htdef, Nat.mul_add, Nat.add_comm (a * 2 ^ 32), Nat.add_mul_div_right _ _ hpos,
        Nat.add_comm]
    rw [hat, Nat.div_div_eq_div_mul, ← pow_add, hM]
    exact gm_core a d l ha hd hdl

/-! ## C10 -/

/-- C10: `kt_memblock_addr(addr)`. (1) For a valid address whose head page is a slab
page with object area start `s_mem` and per-object size `sz > 0` (an `unsigned int`,
with `reciprocal_buffer_size` the reciprocal of `sz`), `addr >= s_mem` and the
offset `addr - s_mem` inside the slab (it fits the `u32` it is stored in), the call
returns `s_mem + sz * ((addr - s_mem) / sz)`, the base of the object holding `addr`:
`result <= addr < result + sz` and `sz` divides `result - s_mem`. (2) An address
that is not valid yields 0. (3) On a slab page `addr < s_mem` ends in `BUG`. (4) On
a page that is not a slab page the page address is returned. (5) The result
depends only on `addr` and the page data found for it. -/
theorem kt_memblock_addr_object_base (mm : Nat → Option page) (addr : Nat) :
    (∀ pg, mm addr = some pg → pg.slab = true → pg.s_mem ≤ addr → addr < 2 ^ 64 →
      addr - pg.s_mem < 2 ^ 32 → 0 < pg.slab_cache.size → pg.slab_cache.size < 2 ^ 32 →
      pg.slab_cache.reciprocal_buffer_size = reciprocal_value_of pg.slab_cache.size →
      ∃ result, kt_memblock_addr mm addr = .ok result ∧
        result = pg.s_mem + pg.slab_cache.size * ((addr - pg.s_mem) / pg.slab_cache.size) ∧
        result ≤ addr ∧ addr < result + pg.slab_cache.size ∧
        pg.slab_cache.size ∣ (result - pg.s_mem)) ∧
    (mm addr = none → kt_memblock_addr mm addr = .ok 0) ∧
    (∀ pg, mm addr = some pg → pg.slab = true → addr < pg.s_mem →
      kt_memblock_addr mm addr = .error .BUG) ∧
    (∀ pg, mm addr = some pg → pg.slab = false →
      kt_memblock_addr mm addr = .ok pg.address) ∧
    (∀ mm2 : Nat → Option page, mm2 addr = mm addr →
      kt_memblock_addr mm2 addr = kt_memblock_addr mm addr) := by
  refine ⟨?_, ?_, ?_, ?_, ?_⟩
  · intro pg hpg hslab hge h64 hoff hsz hsz32 hrecip
    have hq : pg.slab_cache.size * ((addr - pg.s_mem) / pg.slab_cache.size) ≤
        addr - pg.s_mem := Nat.mul_div_le _ _
    have hr : addr - pg.s_mem <
        pg.slab_cache.size * ((addr - pg.s_mem) / pg.slab_cache.size) + pg.slab_cache.size :=
      Nat.lt_mul_div_succ _ hsz
    generalize hqdef : pg.slab_cache.size * ((addr - pg.s_mem) / pg.slab_cache.size) = q
      at hq hr
    refine ⟨pg.s_mem + q, ?_, rfl, by omega, by omega, ?_⟩
    · have hnlt : ¬ addr < pg.s_mem := by omega
      simp only [kt_memblock_addr, hpg, hslab, if_true, hnlt, if_false, hrecip,
        Nat.mod_eq_of_lt hoff, reciprocal_divide_exact _ _ hoff hsz hsz32]
      rw [hqdef, Nat.mod_eq_of_lt (by omega : q < 2 ^ 32),
        Nat.mod_eq_of_lt (by omega : pg.s_mem + q < 2 ^ 64)]
    · rw [Nat.add_sub_cancel_left, ← hqdef]
      exact Nat.dvd_mul_right _ _
  · intro hnone
    simp [kt_memblock_addr, hnone]
  · intro pg hpg hslab hlt
    simp [kt_memblock_addr, hpg, hslab, hlt]
  · intro pg hpg hslab
    simp [kt_memblock_addr, hpg, hslab]
  · intro mm2 h
    simp [kt_memblock_addr, h]

/-- C10 at a concrete slab page: the address 4360 lies in the second object, whose
base 4352 is returned; it is not the page base 4096. -/
theorem kt_memblock_addr_object_base_witness :
    (∃ result, kt_memblock_addr ex_mm 4360 = .ok result ∧
        result = ex_page.s_mem + ex_page.slab_cache.size *
          ((4360 - ex_page.s_mem) / ex_page.slab_cache.size) ∧
        result ≤ 4360 ∧ 4360 < result + ex_page.slab_cache.size ∧
        ex_page.slab_cache.size ∣ (result - ex_page.s_mem)) ∧
    ex_page.s_mem + ex_page.slab_cache.size *
      ((4360 - ex_page.s_mem) / ex_page.slab_cache.size) = 4352 ∧
    (4352 : Nat) ≠ ex_page.address ∧
    kt_memblock_addr ex_mm 100 = .ok 0 ∧
    kt_memblock_addr ex_mm 4100 = .error .BUG :=
  ⟨(kt_memblock_addr_object_base ex_mm 4360).1 ex_page (by simp [ex_mm]) (by decide) (by decide)
      (by norm_num) (by norm_num [ex_page]) (by decide) (by norm_num [ex_page, ex_cache])
      (by simp only [ex_page, ex_cache]),
    by decide, by decide,
    (kt_memblock_addr_object_base ex_mm 100).2.1 (by decide),
    (kt_memblock_addr_object_base ex_mm 4100).2.2.1 ex_page (by simp [ex_mm]) (by decide)
      (by decide)⟩

/-! ## Well-formedness is kept by the calls -/

theorem kt_ctx_init_wf (slots : List Nat) (h : slots.Nodup) :
    (kt_ctx_init slots).memblock_tab.wf := by
  simp [kt_tab_t.wf, kt_ctx_init, h]

theorem unlink_sublist {α : Type} (tab : kt_tab_t α) (key : uptr_t) :
    (tab.unlink key).objs.Sublist tab.objs :=
  List.eraseP_sublist _

theorem kt_memblock_free_wf (thr pc : Nat) (addr : uptr_t) (size : Nat) (w : Bool)
    (ctx ctx' : kt_ctx_t) (hwf : ctx.memblock_tab.wf)
    (hrun : kt_memblock_free thr pc addr size w ctx = .ok ctx') : ctx'.memblock_tab.wf := by
  cases hfind : ctx.memblock_tab.find addr with
  | none =>
    rw [kt_memblock_free_absent thr pc addr size w ctx hfind] at hrun
    simp only [Except.ok.injEq] at hrun
    subst hrun
    exact hwf
  | some b =>
    cases hlock : b.tab.lock with
    | true =>
      have hacc := kt_tab_access_locked ctx.memblock_tab addr false true b hfind hlock
      cases w
      · simp [kt_memblock_free, hacc] at hrun
      · have hacc2 : kt_tab_access
            (ctx.called (.kt_access_range thr pc addr size false) none).memblock_tab addr
            false true = .error .spin := hacc
        simp [kt_memblock_free, hacc2] at hrun
    | false =>
      cases hlist : b.body.sync_list with
      | none =>
        have hacc := kt_tab_access_destroy_found ctx.memblock_tab addr false b hfind hlock
        cases w
        · simp [kt_memblock_free, hacc, hlist] at hrun
        · have hacc2 : kt_tab_access
              (ctx.called (.kt_access_range thr pc addr size false) none).memblock_tab addr
              false true = _ := hacc
          simp [kt_memblock_free, hacc2, hlist] at hrun
      | some l =>
        rw [kt_memblock_free_tracked thr pc addr size w ctx b l hfind hlock hlist] at hrun
        simp only [Except.ok.injEq] at hrun
        subst hrun
        obtain ⟨hp, hk, hf, hdisj⟩ := hwf
        have hsub := unlink_sublist ctx.memblock_tab addr
        have hbmem : b.ptr ∈ ctx.memblock_tab.objs.map (fun o => o.ptr) :=
          List.mem_map.mpr ⟨b, (find_mem _ _ _ hfind).1, rfl⟩
        refine ⟨(hsub.map _).nodup hp, (hsub.map _).nodup hk, ?_, ?_⟩
        · simp only [kt_cache_free, List.nodup_cons]
          exact ⟨fun hmem => hdisj _ hmem hbmem, hf⟩
        · intro q hq
          simp only [kt_cache_free, List.mem_cons] at hq
          rcases hq with rfl | hq
          · intro hmem
            obtain ⟨o, ho, hoq⟩ := List.mem_map.mp hmem
            exact unlink_ptr_gone _ _ _ hp hfind o ho hoq
          · intro hmem
            exact hdisj q hq ((hsub.map _).subset hmem)

theorem kt_memblock_remove_sync_wf (thr : Nat) (addr : uptr_t) (sync : kt_tab_sync_t)
    (ctx ctx' : kt_ctx_t) (hwf : ctx.memblock_tab.wf)
    (hrun : kt_memblock_remove_sync thr addr sync ctx = .ok ctx') :
    ctx'.memblock_tab.wf ∧ ctx'.stat = ctx.stat ∧ ctx'.log = ctx.log ∧
      ctx'.memblock_tab.objs.map (fun o => o.tab.key) =
        ctx.memblock_tab.objs.map (fun o => o.tab.key) := by
  cases hfind : ctx.memblock_tab.find addr with
  | none =>
    simp [kt_memblock_remove_sync, kt_tab_access_lookup_absent _ _ _ hfind] at hrun
  | some b =>
    cases hlock : b.tab.lock with
    | true =>
      simp [kt_memblock_remove_sync, kt_tab_access_locked _ _ _ _ _ hfind hlock] at hrun
    | false =>
      cases hlist : b.body.sync_list with
      | none =>
        simp [kt_memblock_remove_sync, kt_tab_access_found _ _ _ _ hfind hlock, hlist] at hrun
      | some l =>
        rw [kt_memblock_remove_sync_found thr addr sync ctx b l hfind hlock hlist] at hrun
        cases hf : l.find? (fun entry => decide (entry.ptr = sync.ptr)) with
        | none => simp [hf] at hrun
        | some entry =>
          simp only [hf, Except.ok.injEq] at hrun
          subst hrun
          obtain ⟨hp, hk, hfr, hdisj⟩ := hwf
          have hbk := (find_mem _ _ _ hfind).2
          have hkeys := write_keys ctx.memblock_tab addr b
            ⟨b.ptr, ⟨b.tab.key, false⟩, ⟨some (list_del_init entry l), b.body.lock_list⟩⟩
            hp hfind rfl hbk
          refine ⟨⟨?_, ?_, hfr, ?_⟩, rfl, rfl, hkeys⟩
          · rw [write_ptrs]
            exact hp
          · simp only [hkeys]
            exact hk
          · intro q hq
            rw [write_ptrs]
            exact hdisj q hq

/-! ## C11 -/

theorem ex_ctx1_add_sync : kt_memblock_add_sync 7 4096 ex_sync3 ex_ctx = .ok ex_ctx1 := by
  rfl

/-- C11, as stated, fails: in `ex_ctx` the block under 4096 holds the records 502, 501;
after `kt_memblock_add_sync(7, 4096, ex_sync3)` its list is 503, 502, 501, which is
not the old list followed by 503. -/
theorem kt_memblock_add_sync_appends_counterexample :
    kt_memblock_add_sync 7 4096 ex_sync3 ex_ctx = .ok ex_ctx1 ∧
      linked ex_ctx 4096 = [ex_sync2, ex_sync1] ∧
      linked ex_ctx1 4096 = [ex_sync3, ex_sync2, ex_sync1] ∧
      linked ex_ctx1 4096 ≠ linked ex_ctx 4096 ++ [ex_sync3] := by
  refine ⟨ex_ctx1_add_sync, by decide, by decide, by decide⟩

/-- C11, amended: `kt_memblock_add_sync` prepends. For an unlocked block under `addr`
whose `sync_list` is the sequence `L` (from the list head on) and a record `sync`
that is not in `L`, the call returns and the block's `sync_list` is `sync`
followed by `L`: `sync` is the first element traversed, and the list is `L`
followed by `sync` only when `L` is empty. -/
theorem kt_memblock_add_sync_prepends (thr : Nat) (addr : uptr_t) (sync : kt_tab_sync_t)
    (ctx : kt_ctx_t) (b : kt_tab_memblock_t) (L : List kt_tab_sync_t)
    (hfind : ctx.memblock_tab.find addr = some b) (hlock : b.tab.lock = false)
    (hlist : b.body.sync_list = some L) (hnew : ∀ e ∈ L, e.ptr ≠ sync.ptr) :
    ∃ ctx' blk, kt_memblock_add_sync thr addr sync ctx = .ok ctx' ∧
      ctx'.memblock_tab.find addr = some blk ∧ blk.ptr = b.ptr ∧
      blk.body.sync_list = some (sync :: L) ∧
      (sync :: L).head? = some sync ∧
      (sync :: L = L ++ [sync] ↔ L = []) := by
  have hk := (find_mem _ _ _ hfind).2
  refine ⟨_, ⟨b.ptr, ⟨b.tab.key, false⟩, ⟨some (sync :: L), b.body.lock_list⟩⟩,
    kt_memblock_add_sync_found thr addr sync ctx b L hfind hlock hlist,
    write_find_same _ addr b _ hfind rfl hk, rfl, rfl, rfl, ?_⟩
  constructor
  · intro heq
    cases L with
    | nil => rfl
    | cons x xs =>
      simp only [List.cons_append, List.cons.injEq] at heq
      exact absurd (congrArg kt_tab_sync_t.ptr heq.1.symm) (hnew x (List.mem_cons_self _ _))
  · rintro rfl
    rfl

/-- C11, amended, at the concrete context: the record 503 is put in front of 502, 501. -/
theorem kt_memblock_add_sync_prepends_witness :
    ∃ ctx' blk, kt_memblock_add_sync 7 4096 ex_sync3 ex_ctx = .ok ctx' ∧
      ctx'.memblock_tab.find 4096 = some blk ∧ blk.ptr = ex_block.ptr ∧
      blk.body.sync_list = some (ex_sync3 :: [ex_sync2, ex_sync1]) ∧
      (ex_sync3 :: [ex_sync2, ex_sync1]).head? = some ex_sync3 ∧
      (ex_sync3 :: [ex_sync2, ex_sync1] = [ex_sync2, ex_sync1] ++ [ex_sync3] ↔
        [ex_sync2, ex_sync1] = []) :=
  kt_memblock_add_sync_prepends 7 4096 ex_sync3 ex_ctx ex_block [ex_sync2, ex_sync1]
    (by decide) (by decide) (by decide) (by decide)

/-! ## Calls on one key leave the other keys alone -/

theorem kt_memblock_add_sync_ok_quiet (thr : Nat) (addr : uptr_t) (s : kt_tab_sync_t)
    (ctx ctx' : kt_ctx_t) (hrun : kt_memblock_add_sync thr addr s ctx = .ok ctx') :
    quiet ctx addr := by
  intro b hfind
  cases hlock : b.tab.lock with
  | true =>
    simp [kt_memblock_add_sync, kt_memblock_ensure_created,
      kt_tab_access_locked _ _ _ _ _ hfind hlock] at hrun
  | false =>
    refine ⟨rfl, ?_⟩
    cases hlist : b.body.sync_list with
    | none =>
      simp [kt_memblock_add_sync, kt_memblock_ensure_created_found thr addr ctx b hfind hlock,
        hlist, list_add] at hrun
    | some l => exact ⟨l, rfl⟩

theorem kt_memblock_add_sync_other (thr : Nat) (a b : uptr_t) (s : kt_tab_sync_t)
    (ctx ctx' : kt_ctx_t) (hwf : ctx.memblock_tab.wf) (hne : b ≠ a)
    (hrun : kt_memblock_add_sync thr a s ctx = .ok ctx') :
    ctx'.memblock_tab.find b = ctx.memblock_tab.find b := by
  have hq := kt_memblock_add_sync_ok_quiet thr a s ctx ctx' hrun
  obtain ⟨hp, hk, hf, hdisj⟩ := hwf
  cases hfind : ctx.memblock_tab.find a with
  | none =>
    cases hslot : ctx.memblock_tab.obj_cache.free with
    | nil =>
      simp [kt_memblock_add_sync, kt_memblock_ensure_created_oom thr a ctx hfind hslot]
        at hrun
    | cons p rest =>
      rw [kt_memblock_add_sync_fresh thr a s ctx p rest hfind hslot] at hrun
      simp only [Except.ok.injEq] at hrun
      subst hrun
      have hpfresh : p ∉ ctx.memblock_tab.objs.map (fun o => o.ptr) :=
        hdisj p (by rw [hslot]; exact List.mem_cons_self _ _)
      have hfind0 : (kt_tab_t.mk
          ((⟨p, ⟨a, true⟩, default⟩ : kt_tab_memblock_t) :: ctx.memblock_tab.objs)
          ⟨rest⟩).find a = some ⟨p, ⟨a, true⟩, default⟩ := by
        simp [kt_tab_t.find]
      have hp0 : ((kt_tab_t.mk
          ((⟨p, ⟨a, true⟩, default⟩ : kt_tab_memblock_t) :: ctx.memblock_tab.objs)
          ⟨rest⟩).objs.map (fun o => o.ptr)).Nodup := by
        simpa using ⟨by simpa using hpfresh, hp⟩
      have h1 := write_find_other _ a b _ ⟨p, ⟨a, false⟩, ⟨some [s], some []⟩⟩ hp0 hfind0
        rfl rfl hne
      have h2 := create_find_other ctx.memblock_tab ⟨rest⟩ a b
        (⟨p, ⟨a, true⟩, default⟩ : kt_tab_memblock_t) rfl hne
      exact h1.trans h2
  | some blk =>
    obtain ⟨hlock, l, hlist⟩ := hq blk hfind
    rw [kt_memblock_add_sync_found thr a s ctx blk l hfind hlock hlist] at hrun
    simp only [Except.ok.injEq] at hrun
    subst hrun
    exact write_find_other _ a b blk _ hp hfind rfl (find_mem _ _ _ hfind).2 hne

theorem linked_congr (ctx ctx' : kt_ctx_t) (addr : uptr_t)
    (h : ctx'.memblock_tab.find addr = ctx.memblock_tab.find addr) :
    linked ctx' addr = linked ctx addr := by
  simp [linked, h]

theorem kt_memblock_free_other (thr pc : Nat) (base a : uptr_t) (size : Nat) (w : Bool)
    (ctx ctx' : kt_ctx_t) (hne : a ≠ base)
    (hrun : kt_memblock_free thr pc base size w ctx = .ok ctx') :
    ctx'.memblock_tab.find a = ctx.memblock_tab.find a := by
  cases hfind : ctx.memblock_tab.find base with
  | none =>
    rw [kt_memblock_free_absent thr pc base size w ctx hfind] at hrun
    simp only [Except.ok.injEq] at hrun
    subst hrun
    rfl
  | some b =>
    cases hlock : b.tab.lock with
    | true =>
      have hacc := kt_tab_access_locked ctx.memblock_tab base false true b hfind hlock
      cases w
      · simp [kt_memblock_free, hacc] at hrun
      · have hacc2 : kt_tab_access
            (ctx.called (.kt_access_range thr pc base size false) none).memblock_tab base
            false true = .error .spin := hacc
        simp [kt_memblock_free, hacc2] at hrun
    | false =>
      cases hlist : b.body.sync_list with
      | none =>
        have hacc := kt_tab_access_destroy_found ctx.memblock_tab base false b hfind hlock
        cases w
        · simp [kt_memblock_free, hacc, hlist] at hrun
        · have hacc2 : kt_tab_access
              (ctx.called (.kt_access_range thr pc base size false) none).memblock_tab base
              false true = _ := hacc
          simp [kt_memblock_free, hacc2, hlist] at hrun
      | some l =>
        rw [kt_memblock_free_tracked thr pc base size w ctx b l hfind hlock hlist] at hrun
        simp only [Except.ok.injEq] at hrun
        subst hrun
        exact unlink_find_other ctx.memblock_tab base a hne

theorem drain_moments_calls (thr : Nat) (tab : kt_tab_t memblock_body) (stat : kt_stat_t)
    (ptr : Nat) (hdr : kt_tab_obj_t) (ll : list_head Nat) (L : List kt_tab_sync_t) :
    (drain_moments thr tab stat ptr hdr ll L).map (fun m => m.call) =
      L.map (fun s => Call.kt_sync_free thr s.tab.key) := by
  induction L with
  | nil => rfl
  | cons s rest ih => simp [drain_moments, ih]

theorem kt_memblock_addr_slab (mm : Nat → Option page) (addr : Nat) (pg : page)
    (hpg : mm addr = some pg) (hslab : pg.slab = true) (hge : pg.s_mem ≤ addr)
    (h64 : addr < 2 ^ 64) (hoff : addr - pg.s_mem < 2 ^ 32) (hsz : 0 < pg.slab_cache.size)
    (hsz32 : pg.slab_cache.size < 2 ^ 32)
    (hrecip : pg.slab_cache.reciprocal_buffer_size = reciprocal_value_of pg.slab_cache.size) :
    kt_memblock_addr mm addr =
      .ok (pg.s_mem + pg.slab_cache.size * ((addr - pg.s_mem) / pg.slab_cache.size)) := by
  have hq : pg.slab_cache.size * ((addr - pg.s_mem) / pg.slab_cache.size) ≤
      addr - pg.s_mem := Nat.mul_div_le _ _
  have hnlt : ¬ addr < pg.s_mem := by omega
  simp only [kt_memblock_addr, hpg, hslab, if_true, hnlt, if_false, hrecip,
    Nat.mod_eq_of_lt hoff, reciprocal_divide_exact _ _ hoff hsz hsz32]
  generalize pg.slab_cache.size * ((addr - pg.s_mem) / pg.slab_cache.size) = q at hq
  rw [Nat.mod_eq_of_lt (by omega : q < 2 ^ 32),
    Nat.mod_eq_of_lt (by omega : pg.s_mem + q < 2 ^ 64)]

/-! ## C12 -/

theorem ex_mm_object_base (addr : Nat) (h1 : 4352 ≤ addr) (h2 : addr < 4544) :
    kt_memblock_addr ex_mm addr = .ok 4352 := by
  have hpg : ex_mm addr = some ex_page := by
    have : 4096 ≤ addr ∧ addr < 8192 := by omega
    simp [ex_mm, this]
  have hge : ex_page.s_mem ≤ addr := by
    show 4160 ≤ addr
    omega
  have hoff : addr - ex_page.s_mem < 2 ^ 32 := by
    show addr - 4160 < 2 ^ 32
    omega
  rw [kt_memblock_addr_slab ex_mm addr ex_page hpg rfl hge (by omega) hoff
    (by norm_num [ex_page, ex_cache]) (by norm_num [ex_page, ex_cache])
    (by simp only [ex_page, ex_cache])]
  show Except.ok (4160 + 192 * ((addr - 4160) / 192)) = Except.ok 4352
  have : (addr - 4160) / 192 = 1 := by omega
  rw [this]

/-- C12, as stated, fails: the addresses 4360 and 4368 lie in the same slab object,
whose base 4352 is what `kt_memblock_addr` returns for both; yet
`kt_memblock_add_sync(7, 4360, ex_sync1)` and `kt_memblock_add_sync(7, 4368, ex_sync2)`
make two block records, under the keys 4360 and 4368, with one record linked in
each, and `kt_memblock_free` of the base 4352 finds no block: it calls
`kt_sync_free` for neither and both stay linked. -/
theorem kt_memblock_ensure_created_canonical_counterexample :
    kt_memblock_addr ex_mm 4360 = .ok 4352 ∧ kt_memblock_addr ex_mm 4368 = .ok 4352 ∧
    (kt_memblock_add_sync 7 4360 ex_sync1 (kt_ctx_init [1, 2, 3]) >>=
      kt_memblock_add_sync 7 4368 ex_sync2) = .ok ex_ctx_ab ∧
    ex_ctx_ab.memblock_tab.objs.map (fun o => o.tab.key) = [4368, 4360] ∧
    linked ex_ctx_ab 4360 = [ex_sync1] ∧ linked ex_ctx_ab 4368 = [ex_sync2] ∧
    ex_ctx_ab.memblock_tab.find 4352 = none ∧
    kt_memblock_free 7 0 4352 192 false ex_ctx_ab = .ok ex_ctx_ab := by
  refine ⟨ex_mm_object_base 4360 (by omega) (by omega),
    ex_mm_object_base 4368 (by omega) (by omega), by rfl, by decide, by decide, by decide,
    by decide, by rfl⟩

/-- C12, amended: `kt_memblock_ensure_created(thr, addr)` accesses the memory-block
table under `addr` as it is passed; it does not call `kt_memblock_addr`. On a
well-formed table in which every record is linked at most once: (1) the block it
returns has the key `addr` and is the entry stored under `addr`. In (2) and (3)
`s1` and `s2` are two distinct records, neither linked in any block before the
calls, so each `list_add` links a node that is not linked; every record is then
still linked at most once. (2) For two different addresses `a` and `b` (also when
they lie in the same slab object), `kt_memblock_add_sync(thr, a, s1)` and
`kt_memblock_add_sync(thr, b, s2)` link `s1` and `s2` into two different block
records, and `kt_memblock_free` of any third address, such as the object's base,
leaves both linked. (3) When both calls are given the same key `k`, such as the
canonical key `kt_memblock_addr` yields for both addresses, `s1` and `s2` are linked
into the one record under `k`, and `kt_memblock_free` of `k` calls `kt_sync_free`
for every record linked there, `s1` and `s2` among them, and removes the entry. -/
theorem kt_memblock_key_is_addr (thr pc : Nat) (ctx : kt_ctx_t)
    (hwf : ctx.memblock_tab.wf) (honce : linked_once ctx) :
    (∀ addr mb ctx', kt_memblock_ensure_created thr addr ctx = .ok (mb, ctx') →
      mb.tab.key = addr ∧ ctx'.memblock_tab.find addr = some mb) ∧
    (∀ a b s1 s2 ctx1 ctx2, a ≠ b → s1.ptr ≠ s2.ptr → not_linked ctx s1 →
      not_linked ctx s2 → kt_memblock_add_sync thr a s1 ctx = .ok ctx1 →
      kt_memblock_add_sync thr b s2 ctx1 = .ok ctx2 →
      linked_once ctx2 ∧
      linked ctx2 a = s1 :: linked ctx a ∧ linked ctx2 b = s2 :: linked ctx b ∧
      (∃ ba bb, ctx2.memblock_tab.find a = some ba ∧ ctx2.memblock_tab.find b = some bb ∧
        ba.ptr ≠ bb.ptr) ∧
      ∀ base size w ctx3, base ≠ a → base ≠ b →
        kt_memblock_free thr pc base size w ctx2 = .ok ctx3 →
        linked ctx3 a = linked ctx2 a ∧ linked ctx3 b = linked ctx2 b) ∧
    (∀ (mm : Nat → Option page) x y k s1 s2 ctx1 ctx2 size w,
      kt_memblock_addr mm x = .ok k → kt_memblock_addr mm y = .ok k →
      s1.ptr ≠ s2.ptr → not_linked ctx s1 → not_linked ctx s2 →
      kt_memblock_add_sync thr k s1 ctx = .ok ctx1 →
      kt_memblock_add_sync thr k s2 ctx1 = .ok ctx2 →
      linked_once ctx2 ∧ linked ctx2 k = s2 :: s1 :: linked ctx k ∧
      ∃ ctx3 new, kt_memblock_free thr pc k size w ctx2 = .ok ctx3 ∧
        ctx3.log = ctx2.log ++ new ∧
        (sync_free_moments new).map (fun m => m.call) =
          (linked ctx2 k).map (fun s => Call.kt_sync_free thr s.tab.key) ∧
        ctx3.memblock_tab.find k = none) := by
  refine ⟨?_, ?_, ?_⟩
  · intro addr mb ctx' hret
    cases hfind : ctx.memblock_tab.find addr with
    | none =>
      cases hslot : ctx.memblock_tab.obj_cache.free with
      | nil =>
        rw [kt_memblock_ensure_created_oom thr addr ctx hfind hslot] at hret
        cases hret
      | cons p rest =>
        rw [kt_memblock_ensure_created_fresh thr addr ctx p rest hfind hslot] at hret
        simp only [Except.ok.injEq, Prod.mk.injEq] at hret
        obtain ⟨rfl, rfl⟩ := hret
        exact ⟨rfl, fresh_write_find _ _ p addr _ _ rfl rfl rfl⟩
    | some b =>
      cases hlock : b.tab.lock with
      | true =>
        simp [kt_memblock_ensure_created, kt_tab_access_locked _ _ _ _ _ hfind hlock] at hret
      | false =>
        rw [kt_memblock_ensure_created_found thr addr ctx b hfind hlock] at hret
        simp only [Except.ok.injEq, Prod.mk.injEq] at hret
        obtain ⟨rfl, rfl⟩ := hret
        have hk := (find_mem _ _ _ hfind).2
        exact ⟨hk, write_find_same _ addr b _ hfind rfl hk⟩
  · intro a b s1 s2 ctx1 ctx2 hab hs12 hs1 hs2 h1 h2
    have hq1 := kt_memblock_add_sync_ok_quiet thr a s1 ctx ctx1 h1
    obtain ⟨hwf1, _, ⟨ba, hba⟩, hl1⟩ := kt_memblock_add_sync_step thr a s1 ctx ctx1 hwf hq1 h1
    have hq2 := kt_memblock_add_sync_ok_quiet thr b s2 ctx1 ctx2 h2
    obtain ⟨hwf2, _, ⟨bb, hbb⟩, hl2⟩ :=
      kt_memblock_add_sync_step thr b s2 ctx1 ctx2 hwf1 hq2 h2
    have hfa := kt_memblock_add_sync_other thr b a s2 ctx1 ctx2 hwf1 hab h2
    have hfb := kt_memblock_add_sync_other thr a b s1 ctx ctx1 hwf hab.symm h1
    obtain ⟨honce1, hkeep1⟩ :=
      kt_memblock_add_sync_linked_once thr a s1 ctx ctx1 hwf hq1 honce hs1 h1
    refine ⟨(kt_memblock_add_sync_linked_once thr b s2 ctx1 ctx2 hwf1 hq2 honce1
      (hkeep1 s2 (Ne.symm hs12) hs2) h2).1, ?_, ?_, ⟨ba, bb, hfa.trans hba, hbb, ?_⟩, ?_⟩
    · rw [linked_congr _ _ _ hfa, hl1]
    · rw [hl2, linked_congr _ _ _ hfb]
    · exact (find_ptr_ne ctx2.memblock_tab b a bb ba hwf2.1 hab hbb (hfa.trans hba)).symm
    · intro base size w ctx3 hna hnb h3
      exact ⟨linked_congr _ _ _ (kt_memblock_free_other thr pc base a size w ctx2 ctx3
          (Ne.symm hna) h3),
        linked_congr _ _ _ (kt_memblock_free_other thr pc base b size w ctx2 ctx3
          (Ne.symm hnb) h3)⟩
  · intro mm x y k s1 s2 ctx1 ctx2 size w _ _ hs12 hs1 hs2 h1 h2
    have hq1 := kt_memblock_add_sync_ok_quiet thr k s1 ctx ctx1 h1
    obtain ⟨hwf1, hq1', _, hl1⟩ := kt_memblock_add_sync_step thr k s1 ctx ctx1 hwf hq1 h1
    obtain ⟨hwf2, hq2, ⟨b, hb⟩, hl2⟩ :=
      kt_memblock_add_sync_step thr k s2 ctx1 ctx2 hwf1 hq1' h2
    obtain ⟨hlock, l, hlist⟩ := hq2 b hb
    have hlinked : linked ctx2 k = l := by simp [linked, hb, hlist]
    obtain ⟨honce1, hkeep1⟩ :=
      kt_memblock_add_sync_linked_once thr k s1 ctx ctx1 hwf hq1 honce hs1 h1
    refine ⟨(kt_memblock_add_sync_linked_once thr k s2 ctx1 ctx2 hwf1 hq1' honce1
      (hkeep1 s2 (Ne.symm hs12) hs2) h2).1, by rw [hl2, hl1], _, _,
      kt_memblock_free_tracked thr pc k size w ctx2 b l hb hlock hlist, rfl, ?_,
      unlink_find_same _ _ hwf2.2.1⟩
    rw [sync_free_moments_append, sync_free_moments_append, sync_free_moments_shadow,
      sync_free_moments_drain, hlinked]
    simp [sync_free_moments, Call.is_sync_free, drain_moments_calls]

theorem ex_ctx_k1_run : kt_memblock_add_sync 7 4352 ex_sync1 (kt_ctx_init [1, 2, 3]) =
    .ok ex_ctx_k1 := by
  rfl

theorem ex_ctx_k2_run : kt_memblock_add_sync 7 4352 ex_sync2 ex_ctx_k1 = .ok ex_ctx_k2 := by
  rfl

/-- C12, amended, at concrete contexts: given the two addresses 4360 and 4368 the
records end up in two blocks that the free of 4352 leaves alone; given the
canonical key 4352 twice they end up in one block, and its free calls
`kt_sync_free` for both. -/
theorem kt_memblock_key_is_addr_witness :
    (linked_once ex_ctx_ab ∧
      linked ex_ctx_ab 4360 = ex_sync1 :: linked (kt_ctx_init [1, 2, 3]) 4360 ∧
      linked ex_ctx_ab 4368 = ex_sync2 :: linked (kt_ctx_init [1, 2, 3]) 4368 ∧
      (∃ ba bb, ex_ctx_ab.memblock_tab.find 4360 = some ba ∧
        ex_ctx_ab.memblock_tab.find 4368 = some bb ∧ ba.ptr ≠ bb.ptr) ∧
      ∀ base size w ctx3, base ≠ 4360 → base ≠ 4368 →
        kt_memblock_free 7 0 base size w ex_ctx_ab = .ok ctx3 →
        linked ctx3 4360 = linked ex_ctx_ab 4360 ∧ linked ctx3 4368 = linked ex_ctx_ab 4368) ∧
    (linked_once ex_ctx_k2 ∧
      linked ex_ctx_k2 4352 = ex_sync2 :: ex_sync1 :: linked (kt_ctx_init [1, 2, 3]) 4352 ∧
      ∃ ctx3 new, kt_memblock_free 7 0 4352 192 true ex_ctx_k2 = .ok ctx3 ∧
        ctx3.log = ex_ctx_k2.log ++ new ∧
        (sync_free_moments new).map (fun m => m.call) =
          (linked ex_ctx_k2 4352).map (fun s => Call.kt_sync_free 7 s.tab.key) ∧
        ctx3.memblock_tab.find 4352 = none) :=
  ⟨(kt_memblock_key_is_addr 7 0 (kt_ctx_init [1, 2, 3])
      (kt_ctx_init_wf [1, 2, 3] (by decide)) (by decide)).2.1 4360 4368 ex_sync1 ex_sync2
      { memblock_tab :=
          { objs := [⟨1, ⟨4360, false⟩, ⟨some [ex_sync1], some []⟩⟩],
            obj_cache := { free := [2, 3] } },
        stat := { memblock_objects := 1, memblock_alloc := 1, memblock_free := 0 },
        log := [] }
      ex_ctx_ab (by decide) (by decide) (by decide) (by decide) (by rfl) (by rfl),
    (kt_memblock_key_is_addr 7 0 (kt_ctx_init [1, 2, 3])
      (kt_ctx_init_wf [1, 2, 3] (by decide)) (by decide)).2.2 ex_mm 4360 4368 4352 ex_sync1
      ex_sync2 ex_ctx_k1 ex_ctx_k2 192 true (ex_mm_object_base 4360 (by omega) (by omega))
      (ex_mm_object_base 4368 (by omega) (by omega)) (by decide) (by decide) (by decide)
      ex_ctx_k1_run ex_ctx_k2_run⟩

/-! ## C13 -/

theorem or_two_pow_sub_one (x k : Nat) :
    x ||| (2 ^ k - 1) = 2 ^ k * (x / 2 ^ k) + (2 ^ k - 1) := by
  have hlt : 2 ^ k - 1 < 2 ^ k := Nat.sub_lt (Nat.two_pow_pos k) (by norm_num)
  apply Nat.eq_of_testBit_eq
  intro j
  rw [Nat.testBit_or, Nat.testBit_two_pow_sub_one, Nat.testBit_mul_pow_two_add _ hlt,
    Nat.testBit_two_pow_sub_one]
  by_cases hj : j < k
  · simp [hj]
  · simp only [hj, decide_False, Bool.or_false, if_false]
    rw [← Nat.shiftRight_eq_div_pow, Nat.testBit_shiftRight]
    congr 1
    omega

theorem round_up_two_pow (x k : Nat) (hx : x + 2 ^ k ≤ 2 ^ 64) :
    round_up x (2 ^ k) = 2 ^ k * ((x + 2 ^ k - 1) / 2 ^ k) := by
  have hk : 0 < 2 ^ k := Nat.two_pow_pos k
  have hmask : (2 ^ k + 2 ^ 64 - 1) % 2 ^ 64 = 2 ^ k - 1 := by
    rcases Nat.lt_or_ge (2 ^ k) (2 ^ 64) with h | h
    · omega
    · have : 2 ^ k = 2 ^ 64 := by omega
      omega
  unfold round_up
  rw [hmask, or_two_pow_sub_one]
  rcases Nat.eq_zero_or_pos x with h0 | hpos
  · subst h0
    have h64 : (0 + 2 ^ 64 - 1) % 2 ^ 64 = 2 ^ 64 - 1 := by omega
    rw [h64]
    have hk64 : k ≤ 64 := by
      by_contra hcon
      have : 2 ^ 64 < 2 ^ k := Nat.pow_lt_pow_right (by norm_num) (by omega)
      omega
    obtain ⟨d, hd⟩ : ∃ d, 64 = k + d := ⟨64 - k, by omega⟩
    have hsplit : (2:ℕ) ^ 64 = 2 ^ k * 2 ^ d := by
      calc (2:ℕ) ^ 64 = 2 ^ (k + d) := congrArg (fun n => 2 ^ n) hd
        _ = 2 ^ k * 2 ^ d := pow_add 2 k d
    have hd0 : 0 < 2 ^ d := Nat.two_pow_pos d
    rw [hsplit]
    generalize 2 ^ k = G at hk
    generalize 2 ^ d = D at hd0
    obtain ⟨E, rfl⟩ : ∃ E, D = E + 1 := ⟨D - 1, by omega⟩
    have hdiv : (G * (E + 1) - 1) / G = E := by
      have : G * (E + 1) - 1 = (G - 1) + G * E := by
        rw [Nat.mul_add, Nat.mul_one]
        omega
      rw [this, Nat.add_mul_div_left _ _ hk, Nat.div_eq_of_lt (by omega)]
      omega
    have hsum : G * E + (G - 1) + 1 = G * (E + 1) := by
      rw [Nat.mul_add, Nat.mul_one]
      omega
    rw [hdiv, hsum, Nat.mod_self]
    have : (0 + G - 1) / G = 0 := Nat.div_eq_of_lt (by omega)
    rw [this, Nat.mul_zero]
  · have hy : (x + 2 ^ 64 - 1) % 2 ^ 64 = x - 1 := by omega
    rw [hy]
    have hq : 2 ^ k * ((x - 1) / 2 ^ k) ≤ x - 1 := Nat.mul_div_le _ _
    have e : (x + 2 ^ k - 1) / 2 ^ k = (x - 1) / 2 ^ k + 1 := by
      have : x + 2 ^ k - 1 = (x - 1) + 2 ^ k := by omega
      rw [this, Nat.add_div_right _ hk]
    rw [e, Nat.mul_add, Nat.mul_one]
    rw [Nat.mod_eq_of_lt (by omega)]
    omega

theorem round_up_least (x k : Nat) (hx : x + 2 ^ k ≤ 2 ^ 64) :
    2 ^ k ∣ round_up x (2 ^ k) ∧ x ≤ round_up x (2 ^ k) ∧ round_up x (2 ^ k) < x + 2 ^ k ∧
      (∀ m, 2 ^ k ∣ m → x ≤ m → round_up x (2 ^ k) ≤ m) ∧
      (2 ^ k ∣ x → round_up x (2 ^ k) = x) := by
  have hk : 0 < 2 ^ k := Nat.two_pow_pos k
  rw [round_up_two_pow x k hx]
  generalize 2 ^ k = G at hk
  have h1 : G * ((x + G - 1) / G) ≤ x + G - 1 := Nat.mul_div_le _ _
  have h2 : x + G - 1 < G * ((x + G - 1) / G) + G := Nat.lt_mul_div_succ _ hk
  have hleast : ∀ m, G ∣ m → x ≤ m → G * ((x + G - 1) / G) ≤ m := by
    rintro m ⟨c, rfl⟩ hxm
    apply Nat.mul_le_mul_left
    apply (Nat.div_le_iff_le_mul_add_pred hk).mpr
    omega
  refine ⟨Nat.dvd_mul_right _ _, by omega, by omega, hleast, ?_⟩
  intro hdvd
  have := hleast x hdvd le_rfl
  omega

theorem kt_memblock_alloc_shadow (G thr pc : Nat) (addr : uptr_t) (size : Nat) (w : Bool)
    (ctx : kt_ctx_t) :
    (kt_memblock_alloc G thr pc addr size w ctx).memblock_tab = ctx.memblock_tab ∧
    (kt_memblock_alloc G thr pc addr size w ctx).stat = ctx.stat ∧
    (kt_memblock_alloc G thr pc addr size w ctx).log = ctx.log ++
      (if w then [⟨.kt_access_range_imitate thr pc addr (round_up size G) false,
        ctx.memblock_tab, ctx.stat, none⟩] else []) := by
  cases w <;> simp [kt_memblock_alloc, kt_ctx_t.called]

theorem kt_memblock_free_shadow (thr pc : Nat) (addr : uptr_t) (size : Nat) (w : Bool)
    (ctx ctx' : kt_ctx_t) (hrun : kt_memblock_free thr pc addr size w ctx = .ok ctx') :
    ∃ rest, ctx'.log = ctx.log ++ (free_shadow_moments thr pc addr size w ctx ++ rest) ∧
      ∀ m ∈ rest, ∀ t p a n r, m.call ≠ Call.kt_access_range t p a n r ∧
        m.call ≠ Call.kt_access_range_imitate t p a n r := by
  cases hfind : ctx.memblock_tab.find addr with
  | none =>
    rw [kt_memblock_free_absent thr pc addr size w ctx hfind] at hrun
    simp only [Except.ok.injEq] at hrun
    subst hrun
    exact ⟨[], by simp, by simp⟩
  | some b =>
    cases hlock : b.tab.lock with
    | true =>
      have hacc := kt_tab_access_locked ctx.memblock_tab addr false true b hfind hlock
      cases w
      · simp [kt_memblock_free, hacc] at hrun
      · have hacc2 : kt_tab_access
            (ctx.called (.kt_access_range thr pc addr size false) none).memblock_tab addr
            false true = .error .spin := hacc
        simp [kt_memblock_free, hacc2] at hrun
    | false =>
      cases hlist : b.body.sync_list with
      | none =>
        have hacc := kt_tab_access_destroy_found ctx.memblock_tab addr false b hfind hlock
        cases w
        · simp [kt_memblock_free, hacc, hlist] at hrun
        · have hacc2 : kt_tab_access
              (ctx.called (.kt_access_range thr pc addr size false) none).memblock_tab addr
              false true = _ := hacc
          simp [kt_memblock_free, hacc2, hlist] at hrun
      | some l =>
        rw [kt_memblock_free_tracked thr pc addr size w ctx b l hfind hlock hlist] at hrun
        simp only [Except.ok.injEq] at hrun
        subst hrun
        refine ⟨_, rfl, ?_⟩
        intro m hm t p a n r
        rcases List.mem_append.mp hm with hm | hm
        · have hcall : m.call.is_sync_free = true := by
            have := List.mem_filter.mp (by
              rw [← sync_free_moments_drain] at hm
              exact hm : m ∈ List.filter (fun m => m.call.is_sync_free) _)
            exact this.2
          constructor <;> intro heq <;> simp [heq, Call.is_sync_free] at hcall
        · simp only [List.mem_singleton] at hm
          subst hm
          simp

theorem round_up_one_eight : round_up 1 8 = 8 := by
  have h := round_up_two_pow 1 3 (by norm_num)
  norm_num at h
  exact h

/-- C13 at the failing input, with `KT_GRAIN = 8` and `size = 1`:
`kt_memblock_alloc` passes `round_up(1, 8) = 8` to `kt_access_range_imitate`, while
`kt_memblock_free` passes the size 1 to `kt_access_range` as it is; with
`write_to_shadow` clear neither function makes a shadow call. -/
theorem kt_memblock_free_size_unrounded :
    round_up 1 8 = 8 ∧
    (kt_memblock_alloc 8 7 0 4096 1 true ex_ctx).log.map (fun m => m.call) =
      [Call.kt_access_range_imitate 7 0 4096 (round_up 1 8) false] ∧
    (∃ ctx', kt_memblock_free 7 0 4096 1 true ex_ctx = .ok ctx' ∧
      ctx'.log.map (fun m => m.call) =
        [Call.kt_access_range 7 0 4096 1 false, Call.kt_sync_free 7 4128,
          Call.kt_sync_free 7 4112, Call.kt_cache_free 1]) ∧
    (kt_memblock_alloc 8 7 0 4096 1 false ex_ctx).log = [] ∧
    (∃ ctx', kt_memblock_free 7 0 4096 1 false ex_ctx = .ok ctx' ∧
      ctx'.log.map (fun m => m.call) =
        [Call.kt_sync_free 7 4128, Call.kt_sync_free 7 4112, Call.kt_cache_free 1]) := by
  refine ⟨round_up_one_eight, ?_, ⟨_, rfl, by decide⟩, ?_, ⟨_, rfl, by decide⟩⟩
  · rw [(kt_memblock_alloc_shadow 8 7 0 4096 1 true ex_ctx).2.2]
    rfl
  · rw [(kt_memblock_alloc_shadow 8 7 0 4096 1 false ex_ctx).2.2]
    rfl

/-! ## C15 -/

theorem sub_and_test_32 (i : Int) (v : atomic_t) :
    (arch_atomic_sub_and_test i v).1 = decide ((arch_atomic_sub_and_test i v).2.counter = 0) ∧
    (arch_atomic_sub_and_test i v).2.counter = (v.counter + 2 ^ 32 - to_unsigned 32 i) % 2 ^ 32 ∧
    ((arch_atomic_sub_and_test i v).1, (arch_atomic_sub_and_test i v).2.counter) =
      lock_sub_e 32 i v.counter := by
  simp only [arch_atomic_sub_and_test, ktsan_atomic32_fetch_add, lock_sub_e, to_unsigned,
    Prod.mk.injEq, decide_eq_decide]
  refine ⟨?_, ?_, ?_, ?_⟩ <;> first | trivial | omega

theorem dec_and_test_32 (v : atomic_t) :
    (arch_atomic_dec_and_test v).1 = decide ((arch_atomic_dec_and_test v).2.counter = 0) ∧
    (arch_atomic_dec_and_test v).2.counter = (v.counter + 2 ^ 32 - 1) % 2 ^ 32 ∧
    ((arch_atomic_dec_and_test v).1, (arch_atomic_dec_and_test v).2.counter) =
      lock_sub_e 32 1 v.counter := by
  simp only [arch_atomic_dec_and_test, ktsan_atomic32_fetch_add, lock_sub_e, to_unsigned,
    Prod.mk.injEq, decide_eq_decide]
  refine ⟨?_, ?_, ?_, ?_⟩ <;> trivial

theorem inc_and_test_32 (v : atomic_t) :
    (arch_atomic_inc_and_test v).1 = decide ((arch_atomic_inc_and_test v).2.counter = 0) ∧
    (arch_atomic_inc_and_test v).2.counter = (v.counter + 1) % 2 ^ 32 ∧
    ((arch_atomic_inc_and_test v).1, (arch_atomic_inc_and_test v).2.counter) =
      lock_inc_e 32 v.counter := by
  simp only [arch_atomic_inc_and_test, ktsan_atomic32_fetch_add, lock_inc_e, to_unsigned,
    Prod.mk.injEq, decide_eq_decide]
  refine ⟨?_, ?_, ?_, ?_⟩ <;> trivial

theorem add_negative_32 (i : Int) (v : atomic_t) :
    (arch_atomic_add_negative i v).1 =
      decide (to_signed 32 (arch_atomic_add_negative i v).2.counter < 0) ∧
    (arch_atomic_add_negative i v).2.counter = (v.counter + to_unsigned 32 i) % 2 ^ 32 ∧
    ((arch_atomic_add_negative i v).1, (arch_atomic_add_negative i v).2.counter) =
      lock_add_s 32 i v.counter := by
  simp only [arch_atomic_add_negative, ktsan_atomic32_fetch_add, lock_add_s, to_unsigned,
    to_signed, Prod.mk.injEq, decide_eq_decide, Nat.reduceSub]
  refine ⟨?_, ?_, ?_, ?_⟩ <;> first | trivial | omega

theorem sub_and_test_64 (i : Int) (v : atomic64_t) :
    (arch_atomic64_sub_and_test i v).1 =
      decide ((arch_atomic64_sub_and_test i v).2.counter = 0) ∧
    (arch_atomic64_sub_and_test i v).2.counter =
      (v.counter + 2 ^ 64 - to_unsigned 64 i) % 2 ^ 64 ∧
    ((arch_atomic64_sub_and_test i v).1, (arch_atomic64_sub_and_test i v).2.counter) =
      lock_sub_e 64 i v.counter := by
  simp only [arch_atomic64_sub_and_test, ktsan_atomic64_fetch_add, lock_sub_e, to_unsigned,
    Prod.mk.injEq, decide_eq_decide]
  refine ⟨?_, ?_, ?_, ?_⟩ <;> first | trivial | omega

theorem dec_and_test_64 (v : atomic64_t) :
    (arch_atomic64_dec_and_test v).1 = decide ((arch_atomic64_dec_and_test v).2.counter = 0) ∧
    (arch_atomic64_dec_and_test v).2.counter = (v.counter + 2 ^ 64 - 1) % 2 ^ 64 ∧
    ((arch_atomic64_dec_and_test v).1, (arch_atomic64_dec_and_test v).2.counter) =
      lock_sub_e 64 1 v.counter := by
  simp only [arch_atomic64_dec_and_test, ktsan_atomic64_fetch_add, lock_sub_e, to_unsigned,
    Prod.mk.injEq, decide_eq_decide]
  refine ⟨?_, ?_, ?_, ?_⟩ <;> trivial

theorem inc_and_test_64 (v : atomic64_t) :
    (arch_atomic64_inc_and_test v).1 = decide ((arch_atomic64_inc_and_test v).2.counter = 0) ∧
    (arch_atomic64_inc_and_test v).2.counter = (v.counter + 1) % 2 ^ 64 ∧
    ((arch_atomic64_inc_and_test v).1, (arch_atomic64_inc_and_test v).2.counter) =
      lock_inc_e 64 v.counter := by
  simp only [arch_atomic64_inc_and_test, ktsan_atomic64_fetch_add, lock_inc_e, to_unsigned,
    Prod.mk.injEq, decide_eq_decide]
  refine ⟨?_, ?_, ?_, ?_⟩ <;> trivial

theorem add_negative_64 (i : Int) (v : atomic64_t) :
    (arch_atomic64_add_negative i v).1 =
      decide (to_signed 64 (arch_atomic64_add_negative i v).2.counter < 0) ∧
    (arch_atomic64_add_negative i v).2.counter = (v.counter + to_unsigned 64 i) % 2 ^ 64 ∧
    ((arch_atomic64_add_negative i v).1, (arch_atomic64_add_negative i v).2.counter) =
      lock_add_s 64 i v.counter := by
  simp only [arch_atomic64_add_negative, ktsan_atomic64_fetch_add, lock_add_s, to_unsigned,
    to_signed, Prod.mk.injEq, decide_eq_decide, Nat.reduceSub]
  refine ⟨?_, ?_, ?_, ?_⟩ <;> first | trivial | omega

/-- C15: with `CONFIG_KTSAN`, and `ktsan_atomic32_fetch_add` / `ktsan_atomic64_fetch_add`
returning the old counter and storing old + value modulo `2 ^ 32` / `2 ^ 64`: for
every old counter and every `i`, `arch_atomic_sub_and_test`,
`arch_atomic_dec_and_test` and `arch_atomic_inc_and_test` return true exactly when
the value they store is zero, `arch_atomic_add_negative` returns true exactly when
the value it stores is negative as a signed 32-bit integer, and each returns the
flag and stores the value of the instruction path (`lock sub`/`dec`/`inc` with the
flag `e`, `lock add` with the flag `s`); likewise for the four `arch_atomic64_*`
functions on 64 bits. -/
theorem arch_atomic_tests_match_stored (i : Int) (v : atomic_t) (v64 : atomic64_t) :
    ((arch_atomic_sub_and_test i v).1 = decide ((arch_atomic_sub_and_test i v).2.counter = 0) ∧
      ((arch_atomic_sub_and_test i v).1, (arch_atomic_sub_and_test i v).2.counter) =
        lock_sub_e 32 i v.counter) ∧
    ((arch_atomic_dec_and_test v).1 = decide ((arch_atomic_dec_and_test v).2.counter = 0) ∧
      ((arch_atomic_dec_and_test v).1, (arch_atomic_dec_and_test v).2.counter) =
        lock_sub_e 32 1 v.counter) ∧
    ((arch_atomic_inc_and_test v).1 = decide ((arch_atomic_inc_and_test v).2.counter = 0) ∧
      ((arch_atomic_inc_and_test v).1, (arch_atomic_inc_and_test v).2.counter) =
        lock_inc_e 32 v.counter) ∧
    ((arch_atomic_add_negative i v).1 =
        decide (to_signed 32 (arch_atomic_add_negative i v).2.counter < 0) ∧
      ((arch_atomic_add_negative i v).1, (arch_atomic_add_negative i v).2.counter) =
        lock_add_s 32 i v.counter) ∧
    ((arch_atomic64_sub_and_test i v64).1 =
        decide ((arch_atomic64_sub_and_test i v64).2.counter = 0) ∧
      ((arch_atomic64_sub_and_test i v64).1, (arch_atomic64_sub_and_test i v64).2.counter) =
        lock_sub_e 64 i v64.counter) ∧
    ((arch_atomic64_dec_and_test v64).1 =
        decide ((arch_atomic64_dec_and_test v64).2.counter = 0) ∧
      ((arch_atomic64_dec_and_test v64).1, (arch_atomic64_dec_and_test v64).2.counter) =
        lock_sub_e 64 1 v64.counter) ∧
    ((arch_atomic64_inc_and_test v64).1 =
        decide ((arch_atomic64_inc_and_test v64).2.counter = 0) ∧
      ((arch_atomic64_inc_and_test v64).1, (arch_atomic64_inc_and_test v64).2.counter) =
        lock_inc_e 64 v64.counter) ∧
    ((arch_atomic64_add_negative i v64).1 =
        decide (to_signed 64 (arch_atomic64_add_negative i v64).2.counter < 0) ∧
      ((arch_atomic64_add_negative i v64).1, (arch_atomic64_add_negative i v64).2.counter) =
        lock_add_s 64 i v64.counter) :=
  ⟨⟨(sub_and_test_32 i v).1, (sub_and_test_32 i v).2.2⟩,
    ⟨(dec_and_test_32 v).1, (dec_and_test_32 v).2.2⟩,
    ⟨(inc_and_test_32 v).1, (inc_and_test_32 v).2.2⟩,
    ⟨(add_negative_32 i v).1, (add_negative_32 i v).2.2⟩,
    ⟨(sub_and_test_64 i v64).1, (sub_and_test_64 i v64).2.2⟩,
    ⟨(dec_and_test_64 v64).1, (dec_and_test_64 v64).2.2⟩,
    ⟨(inc_and_test_64 v64).1, (inc_and_test_64 v64).2.2⟩,
    ⟨(add_negative_64 i v64).1, (add_negative_64 i v64).2.2⟩⟩

theorem arch_atomic_add_negative_at_int_max :
    arch_atomic_add_negative 1 ⟨2147483647⟩ = (true, ⟨2147483648⟩) ∧
    arch_atomic_dec_and_test ⟨1⟩ = (true, ⟨0⟩) ∧
    arch_atomic_inc_and_test ⟨4294967295⟩ = (true, ⟨0⟩) ∧
    arch_atomic_sub_and_test (-1) ⟨4294967295⟩ = (true, ⟨0⟩) ∧
    arch_atomic_sub_and_test 5 ⟨7⟩ = (false, ⟨2⟩) := by
  simp [arch_atomic_add_negative, arch_atomic_dec_and_test, arch_atomic_inc_and_test,
    arch_atomic_sub_and_test, ktsan_atomic32_fetch_add, to_unsigned, to_signed]

/-! ## C16 -/

theorem kt_memblock_add_sync_counters (thr : Nat) (addr : uptr_t) (s : kt_tab_sync_t)
    (ctx ctx' : kt_ctx_t) (hagree : counters_agree ctx)
    (hrun : kt_memblock_add_sync thr addr s ctx = .ok ctx') : counters_agree ctx' := by
  have hq := kt_memblock_add_sync_ok_quiet thr addr s ctx ctx' hrun
  obtain ⟨h1, h2⟩ := hagree
  cases hfind : ctx.memblock_tab.find addr with
  | none =>
    cases hslot : ctx.memblock_tab.obj_cache.free with
    | nil =>
      simp [kt_memblock_add_sync, kt_memblock_ensure_created_oom thr addr ctx hfind hslot]
        at hrun
    | cons p rest =>
      rw [kt_memblock_add_sync_fresh thr addr s ctx p rest hfind hslot] at hrun
      simp only [Except.ok.injEq] at hrun
      subst hrun
      simp only [counters_agree, kt_stat_add, kt_tab_t.write, List.length_map,
        List.length_cons, Nat.cast_add, Nat.cast_one]
      constructor <;> omega
  | some b =>
    obtain ⟨hlock, l, hlist⟩ := hq b hfind
    rw [kt_memblock_add_sync_found thr addr s ctx b l hfind hlock hlist] at hrun
    simp only [Except.ok.injEq] at hrun
    subst hrun
    simp only [counters_agree, kt_tab_t.write, List.length_map]
    exact ⟨h1, h2⟩

theorem kt_memblock_remove_sync_counters (thr : Nat) (addr : uptr_t) (sync : kt_tab_sync_t)
    (ctx ctx' : kt_ctx_t) (hrun : kt_memblock_remove_sync thr addr sync ctx = .ok ctx') :
    ctx'.stat = ctx.stat ∧ ctx'.log = ctx.log ∧
      ctx'.memblock_tab.objs.length = ctx.memblock_tab.objs.length ∧
      ctx'.memblock_tab.obj_cache = ctx.memblock_tab.obj_cache := by
  cases hfind : ctx.memblock_tab.find addr with
  | none =>
    simp [kt_memblock_remove_sync, kt_tab_access_lookup_absent _ _ _ hfind] at hrun
  | some b =>
    cases hlock : b.tab.lock with
    | true =>
      simp [kt_memblock_remove_sync, kt_tab_access_locked _ _ _ _ _ hfind hlock] at hrun
    | false =>
      cases hlist : b.body.sync_list with
      | none =>
        simp [kt_memblock_remove_sync, kt_tab_access_found _ _ _ _ hfind hlock, hlist] at hrun
      | some l =>
        rw [kt_memblock_remove_sync_found thr addr sync ctx b l hfind hlock hlist] at hrun
        cases hf : l.find? (fun entry => decide (entry.ptr = sync.ptr)) with
        | none => simp [hf] at hrun
        | some entry =>
          simp only [hf, Except.ok.injEq] at hrun
          subst hrun
          simp [kt_tab_t.write]

theorem kt_memblock_free_counters (thr pc : Nat) (addr : uptr_t) (size : Nat) (w : Bool)
    (ctx ctx' : kt_ctx_t) (hagree : counters_agree ctx)
    (hrun : kt_memblock_free thr pc addr size w ctx = .ok ctx') : counters_agree ctx' := by
  obtain ⟨h1, h2⟩ := hagree
  cases hfind : ctx.memblock_tab.find addr with
  | none =>
    rw [kt_memblock_free_absent thr pc addr size w ctx hfind] at hrun
    simp only [Except.ok.injEq] at hrun
    subst hrun
    exact ⟨h1, h2⟩
  | some b =>
    cases hlock : b.tab.lock with
    | true =>
      have hacc := kt_tab_access_locked ctx.memblock_tab addr false true b hfind hlock
      cases w
      · simp [kt_memblock_free, hacc] at hrun
      · have hacc2 : kt_tab_access
            (ctx.called (.kt_access_range thr pc addr size false) none).memblock_tab addr
            false true = .error .spin := hacc
        simp [kt_memblock_free, hacc2] at hrun
    | false =>
      cases hlist : b.body.sync_list with
      | none =>
        have hacc := kt_tab_access_destroy_found ctx.memblock_tab addr false b hfind hlock
        cases w
        · simp [kt_memblock_free, hacc, hlist] at hrun
        · have hacc2 : kt_tab_access
              (ctx.called (.kt_access_range thr pc addr size false) none).memblock_tab addr
              false true = _ := hacc
          simp [kt_memblock_free, hacc2, hlist] at hrun
      | some l =>
        rw [kt_memblock_free_tracked thr pc addr size w ctx b l hfind hlock hlist] at hrun
        simp only [Except.ok.injEq] at hrun
        subst hrun
        obtain ⟨hmem, hk⟩ := find_mem _ _ _ hfind
        have hlen := List.length_eraseP_of_mem (p := fun x => decide (x.tab.key = addr)) hmem
          (by simpa using hk)
        have hpos : 0 < ctx.memblock_tab.objs.length := List.length_pos_of_mem hmem
        simp only [counters_agree, kt_stat_add, kt_tab_t.unlink, hlen]
        have hcast : ((ctx.memblock_tab.objs.length - 1 : Nat) : Int) =
            (ctx.memblock_tab.objs.length : Int) - 1 := by omega
        rw [hcast]
        constructor <;> omega

theorem memblock_call_run_counters (G : Nat) (c : memblock_call) (ctx ctx' : kt_ctx_t)
    (hagree : counters_agree ctx) (hrun : c.run G ctx = .ok ctx') : counters_agree ctx' := by
  cases c with
  | alloc thr pc addr size w =>
    simp only [memblock_call.run, Except.ok.injEq] at hrun
    subst hrun
    obtain ⟨ht, hs, _⟩ := kt_memblock_alloc_shadow G thr pc addr size w ctx
    simp only [counters_agree, ht, hs]
    exact hagree
  | add_sync thr addr sync => exact kt_memblock_add_sync_counters thr addr sync ctx ctx' hagree hrun
  | remove_sync thr addr sync =>
    obtain ⟨hs, _, hl, _⟩ := kt_memblock_remove_sync_counters thr addr sync ctx ctx' hrun
    simp only [counters_agree, hs, hl]
    exact hagree
  | free thr pc addr size w => exact kt_memblock_free_counters thr pc addr size w ctx ctx' hagree hrun

theorem memblock_call_run_wf (G : Nat) (c : memblock_call) (ctx ctx' : kt_ctx_t)
    (hwf : ctx.memblock_tab.wf) (hrun : c.run G ctx = .ok ctx') : ctx'.memblock_tab.wf := by
  cases c with
  | alloc thr pc addr size w =>
    simp only [memblock_call.run, Except.ok.injEq] at hrun
    subst hrun
    rw [(kt_memblock_alloc_shadow G thr pc addr size w ctx).1]
    exact hwf
  | add_sync thr addr sync =>
    exact (kt_memblock_add_sync_step thr addr sync ctx ctx' hwf
      (kt_memblock_add_sync_ok_quiet thr addr sync ctx ctx' hrun) hrun).1
  | remove_sync thr addr sync =>
    exact (kt_memblock_remove_sync_wf thr addr sync ctx ctx' hwf hrun).1
  | free thr pc addr size w => exact kt_memblock_free_wf thr pc addr size w ctx ctx' hwf hrun

theorem run_calls_invariant (G : Nat) (calls : List memblock_call) :
    ∀ ctx ctx' : kt_ctx_t, run_calls G calls ctx = .ok ctx' →
      (counters_agree ctx → counters_agree ctx') ∧
      (ctx.memblock_tab.wf → ctx'.memblock_tab.wf) := by
  induction calls with
  | nil =>
    intro ctx ctx' hrun
    simp only [run_calls, Except.ok.injEq] at hrun
    subst hrun
    exact ⟨id, id⟩
  | cons c rest ih =>
    intro ctx ctx' hrun
    simp only [run_calls] at hrun
    cases h1 : c.run G ctx with
    | error f => simp [h1] at hrun
    | ok c1 =>
      simp only [h1] at hrun
      obtain ⟨ha, hw⟩ := ih c1 ctx' hrun
      exact ⟨fun h => ha (memblock_call_run_counters G c ctx c1 h h1),
        fun h => hw (memblock_call_run_wf G c ctx c1 h h1)⟩

/-- C16: start from an empty memory-block table with all counters zero (over any
pool of slots) and let any sequence of `kt_memblock_alloc`, `kt_memblock_add_sync`,
`kt_memblock_remove_sync` and `kt_memblock_free` calls return. Then
`kt_stat_memblock_objects` equals `kt_stat_memblock_alloc` minus
`kt_stat_memblock_free` and equals the number of entries in the table. In every
context reached, `kt_memblock_alloc` leaves the counters and the table as they
are, and a `kt_memblock_remove_sync` that returns leaves the counters and the
number of entries as they are and, the slots of the pool being distinct, the keys
of the table too. -/
theorem memblock_counters_invariant (G : Nat) (slots : List Nat)
    (calls : List memblock_call) (ctx : kt_ctx_t)
    (hrun : run_calls G calls (kt_ctx_init slots) = .ok ctx) :
    ctx.stat.memblock_objects = ctx.stat.memblock_alloc - ctx.stat.memblock_free ∧
    ctx.stat.memblock_objects = (ctx.memblock_tab.objs.length : Int) ∧
    (∀ thr pc addr size w,
      (kt_memblock_alloc G thr pc addr size w ctx).stat = ctx.stat ∧
      (kt_memblock_alloc G thr pc addr size w ctx).memblock_tab = ctx.memblock_tab) ∧
    (∀ thr addr sync ctx', kt_memblock_remove_sync thr addr sync ctx = .ok ctx' →
      ctx'.stat = ctx.stat ∧
      ctx'.memblock_tab.objs.length = ctx.memblock_tab.objs.length ∧
      (slots.Nodup → ctx'.memblock_tab.objs.map (fun o => o.tab.key) =
        ctx.memblock_tab.objs.map (fun o => o.tab.key))) := by
  obtain ⟨hagree, hwf⟩ := run_calls_invariant G calls (kt_ctx_init slots) ctx hrun
  have h0 : counters_agree (kt_ctx_init slots) := by
    simp [counters_agree, kt_ctx_init]
  obtain ⟨h1, h2⟩ := hagree h0
  refine ⟨h1, h2, ?_, ?_⟩
  · intro thr pc addr size w
    obtain ⟨ht, hs, _⟩ := kt_memblock_alloc_shadow G thr pc addr size w ctx
    exact ⟨hs, ht⟩
  · intro thr addr sync ctx' hrem
    obtain ⟨hs, _, hl, _⟩ := kt_memblock_remove_sync_counters thr addr sync ctx ctx' hrem
    refine ⟨hs, hl, ?_⟩
    intro hnd
    exact (kt_memblock_remove_sync_wf thr addr sync ctx ctx'
      (hwf (kt_ctx_init_wf slots hnd)) hrem).2.2.2

theorem ex_ctx_calls_run : run_calls 8 ex_calls (kt_ctx_init [1, 2, 3]) = .ok ex_ctx_calls := by
  rfl

/-- C16 at a concrete run: after the calls `ex_calls` two blocks were created, one
was freed and one entry is left. -/
theorem memblock_counters_invariant_witness :
    (ex_ctx_calls.stat.memblock_objects =
        ex_ctx_calls.stat.memblock_alloc - ex_ctx_calls.stat.memblock_free ∧
      ex_ctx_calls.stat.memblock_objects = (ex_ctx_calls.memblock_tab.objs.length : Int) ∧
      (∀ thr pc addr size w,
        (kt_memblock_alloc 8 thr pc addr size w ex_ctx_calls).stat = ex_ctx_calls.stat ∧
        (kt_memblock_alloc 8 thr pc addr size w ex_ctx_calls).memblock_tab =
          ex_ctx_calls.memblock_tab) ∧
      (∀ thr addr sync ctx', kt_memblock_remove_sync thr addr sync ex_ctx_calls = .ok ctx' →
        ctx'.stat = ex_ctx_calls.stat ∧
        ctx'.memblock_tab.objs.length = ex_ctx_calls.memblock_tab.objs.length ∧
        ([1, 2, 3].Nodup → ctx'.memblock_tab.objs.map (fun o => o.tab.key) =
          ex_ctx_calls.memblock_tab.objs.map (fun o => o.tab.key)))) ∧
    ex_ctx_calls.stat = { memblock_objects := 1, memblock_alloc := 2, memblock_free := 1 } ∧
    ex_ctx_calls.memblock_tab.objs.map (fun o => o.tab.key) = [8192] :=
  ⟨memblock_counters_invariant 8 [1, 2, 3] ex_calls ex_ctx_calls ex_ctx_calls_run,
    by decide, by decide⟩

/-! ## One entry per key, in every table reached by sequential accesses -/

theorem kt_tab_access_wf {α : Type} [Inhabited α] (tab : kt_tab_t α) (k : uptr_t)
    (c d : Bool) (r : kt_tab_access_ret α) (hwf : tab.wf)
    (hacc : kt_tab_access tab k c d = .ok r) : r.tab.wf := by
  obtain ⟨hp, hk, hf, hdisj⟩ := hwf
  unfold kt_tab_access at hacc
  cases hfind : tab.find k with
  | some o =>
    simp only [hfind] at hacc
    cases hlock : o.tab.lock with
    | true => simp [hlock] at hacc
    | false =>
      simp only [hlock, Bool.false_eq_true, if_false] at hacc
      cases d with
      | true =>
        simp only [if_true, Except.ok.injEq] at hacc
        subst hacc
        have hsub := unlink_sublist tab k
        exact ⟨(hsub.map _).nodup hp, (hsub.map _).nodup hk, hf,
          fun q hq hmem => hdisj q hq ((hsub.map _).subset hmem)⟩
      | false =>
        simp only [Bool.false_eq_true, if_false, Except.ok.injEq] at hacc
        subst hacc
        have hkeys := write_keys tab k o ⟨o.ptr, ⟨o.tab.key, true⟩, o.body⟩ hp hfind rfl
          (find_mem _ _ _ hfind).2
        refine ⟨?_, ?_, hf, ?_⟩
        · rw [write_ptrs]
          exact hp
        · simp only [hkeys]
          exact hk
        · intro q hq
          rw [write_ptrs]
          exact hdisj q hq
  | none =>
    simp only [hfind] at hacc
    cases hcd : (c && !d) with
    | false =>
      simp only [hcd, Bool.false_eq_true, if_false, Except.ok.injEq] at hacc
      subst hacc
      exact ⟨hp, hk, hf, hdisj⟩
    | true =>
      simp only [hcd, if_true] at hacc
      cases hslot : tab.obj_cache.free with
      | nil =>
        simp only [kt_cache_alloc, hslot, Except.ok.injEq] at hacc
        subst hacc
        exact ⟨hp, hk, hf, hdisj⟩
      | cons p rest =>
        simp only [kt_cache_alloc, hslot, Except.ok.injEq] at hacc
        subst hacc
        rw [hslot] at hf hdisj
        have hpfresh : p ∉ tab.objs.map (fun o => o.ptr) := hdisj p (List.mem_cons_self _ _)
        have hkfresh : k ∉ tab.objs.map (fun o => o.tab.key) := by
          intro hmem
          obtain ⟨o, ho, hok⟩ := List.mem_map.mp hmem
          exact (find_none_iff _ _).mp hfind o ho hok
        refine ⟨?_, ?_, (List.nodup_cons.mp hf).2, ?_⟩
        · simpa using ⟨by simpa using hpfresh, hp⟩
        · simpa using ⟨by simpa using hkfresh, hk⟩
        · intro q hq2
          simp only [List.map_cons, List.mem_cons, not_or]
          refine ⟨?_, hdisj q (List.mem_cons_of_mem _ hq2)⟩
          rintro rfl
          exact (List.nodup_cons.mp hf).1 hq2

end Ktsan
